import Mathlib

/-!
# WavLoader / AudioSamplerStream

A shallow embedding of `WavLoader.h`, `WavLoader.cpp` and `AudioStream.h`:
the POSIX file wrapper, the block-caching WAV reader and the P-Buffer
sampler stream (intro segment plus a three-slot ring of 512-byte blocks).

Conventions of the embedding.
* A byte is a `Nat`; a buffer is a `List Nat` of bytes.
* `uint32_t` values are `Nat`s reduced modulo `2^32` where the source can wrap.
* `int32_t` members that the source only ever uses after conversion to
  `uint32_t` (`_blockNum`, `_bufferLen`) are stored by their unsigned image,
  so `-1` is `4294967295`.
* `x >> 9` is `x / 512` and `x & 0x1FF` is `x % 512`.
* A pointer into `_introBuf` / `_ringBuf` is the number of samples between it
  and `&_introBuf[0]`; the two arrays are adjacent members of the same type,
  so `_ringBuf` is at offset `IntroBufSize`.
* Undefined behaviour (null dereference, signed overflow, division by zero)
  is the result `none`.
-/

/-- Conversion of a (possibly negative) `long` to `uint32_t`. -/
def toU32 (x : Int) : Nat := (x % 4294967296).toNat

/-- `static inline uint32_t MIN(uint32_t a, uint32_t b)`. -/
def MIN (a b : Nat) : Nat := if a < b then a else b

/-- The effect of `memcpy(buf + off, bytes, bytes.length)` (or of a read that
delivers `bytes` at `buf + off`): the bytes land at offset `off`, every other
byte of `buf` stays. -/
def writeAt (buf : List Nat) (off : Nat) (bytes : List Nat) : List Nat :=
  buf.take off ++ bytes ++ buf.drop (off + bytes.length)

/-- Little-endian 16-bit field of a packed struct, at byte offset `off`. -/
def le16 (bs : List Nat) (off : Nat) : Nat :=
  bs.getD off 0 + 256 * bs.getD (off + 1) 0

/-- Little-endian 32-bit field of a packed struct, at byte offset `off`. -/
def le32 (bs : List Nat) (off : Nat) : Nat :=
  bs.getD off 0 + 256 * bs.getD (off + 1) 0 + 65536 * bs.getD (off + 2) 0
    + 16777216 * bs.getD (off + 3) 0

/-- `sizeof(WavHeader)`: the struct is packed, 44 bytes. -/
def sizeofWavHeader : Nat := 44

/-- `kRiffHeader`: the bytes of "RIFF". -/
def kRiffHeader : List Nat := [82, 73, 70, 70]

/-! ## PosixFileWrapper -/

/-- `PosixFileWrapper`: a named file and its `FILE*`.
`bytes` is the content of the file, `present` tells whether `fopen` on the
name succeeds, `_file` is the stream: `none` for `NULL`, `some p` for an open
stream whose position is byte `p`. -/
structure FileWrapper where
  bytes : List Nat
  present : Bool
  _file : Option Nat
deriving DecidableEq

namespace FileWrapper

/-- `PosixFileWrapper::close`. -/
def close (f : FileWrapper) : FileWrapper := { f with _file := none }

/-- `PosixFileWrapper::open`: closes an open stream, then `fopen`. -/
def openFile (f : FileWrapper) : Bool × FileWrapper :=
  if f.present then (true, { f with _file := some 0 })
  else (false, { f with _file := none })

/-- `PosixFileWrapper::read`: `fread(buf, 1, size, _file)`; the delivered
bytes and the wrapper afterwards. A `NULL` stream delivers nothing. -/
def read (f : FileWrapper) (size : Nat) : List Nat × FileWrapper :=
  match f._file with
  | none => ([], f)
  | some p =>
    let got := (f.bytes.drop p).take size
    (got, { f with _file := some (p + got.length) })

/-- `PosixFileWrapper::seek`: `fseek(_file, pos, SEEK_SET)`, which succeeds
for every offset; `false` on a `NULL` stream. -/
def seek (f : FileWrapper) (pos : Nat) : Bool × FileWrapper :=
  match f._file with
  | none => (false, f)
  | some _ => (true, { f with _file := some pos })

/-- `PosixFileWrapper::size`: the length of the file, `-1` on a `NULL`
stream. -/
def size (f : FileWrapper) : Int :=
  match f._file with
  | none => -1
  | some _ => (f.bytes.length : Int)

end FileWrapper

/-! ## WavLoader -/

/-- `class WavLoader`. `_header` holds the 44 raw bytes of the packed
`WavHeader`; `_file` is the `FileWrapper*` (`none` for `NULL`). -/
structure WavLoader where
  _header : List Nat
  _file : Option FileWrapper
  _position : Nat
  _blockNum : Nat
  _bufferLen : Nat
  _buffer : List Nat
deriving DecidableEq

namespace WavLoader

/-- `BLOCKSIZE`. -/
def BLOCKSIZE : Nat := 512

/-- `_header.ChunkID`. -/
def chunkID (w : WavLoader) : List Nat := w._header.take 4

/-- `_header.ChunkSize`. -/
def chunkSize (w : WavLoader) : Nat := le32 w._header 4

/-- `sampleRate()`. -/
def sampleRate (w : WavLoader) : Nat := le32 w._header 24

/-- `bitsPerSample()`. -/
def bitsPerSample (w : WavLoader) : Nat := le16 w._header 34

/-- `numChannels()`. -/
def numChannels (w : WavLoader) : Nat := le16 w._header 22

/-- `frameAlignment()`: `_header.BlockAlign`. -/
def frameAlignment (w : WavLoader) : Nat := le16 w._header 32

/-- `_header.SubChunk2Size`. -/
def subChunk2Size (w : WavLoader) : Nat := le32 w._header 40

/-- `numSamples()`: `SubChunk2Size / BlockAlign`; division by zero is
undefined. -/
def numSamples (w : WavLoader) : Option Nat :=
  if w.frameAlignment = 0 then none else some (w.subChunk2Size / w.frameAlignment)

/-- `fileSize()`: `_header.ChunkSize + 8` in `uint32_t`. -/
def fileSize (w : WavLoader) : Nat := (w.chunkSize + 8) % 4294967296

/-- `WavLoader::open`. -/
def openWav (w : WavLoader) (wrapper : Option FileWrapper) : Bool × WavLoader :=
  match wrapper with
  | none => (false, w)
  | some f =>
    match f.openFile with
    | (false, _) => (false, { w with _file := none })
    | (true, f1) =>
      let r := f1.read sizeofWavHeader
      let hdr := writeAt w._header 0 r.1
      if r.1.length ≠ sizeofWavHeader then
        (false, { w with _file := some r.2.close, _header := hdr })
      else if hdr.take 4 ≠ kRiffHeader then
        (false, { w with _file := some r.2.close, _header := hdr })
      else
        (true, { w with _file := some r.2, _header := hdr, _position := r.1.length })

/-- `WavLoader::seek`: stores the byte position and seeks the file. -/
def seek (w : WavLoader) (position : Nat) : Option (Bool × WavLoader) :=
  match w._file with
  | none => none
  | some f =>
    let r := f.seek position
    some (r.1, { w with _position := position, _file := some r.2 })

/-- One pass through the body of the `while` loop of `WavLoader::read`: the
loader, the file, the bytes delivered to `buf` so far (`cur - buf` is their
number) and `shortRead`, afterwards. -/
def readBody (endBlockNum endOffset : Nat) (w : WavLoader) (f : FileWrapper)
    (out : List Nat) (shortRead : Bool) : WavLoader × FileWrapper × List Nat × Bool :=
  let curBlockNum := w._position / 512
  let curOffset := w._position % 512
  if curBlockNum = w._blockNum then
    let end0 := w._bufferLen
    let end1 := if curBlockNum = endBlockNum then MIN end0 endOffset else end0
    let short1 := if curBlockNum = endBlockNum ∧ end1 < endOffset then true else shortRead
    if curOffset < w._bufferLen then
      let result := toU32 ((end1 : Int) - (curOffset : Int))
      let chunk := (w._buffer.drop curOffset).take result
      ({ w with _position := (w._position + result) % 4294967296 }, f, out ++ chunk, short1)
    else
      (w, f, out, true)
  else if curBlockNum = endBlockNum ∨ curOffset > 0 then
    let f1 := (f.seek (curBlockNum * BLOCKSIZE)).2
    let r := f1.read BLOCKSIZE
    let buffer := writeAt w._buffer 0 r.1
    let bufferLen := r.1.length
    let theEnd := MIN bufferLen endOffset
    let short1 := decide (theEnd < endOffset)
    if curOffset < theEnd then
      let result := theEnd - curOffset
      let chunk := (buffer.drop curOffset).take result
      ({ w with _buffer := buffer, _bufferLen := bufferLen, _blockNum := curBlockNum,
                _position := (w._position + result) % 4294967296 },
        r.2, out ++ chunk, short1)
    else
      ({ w with _buffer := buffer, _bufferLen := bufferLen, _blockNum := curBlockNum },
        r.2, out, true)
  else
    let r := f.read BLOCKSIZE
    ({ w with _position := (w._position + r.1.length) % 4294967296 },
      r.2, out ++ r.1, decide (r.1.length < BLOCKSIZE))

/-- The `while` loop of `WavLoader::read`,
`while (!shortRead && cur < (uint8_t*)buf + clippedSize)`. One unit of `fuel`
is one iteration; every iteration that does not set `shortRead` delivers at
least one byte, so `clippedSize` units are enough. -/
def readLoop (clippedSize endBlockNum endOffset : Nat) :
    Nat → WavLoader → FileWrapper → List Nat → Bool → List Nat × WavLoader × FileWrapper
  | 0, w, f, out, _ => (out, w, f)
  | fuel + 1, w, f, out, shortRead =>
    if !shortRead && decide (out.length < clippedSize) then
      readLoop clippedSize endBlockNum endOffset fuel
        (readBody endBlockNum endOffset w f out shortRead).1
        (readBody endBlockNum endOffset w f out shortRead).2.1
        (readBody endBlockNum endOffset w f out shortRead).2.2.1
        (readBody endBlockNum endOffset w f out shortRead).2.2.2
    else (out, w, f)

/-- `WavLoader::read`: the bytes delivered to `buf` (the return value is their
number) and the loader afterwards. `none` when `_file` is `NULL`. -/
def read (w : WavLoader) (bufSize : Nat) : Option (List Nat × WavLoader) :=
  match w._file with
  | none => none
  | some f =>
    let clippedSize := MIN bufSize (toU32 (f.size - (w._position : Int)))
    let endBlockNum := ((w._position + clippedSize) % 4294967296) / 512
    let endOffset := ((w._position + clippedSize) % 4294967296) % 512
    let r := readLoop clippedSize endBlockNum endOffset clippedSize w f [] false
    some (r.1, { r.2.1 with _file := some r.2.2 })

end WavLoader

/-! ## AudioSamplerStream -/

/-- The `SampleType` template argument, by size: an arithmetic type of 1, 2,
4 or 8 bytes. -/
inductive SampleType where
  | int8
  | int16
  | int32
  | int64
deriving DecidableEq

/-- `sizeof(SampleType)`. -/
def SampleType.sizeof : SampleType → Nat
  | .int8 => 1
  | .int16 => 2
  | .int32 => 4
  | .int64 => 8

/-- The template arguments of `AudioSamplerStream<SampleType, SR, NC>`. -/
structure Params where
  sample : SampleType
  SR : Nat
  NC : Nat
deriving DecidableEq

/-- `enum AudioSamplerError`. -/
inductive AudioSamplerError where
  | NoErr
  | BadFile
  | BadSampleRate
  | BadSampleSize
  | BadNumChannels
deriving DecidableEq

/-- The data members of `AudioSamplerStream`. `_readHead` is a sample offset
from `&_introBuf[0]`; `_introBuf` and `_ringBuf` are the bytes of the two
arrays; `_bufBlockMap` has `NumBlocks` entries. -/
structure AudioSamplerStream where
  _readHead : Nat
  _sampleIdx : Nat
  _file : WavLoader
  _introBuf : List Nat
  _ringBuf : List Nat
  _bufBlockMap : List Nat
deriving DecidableEq

namespace AudioSamplerStream

/-- `BlockSize`. -/
def BlockSize : Nat := 512

/-- `NumBlocks`. -/
def NumBlocks : Nat := 3

/-- `SamplesPerBlock = BlockSize / sizeof(SampleType)`. -/
def SamplesPerBlock (p : Params) : Nat := BlockSize / p.sample.sizeof

/-- `IntroBufSize = (BlockSize - sizeof(WavHeader)) / sizeof(SampleType)`. -/
def IntroBufSize (p : Params) : Nat := (BlockSize - sizeofWavHeader) / p.sample.sizeof

/-- `CacheBufSize = (BlockSize * NumBlocks) / sizeof(SampleType)`. -/
def CacheBufSize (p : Params) : Nat := (BlockSize * NumBlocks) / p.sample.sizeof

/-- `UnmappedBlock = std::numeric_limits<unsigned int>::max()`. -/
def UnmappedBlock : Nat := 4294967295

/-- `AudioSamplerStream::load`. The result is `none` only if `WavLoader::read`
dereferences a `NULL` file, which a successful `open` excludes. -/
def load (p : Params) (s : AudioSamplerStream) (file : Option FileWrapper) :
    Option (AudioSamplerError × AudioSamplerStream) :=
  match s._file.openWav file with
  | (true, w) =>
    if w.sampleRate ≠ p.SR then
      some (AudioSamplerError.BadSampleRate, { s with _file := w })
    else if w.numChannels ≠ p.NC then
      some (AudioSamplerError.BadNumChannels, { s with _file := w })
    else if w.bitsPerSample ≠ p.sample.sizeof * 8 then
      some (AudioSamplerError.BadSampleSize, { s with _file := w })
    else
      match w.read (IntroBufSize p * p.sample.sizeof) with
      | none => none
      | some (got, w1) =>
        some (AudioSamplerError.NoErr,
          { s with
            _file := w1
            _introBuf := writeAt s._introBuf 0 got
            _readHead := 0
            _sampleIdx := 0
            _bufBlockMap := List.replicate NumBlocks UnmappedBlock })
  | (false, w) => some (AudioSamplerError.BadFile, { s with _file := w })

/-- The bytes `memcpy` reads at `_readHead`: the two arrays are adjacent, so
the source address is byte `_readHead * sizeof(SampleType)` of
`_introBuf ++ _ringBuf`. -/
def samplesAt (p : Params) (s : AudioSamplerStream) (toRead : Nat) : List Nat :=
  ((s._introBuf ++ s._ringBuf).drop (s._readHead * p.sample.sizeof)).take
    (toRead * p.sample.sizeof)

/-- The scan `for (int i = 0; i < NumBlocks; i++) if (_bufBlockMap[i] == scb)`
of `read`: the first slot holding block `scb`. -/
def findSlot (scb : Nat) : List Nat → Nat → Option Nat
  | [], _ => none
  | b :: rest, i => if b = scb then some i else findSlot scb rest (i + 1)

/-- The block `scb` that `read` needs at the cursor:
`((_sampleIdx - IntroBufSize) / SamplesPerBlock) + 1`, in `uint32_t`. -/
def neededBlock (p : Params) (s : AudioSamplerStream) : Nat :=
  toU32 ((s._sampleIdx : Int) - (IntroBufSize p : Int)) / SamplesPerBlock p + 1

/-- The slot `rhb` the read pointer lies in:
`((uint8_t*)_readHead - (uint8_t*)_ringBuf) / BlockSize`. -/
def readHeadSlot (p : Params) (s : AudioSamplerStream) : Nat :=
  ((s._readHead - IntroBufSize p) * p.sample.sizeof) / BlockSize

/-- The block `realrhb` mapped at the read pointer's slot; `-1` (stored as
`4294967295`) when the pointer is past the last slot. -/
def readHeadMapped (p : Params) (s : AudioSamplerStream) : Nat :=
  if readHeadSlot p s < NumBlocks then s._bufBlockMap.getD (readHeadSlot p s) 0 else 4294967295

/-- "Make sure we're in the right place": the first half of the body of the
`while` loop of `read`. When the read pointer's slot does not hold the needed
block, the map is scanned and the pointer moved into the first slot that
holds it. The result is the stream and the slot `rhb` to copy from, or `none`
for the `break` taken when `realrhb != scb` remains (a cache miss). -/
def resolve (p : Params) (s : AudioSamplerStream) : Option (AudioSamplerStream × Nat) :=
  if readHeadMapped p s ≠ neededBlock p s then
    match findSlot (neededBlock p s) s._bufBlockMap 0 with
    | some i =>
      some ({ s with _readHead := i * SamplesPerBlock p + IntroBufSize p
                                   + neededBlock p s % SamplesPerBlock p }, i)
    | none => none
  else some (s, readHeadSlot p s)

/-- "Clip the memcpy to the end of this block": `to_read` for a copy from
slot `rhb`. `nextBlockStart` lies beyond `_readHead`, so the pointer
difference is a natural number. -/
def clipToBlock (p : Params) (s : AudioSamplerStream) (rhb numSamplesLeft : Nat) : Nat :=
  if IntroBufSize p + (rhb + 1) * SamplesPerBlock p - s._readHead < numSamplesLeft
  then IntroBufSize p + (rhb + 1) * SamplesPerBlock p - s._readHead
  else numSamplesLeft

/-- `_readHead += to_read; _sampleIdx += to_read;`. -/
def advance (s : AudioSamplerStream) (toRead : Nat) : AudioSamplerStream :=
  { s with _readHead := s._readHead + toRead
           _sampleIdx := (s._sampleIdx + toRead) % 4294967296 }

/-- The `while (numSamplesLeft > 0)` loop of `read`. The state carried is the
stream, `numSamplesLeft` and the bytes copied to `buf` so far. Every iteration
that does not break copies at least one sample, so `numSamplesLeft` units of
fuel are enough. -/
def readRing (p : Params) :
    Nat → AudioSamplerStream → Nat → List Nat → AudioSamplerStream × Nat × List Nat
  | 0, s, numSamplesLeft, out => (s, numSamplesLeft, out)
  | fuel + 1, s, numSamplesLeft, out =>
    if numSamplesLeft > 0 then
      match resolve p s with
      | none => (s, numSamplesLeft, out)
      | some (s1, rhb) =>
        readRing p fuel (advance s1 (clipToBlock p s1 rhb numSamplesLeft))
          (numSamplesLeft - clipToBlock p s1 rhb numSamplesLeft)
          (out ++ samplesAt p s1 (clipToBlock p s1 rhb numSamplesLeft))
    else (s, numSamplesLeft, out)

/-- "Make sure the readHead is still good": the first statement of `read`. -/
def refreshReadHead (p : Params) (s : AudioSamplerStream) : AudioSamplerStream :=
  if s._sampleIdx < IntroBufSize p then { s with _readHead := s._sampleIdx } else s

/-- The `to_read` of the copy from `_introBuf`, clipped to its end. -/
def clipToIntro (p : Params) (s : AudioSamplerStream) (numSamples : Nat) : Nat :=
  if numSamples + s._readHead > IntroBufSize p then IntroBufSize p - s._readHead else numSamples

/-- `AudioSamplerStream::read`: the stream afterwards, the returned count
`numSamples - numSamplesLeft`, and the bytes copied to `buf` (they fill
`buf` from its start; the rest of `buf` is untouched). -/
def read (p : Params) (s : AudioSamplerStream) (numSamples : Nat) :
    AudioSamplerStream × Nat × List Nat :=
  let s0 := refreshReadHead p s
  if s0._readHead < IntroBufSize p then
    let toRead := clipToIntro p s0 numSamples
    let r := readRing p (numSamples - toRead) (advance s0 toRead) (numSamples - toRead)
      (samplesAt p s0 toRead)
    (r.1, numSamples - r.2.1, r.2.2)
  else
    let r := readRing p numSamples s0 numSamples []
    (r.1, numSamples - r.2.1, r.2.2)

/-- The `readHeadBlock` of `prime`. -/
def readHeadBlock (p : Params) (s : AudioSamplerStream) : Nat :=
  if s._sampleIdx ≥ IntroBufSize p then s._sampleIdx * p.sample.sizeof / BlockSize else 0

/-- `labs(_bufBlockMap[i] - readHeadBlock)`. -/
def blockDiff (entry readHeadBlock : Nat) : Nat :=
  Int.natAbs ((entry : Int) - (readHeadBlock : Int))

/-- The loop `for (int i = 1; i < NumBlocks; i++)` of `prime` that finds the
slot furthest from the read head; the result is `(idx, maxDiff)`. -/
def furthestFrom (readHeadBlock : Nat) : List Nat → Nat → Nat → Nat → Nat × Nat
  | [], _, idx, maxDiff => (idx, maxDiff)
  | b :: rest, i, idx, maxDiff =>
    if blockDiff b readHeadBlock > maxDiff
    then furthestFrom readHeadBlock rest (i + 1) i (blockDiff b readHeadBlock)
    else furthestFrom readHeadBlock rest (i + 1) idx maxDiff

/-- The eviction candidate of `prime`: `(idx, maxDiff)`. -/
def furthest (readHeadBlock : Nat) (map : List Nat) : Nat × Nat :=
  furthestFrom readHeadBlock (map.drop 1) 1 0 (blockDiff (map.getD 0 0) readHeadBlock)

/-- What one pass through the body of the `sign` loop of `prime` does. -/
inductive Step where
  | brk (s : AudioSamplerStream)
  | cont (s : AudioSamplerStream)
  | done (s : AudioSamplerStream)
  | undef

/-- The body of the `sign` loop of `prime` for a candidate `block > 0`
(the test `block <= 0` is made by the caller). `block * BlockSize` is an
`int` product: it is undefined from `2^31` on. -/
def tryBlock (s : AudioSamplerStream) (idx block : Nat) : Step :=
  if block * BlockSize ≥ 2147483648 then Step.undef
  else if block * BlockSize > s._file.fileSize then Step.brk s
  else if block ∈ s._bufBlockMap then Step.cont s
  else
    match s._file.seek (block * BlockSize) with
    | none => Step.undef
    | some (false, w) => Step.brk { s with _file := w }
    | some (true, w) =>
      match w.read BlockSize with
      | none => Step.undef
      | some (got, w1) =>
        if got.length > 0 then
          Step.done { s with _file := w1
                             _ringBuf := writeAt s._ringBuf (idx * BlockSize) got
                             _bufBlockMap := s._bufBlockMap.set idx block }
        else Step.cont { s with _file := w1 }

/-- The loop `for (int sign = 0; sign < 2; offset = -offset, sign++)` of
`prime` at one `absDiff`: the block ahead, then the block behind. A `brk` or
`cont` result both lead to the next `absDiff`. -/
def signLoop (s : AudioSamplerStream) (idx readHeadBlock absDiff : Nat) : Step :=
  match tryBlock s idx (readHeadBlock + absDiff) with
  | Step.cont s1 =>
    if readHeadBlock ≤ absDiff then Step.brk s1
    else tryBlock s1 idx (readHeadBlock - absDiff)
  | other => other

/-- The loop `for (int absDiff = 1; absDiff <= maxDiff; absDiff++)` of
`prime`; `fuel` is the number of iterations left, `maxDiff + 1 - absDiff`. -/
def primeScan (idx readHeadBlock : Nat) :
    Nat → Nat → AudioSamplerStream → Option (Bool × AudioSamplerStream)
  | 0, _, s => some (false, s)
  | fuel + 1, absDiff, s =>
    match signLoop s idx readHeadBlock absDiff with
    | Step.done s1 => some (true, s1)
    | Step.undef => none
    | Step.brk s1 => primeScan idx readHeadBlock fuel (absDiff + 1) s1
    | Step.cont s1 => primeScan idx readHeadBlock fuel (absDiff + 1) s1

/-- `AudioSamplerStream::prime`: the returned flag and the stream afterwards;
`none` when the call runs into undefined behaviour. -/
def prime (p : Params) (s : AudioSamplerStream) : Option (Bool × AudioSamplerStream) :=
  let r := readHeadBlock p s
  let fm := furthest r s._bufBlockMap
  primeScan fm.1 r fm.2 1 s

/-- `AudioSamplerStream::atEOF`. -/
def atEOF (s : AudioSamplerStream) : Option Bool :=
  match s._file.numSamples with
  | none => none
  | some n => some (decide (s._sampleIdx ≥ n))

/-- `AudioSamplerStream::setSampleIndex`. -/
def setSampleIndex (s : AudioSamplerStream) (sampleIdx : Nat) : Option AudioSamplerStream :=
  match s._file.numSamples with
  | none => none
  | some n => some { s with _sampleIdx := min sampleIdx n }

/-- `AudioSamplerStream::sampleIndex`. -/
def sampleIndex (s : AudioSamplerStream) : Nat := s._sampleIdx

/-- `AudioSamplerStream::reset`. -/
def reset (s : AudioSamplerStream) : Option AudioSamplerStream := s.setSampleIndex 0

end AudioSamplerStream

/-! ## Calling sequences -/

namespace AudioSamplerStream

/-- The arrays of the object have their declared sizes: `_header` 44 bytes,
`_buffer` 512 bytes, `_introBuf` `IntroBufSize` samples, `_ringBuf`
`CacheBufSize` samples, `_bufBlockMap` `NumBlocks` entries. -/
def Sized (p : Params) (s : AudioSamplerStream) : Prop :=
  s._file._header.length = sizeofWavHeader ∧
  s._file._buffer.length = WavLoader.BLOCKSIZE ∧
  s._introBuf.length = IntroBufSize p * p.sample.sizeof ∧
  s._ringBuf.length = CacheBufSize p * p.sample.sizeof ∧
  s._bufBlockMap.length = NumBlocks

/-- The state the constructors leave: `WavLoader()` zeroes `_header`, sets
`_file` to `NULL` and `_blockNum`, `_bufferLen` to `-1`; every other member
is uninitialised, so it holds any value of its size. -/
def NewlyConstructed (p : Params) (s : AudioSamplerStream) : Prop :=
  Sized p s ∧
  s._file._header = List.replicate sizeofWavHeader 0 ∧
  s._file._file = none ∧
  s._file._blockNum = 4294967295 ∧
  s._file._bufferLen = 4294967295

/-- `n` consecutive calls of `prime()`: the flags they return, in order, and
the stream afterwards. -/
def primeN (p : Params) : Nat → AudioSamplerStream → Option (List Bool × AudioSamplerStream)
  | 0, s => some ([], s)
  | n + 1, s =>
    match prime p s with
    | none => none
    | some (b, s1) =>
      match primeN p n s1 with
      | none => none
      | some (bs, s2) => some (b :: bs, s2)

/-- A sequence of calls `read(buf, n)`, one for each requested count: the
stream afterwards and, for each call, the returned count and the bytes
copied. -/
def readSeq (p : Params) : List Nat → AudioSamplerStream →
    AudioSamplerStream × List (Nat × List Nat)
  | [], s => (s, [])
  | n :: rest, s =>
    let r := read p s n
    let t := readSeq p rest r.1
    (t.1, r.2 :: t.2)

/-- A call made on a loaded stream. -/
inductive Op where
  | read (numSamples : Nat)
  | prime
  | setSampleIndex (sampleIdx : Nat)
  | reset
deriving DecidableEq

/-- One call: the stream afterwards and, for a `read`, the returned count and
the bytes copied. -/
def step (p : Params) (s : AudioSamplerStream) : Op →
    Option (AudioSamplerStream × Option (Nat × List Nat))
  | Op.read n => some ((read p s n).1, some (read p s n).2)
  | Op.prime =>
    match prime p s with
    | none => none
    | some (_, s1) => some (s1, none)
  | Op.setSampleIndex i =>
    match setSampleIndex s i with
    | none => none
    | some s1 => some (s1, none)
  | Op.reset =>
    match reset s with
    | none => none
    | some s1 => some (s1, none)

/-- A sequence of calls: the stream afterwards and the results of the `read`
calls, in order. -/
def exec (p : Params) : List Op → AudioSamplerStream →
    Option (AudioSamplerStream × List (Nat × List Nat))
  | [], s => some (s, [])
  | op :: rest, s =>
    match step p s op with
    | none => none
    | some (s1, r) =>
      match exec p rest s1 with
      | none => none
      | some (s2, rs) => some (s2, r.toList ++ rs)

/-- The requested counts of the `read` calls of a sequence. -/
def requested : List Op → List Nat
  | [] => []
  | Op.read n :: rest => n :: requested rest
  | _ :: rest => requested rest

/-- No two distinct Cache Slot Map entries hold the same block number, the
unmapped sentinel apart. -/
def NoDuplicateBlocks (map : List Nat) : Prop :=
  ∀ i j : Nat, i < j → j < map.length →
    map.getD i 0 = map.getD j 0 → map.getD i 0 = UnmappedBlock

end AudioSamplerStream

/-! ## Invariants of the loader -/

namespace WavLoader

/-- The single-block cache of the loader is empty (`_blockNum` is `-1`) or
holds `_bufferLen ≤ 512` bytes that lie within `_buffer`. -/
def CacheOK (w : WavLoader) : Prop :=
  w._blockNum = 4294967295 ∨ (w._bufferLen ≤ 512 ∧ w._bufferLen ≤ w._buffer.length)

/-- The invariant of the `while` loop of `read`: `_position` and `cur` have
advanced together from the start towards the end position
`endBlockNum * 512 + endOffset`, which is `clippedSize` bytes from the start
and below `2^32`. -/
def LoopInv (c eb eo : Nat) (w : WavLoader) (out : List Nat) : Prop :=
  out.length ≤ c ∧ w._position + c = eb * 512 + eo + out.length ∧ eo < 512 ∧
    eb * 512 + eo < 4294967296

end WavLoader

/-! ## Frames -/

namespace AudioSamplerStream

/-- The members `read` never writes: the loader, the two buffers and the
Cache Slot Map of `t` are those of `s`. -/
def SameBuffers (s t : AudioSamplerStream) : Prop :=
  t._file = s._file ∧ t._introBuf = s._introBuf ∧ t._ringBuf = s._ringBuf ∧
    t._bufBlockMap = s._bufBlockMap

/-- The members `prime` never writes: the read pointer, the cursor, the intro
segment and the header of `t` are those of `s`. -/
def SameCursor (s t : AudioSamplerStream) : Prop :=
  t._readHead = s._readHead ∧ t._sampleIdx = s._sampleIdx ∧ t._introBuf = s._introBuf ∧
    t._file._header = s._file._header

/-- A property of the outcome of a pass of the `sign` loop: `R` of the stream
when no block was loaded, `D` when one was. -/
def Step.Sat (R D : AudioSamplerStream → Prop) : Step → Prop
  | Step.undef => True
  | Step.brk t => R t
  | Step.cont t => R t
  | Step.done t => D t

/-- Between `s` and `t` nothing but the loader changed. -/
def Untouched (s t : AudioSamplerStream) : Prop :=
  SameCursor s t ∧ t._bufBlockMap = s._bufBlockMap ∧ t._ringBuf = s._ringBuf

/-- Between `s` and `t` one slot was loaded with a block no entry held. -/
def Loaded (s t : AudioSamplerStream) : Prop :=
  SameCursor s t ∧ ∃ idx block, block ∉ s._bufBlockMap ∧
    t._bufBlockMap = s._bufBlockMap.set idx block

/-- The loader of `s` is bound to an open stream over `bytes`, and its
single-block cache holds block 0 (what `load` leaves). -/
def Streaming (s : AudioSamplerStream) (bytes : List Nat) : Prop :=
  (∃ pr pos, s._file._file = some ⟨bytes, pr, some pos⟩) ∧ s._file._blockNum = 0

/-- The bytes of samples `c, ..., c + n - 1` of the two adjacent arrays
`_introBuf`, `_ringBuf`. -/
def window (p : Params) (s : AudioSamplerStream) (c n : Nat) : List Nat :=
  ((s._introBuf ++ s._ringBuf).drop (c * p.sample.sizeof)).take (n * p.sample.sizeof)

/-- The state, of a stream of 2-byte samples (intro segment of 234 samples), in
which blocks 1, 2, 3 sit in slots 0, 1, 2 and the read pointer agrees with the
cursor (or will be refreshed from it, the cursor being in the intro range). -/
def Primed (s : AudioSamplerStream) : Prop :=
  s._bufBlockMap = [1, 2, 3] ∧ (s._sampleIdx < 234 ∨ s._readHead = s._sampleIdx)

end AudioSamplerStream

/-! ## Concrete resources and streams -/

/-- The four bytes of a little-endian 32-bit value. -/
def bytes32 (n : Nat) : List Nat :=
  [n % 256, n / 256 % 256, n / 65536 % 256, n / 16777216 % 256]

/-- The two bytes of a little-endian 16-bit value. -/
def bytes16 (n : Nat) : List Nat := [n % 256, n / 256 % 256]

/-- A canonical 44-byte PCM header for a file of `size` bytes. -/
def wavHeader (size nc sr bits align : Nat) : List Nat :=
  [82, 73, 70, 70] ++ bytes32 (size - 8) ++ [87, 65, 86, 69] ++ [102, 109, 116, 32]
    ++ bytes32 16 ++ bytes16 1 ++ bytes16 nc ++ bytes32 sr ++ bytes32 (sr * align)
    ++ bytes16 align ++ bytes16 bits ++ [100, 97, 116, 97] ++ bytes32 (size - 44)

/-- A 44.1 kHz, stereo, 16-bit file of `size` bytes whose payload byte `i` is
`i % 251 + 1`. -/
def wavFile (size : Nat) : FileWrapper :=
  { bytes := wavHeader size 2 44100 16 4 ++ (List.range (size - 44)).map (fun i => i % 251 + 1)
    present := true
    _file := none }

/-- A file that cannot be opened. -/
def absentFile : FileWrapper := { bytes := [], present := false, _file := none }

/-- The template arguments `<int16_t, 44100, 2>` of `test.cpp`. -/
def stereo16 : Params := { sample := SampleType.int16, SR := 44100, NC := 2 }

/-- A newly constructed `AudioSamplerStream<int16_t, 44100, 2>` whose
uninitialised members hold zeros. -/
def newStream : AudioSamplerStream :=
  { _readHead := 0
    _sampleIdx := 0
    _file :=
      { _header := List.replicate 44 0
        _file := none
        _position := 0
        _blockNum := 4294967295
        _bufferLen := 4294967295
        _buffer := List.replicate 512 0 }
    _introBuf := List.replicate 468 0
    _ringBuf := List.replicate 1536 0
    _bufBlockMap := [0, 0, 0] }

/-- The stream `newStream` after `load` of `wavFile size`. -/
def loadedStream (size : Nat) : AudioSamplerStream :=
  ((AudioSamplerStream.load stereo16 newStream (some (wavFile size))).getD
    (AudioSamplerError.BadFile, newStream)).2

/-- The stream `loadedStream size` after `n` calls of `prime()`. -/
def primedStream (size n : Nat) : AudioSamplerStream :=
  ((AudioSamplerStream.primeN stereo16 n (loadedStream size)).getD ([], newStream)).2

/-- The stream `loadedStream size` after a sequence of calls. -/
def streamAfter (size : Nat) (ops : List AudioSamplerStream.Op) : AudioSamplerStream :=
  ((AudioSamplerStream.exec stereo16 ops (loadedStream size)).getD (newStream, [])).1

/-- The results of the `read` calls of a sequence run on `loadedStream size`. -/
def resultsAfter (size : Nat) (ops : List AudioSamplerStream.Op) : List (Nat × List Nat) :=
  ((AudioSamplerStream.exec stereo16 ops (loadedStream size)).getD (newStream, [])).2

/-- The template arguments `<int16_t, 44100, 1>`. -/
def mono16 : Params := { sample := SampleType.int16, SR := 44100, NC := 1 }

/-- A 44.1 kHz, mono, 16-bit file of `size` bytes (BlockAlign 2) whose payload
byte `i` is `i % 251 + 1`. -/
def monoFile (size : Nat) : FileWrapper :=
  { bytes := wavHeader size 1 44100 16 2 ++ (List.range (size - 44)).map (fun i => i % 251 + 1)
    present := true
    _file := none }

/-- The stream `newStream`, taken as an `AudioSamplerStream<int16_t, 44100, 1>`,
after `load` of `monoFile size` and a sequence of calls. -/
def monoAfter (size : Nat) (ops : List AudioSamplerStream.Op) : AudioSamplerStream :=
  (((AudioSamplerStream.load mono16 newStream (some (monoFile size))).bind
    (fun r => AudioSamplerStream.exec mono16 ops r.2)).getD (newStream, [])).1

/-- The file `wavFile 512` with the header byte at offset `off` replaced by
`'X'`. -/
def corruptedFile (off : Nat) : FileWrapper :=
  { wavFile 512 with bytes := (wavFile 512).bytes.set off 88 }

/-- The file `wavFile 512` with the header field `BlockAlign` (bytes 32, 33)
set to 0. -/
def zeroAlignFile : FileWrapper :=
  { wavFile 512 with bytes := ((wavFile 512).bytes.set 32 0).set 33 0 }

/-- The plain read the specification compares `WavLoader::read` with, for a
loader at byte `_position` of a resource of `S` bytes: it delivers the bytes
`[_position, _position + min(n, S - _position))` of the resource and advances
the position by their number. The result is the delivered bytes and the
position afterwards. -/
def WavLoader.plainRead (w : WavLoader) (n : Nat) : Option (List Nat × Nat) :=
  match w._file with
  | none => none
  | some f =>
    some ((f.bytes.drop w._position).take (min n (f.bytes.length - w._position)),
      w._position + min n (f.bytes.length - w._position))

/-! ## Cache coherence -/

namespace WavLoader

/-- The single-block cache of the loader is empty, or holds block 0, or holds
the bytes of block `_blockNum` of the resource `bytes`, all that the resource
has of it. -/
def CacheFor (w : WavLoader) (bytes : List Nat) : Prop :=
  w._blockNum = 4294967295 ∨ w._blockNum = 0 ∨
    (w._blockNum * 512 < bytes.length ∧
      w._bufferLen = min 512 (bytes.length - w._blockNum * 512) ∧
      w._buffer.take w._bufferLen = (bytes.drop (w._blockNum * 512)).take 512)

end WavLoader

namespace AudioSamplerStream

/-- The 512 bytes of ring slot `i`. -/
def slotBytes (s : AudioSamplerStream) (i : Nat) : List Nat :=
  (s._ringBuf.drop (i * BlockSize)).take BlockSize

/-- Every slot whose Cache Slot Map entry is a block number `b` (not the
sentinel) holds, in its first `min(512, S - 512 * b)` bytes, the bytes of the
resource `bytes` (of `S` bytes) that start at offset `512 * b`. -/
def Coherent (s : AudioSamplerStream) (bytes : List Nat) : Prop :=
  ∀ i, i < NumBlocks → s._bufBlockMap.getD i 0 ≠ UnmappedBlock →
    (slotBytes s i).take (min BlockSize (bytes.length - s._bufBlockMap.getD i 0 * BlockSize))
      = (bytes.drop (s._bufBlockMap.getD i 0 * BlockSize)).take
          (min BlockSize (bytes.length - s._bufBlockMap.getD i 0 * BlockSize))

/-- The invariant of a loaded stream over the resource `bytes`: the loader is
bound to an open stream over it, its single-block cache is sound and, for a
resource of more than one block, agrees with the resource; the ring buffer
and the map have their sizes; the slots are coherent. -/
def BlockInv (s : AudioSamplerStream) (bytes : List Nat) : Prop :=
  (∃ pr pos, s._file._file = some ⟨bytes, pr, some pos⟩) ∧ s._file.CacheOK ∧
    (bytes.length ≤ 512 ∨ s._file.CacheFor bytes) ∧
    s._ringBuf.length = 1536 ∧ s._bufBlockMap.length = NumBlocks ∧ Coherent s bytes

/-- Between `s` and `t` one block read delivered the bytes `got`, a nonzero
count, into slot `idx`, and the entry of that slot was set to `block`. -/
def Delivered (s t : AudioSamplerStream) : Prop :=
  ∃ idx block got, idx < NumBlocks ∧ got ≠ [] ∧
    t._bufBlockMap = s._bufBlockMap.set idx block ∧
    t._ringBuf = writeAt s._ringBuf (idx * BlockSize) got

end AudioSamplerStream

/-! ## Theorems -/

/-! ### The loader -/

theorem toU32_sub (a b : Nat) (h : b ≤ a) (h2 : a - b < 4294967296) : toU32 ((a : Int) - (b : Int)) = a - b := by
  unfold toU32; omega

theorem WavLoader.readLoop_done (c eb eo fuel : Nat) (w : WavLoader) (f : FileWrapper)
    (out : List Nat) (sr : Bool) (h : sr = true ∨ c ≤ out.length) :
    WavLoader.readLoop c eb eo fuel w f out sr = (out, w, f) := by
  cases fuel with
  | zero => rfl
  | succ n =>
    unfold WavLoader.readLoop
    have : (!sr && decide (out.length < c)) = false := by
      rcases h with h | h
      · simp [h]
      · simp; intro _; omega
    simp [this]

theorem WavLoader.readLoop_direct (c eb eo fuel : Nat) (w : WavLoader) (f : FileWrapper)
    (out : List Nat) (hc : out.length < c) (hb : w._position / 512 ≠ w._blockNum)
    (he : w._position / 512 ≠ eb) (ho : w._position % 512 = 0) :
    WavLoader.readLoop c eb eo (fuel + 1) w f out false =
      WavLoader.readLoop c eb eo fuel
        { w with _position := (w._position + (f.read 512).1.length) % 4294967296 }
        (f.read 512).2 (out ++ (f.read 512).1) (decide ((f.read 512).1.length < 512)) := by
  rw [WavLoader.readLoop]
  simp [WavLoader.readBody, hc, hb, he, ho, WavLoader.BLOCKSIZE]

theorem WavLoader.read_block (w : WavLoader) (bytes : List Nat) (pr : Bool) (b : Nat)
    (hf : w._file = some ⟨bytes, pr, some (b * 512)⟩) (hp : w._position = b * 512)
    (hb : w._blockNum ≠ b) (hlen : (b + 1) * 512 ≤ bytes.length)
    (hlt : bytes.length < 4294967296) :
    w.read 512 = some ((bytes.drop (b * 512)).take 512,
      { w with _position := (b + 1) * 512, _file := some ⟨bytes, pr, some ((b + 1) * 512)⟩ }) := by
  have hc : MIN 512 (toU32 ((bytes.length : Int) - ((b * 512 : Nat) : Int))) = 512 := by
    rw [toU32_sub _ _ (by omega) (by omega)]
    unfold MIN; split <;> omega
  have hl : ((bytes.drop (b * 512)).take 512).length = 512 := by
    simp; omega
  have hr : (FileWrapper.read ⟨bytes, pr, some (b * 512)⟩ 512)
      = ((bytes.drop (b * 512)).take 512, ⟨bytes, pr, some ((b + 1) * 512)⟩) := by
    unfold FileWrapper.read
    simp only [hl]
    have : b * 512 + 512 = (b + 1) * 512 := by omega
    rw [this]
  unfold WavLoader.read
  simp only [hf, FileWrapper.size, hp, hc]
  have e1 : (b * 512 + 512) % 4294967296 / 512 = b + 1 := by omega
  have e2 : (b * 512 + 512) % 4294967296 % 512 = 0 := by omega
  rw [e1, e2]
  rw [WavLoader.readLoop_direct 512 (b + 1) 0 511 w _ [] (by simp) (by omega) (by omega) (by omega)]
  rw [hr, WavLoader.readLoop_done _ _ _ _ _ _ _ _ (Or.inr (by simp [hl]))]
  dsimp only
  rw [hl, hp, List.nil_append]
  have e3 : (b * 512 + 512) % 4294967296 = (b + 1) * 512 := by omega
  rw [e3]

theorem WavLoader.readBody_header (eb eo : Nat) (w : WavLoader) (f : FileWrapper)
    (out : List Nat) (sr : Bool) :
    (WavLoader.readBody eb eo w f out sr).1._header = w._header := by
  unfold WavLoader.readBody
  dsimp only
  split
  · split <;> rfl
  · split
    · split <;> rfl
    · rfl

theorem WavLoader.readLoop_header (c eb eo fuel : Nat) :
    ∀ (w : WavLoader) (f : FileWrapper) (out : List Nat) (sr : Bool),
      (WavLoader.readLoop c eb eo fuel w f out sr).2.1._header = w._header := by
  induction fuel with
  | zero => intro w f out sr; rfl
  | succ n ih =>
    intro w f out sr
    rw [WavLoader.readLoop]
    split
    · rw [ih, WavLoader.readBody_header]
    · rfl

theorem WavLoader.read_header (w w1 : WavLoader) (n : Nat) (got : List Nat)
    (h : w.read n = some (got, w1)) : w1._header = w._header := by
  unfold WavLoader.read at h
  split at h
  · simp at h
  · simp only [Option.some.injEq, Prod.mk.injEq] at h
    rw [← h.2]
    exact WavLoader.readLoop_header _ _ _ _ _ _ _ _

theorem WavLoader.seek_header (w w1 : WavLoader) (pos : Nat) (b : Bool)
    (h : w.seek pos = some (b, w1)) : w1._header = w._header := by
  unfold WavLoader.seek at h
  split at h
  · simp at h
  · simp only [Option.some.injEq, Prod.mk.injEq] at h
    rw [← h.2]

/-! ### Frame of `read` -/

namespace AudioSamplerStream

theorem sameBuffers_refl (s : AudioSamplerStream) : SameBuffers s s := ⟨rfl, rfl, rfl, rfl⟩

theorem sameBuffers_trans {s t u : AudioSamplerStream} (h1 : SameBuffers s t)
    (h2 : SameBuffers t u) : SameBuffers s u :=
  ⟨h2.1.trans h1.1, h2.2.1.trans h1.2.1, h2.2.2.1.trans h1.2.2.1, h2.2.2.2.trans h1.2.2.2⟩

theorem resolve_same (p : Params) (s s1 : AudioSamplerStream) (rhb : Nat)
    (h : resolve p s = some (s1, rhb)) :
    SameBuffers s s1 ∧ s1._sampleIdx = s._sampleIdx := by
  unfold resolve at h
  split at h
  · split at h
    · simp only [Option.some.injEq, Prod.mk.injEq] at h
      rw [← h.1]
      exact ⟨⟨rfl, rfl, rfl, rfl⟩, rfl⟩
    · simp at h
  · simp only [Option.some.injEq, Prod.mk.injEq] at h
    rw [← h.1]
    exact ⟨⟨rfl, rfl, rfl, rfl⟩, rfl⟩

theorem clipToBlock_le (p : Params) (s : AudioSamplerStream) (rhb left : Nat) :
    clipToBlock p s rhb left ≤ left := by
  unfold clipToBlock; split <;> omega

theorem advance_sampleIdx (s : AudioSamplerStream) (n : Nat) :
    (advance s n)._sampleIdx = (s._sampleIdx + n) % 4294967296 := rfl

theorem readRing_spec (p : Params) (fuel : Nat) :
    ∀ (s : AudioSamplerStream) (left : Nat) (out : List Nat),
      SameBuffers s (readRing p fuel s left out).1 ∧
      (readRing p fuel s left out).2.1 ≤ left ∧
      (readRing p fuel s left out).1._sampleIdx % 4294967296 =
        (s._sampleIdx + (left - (readRing p fuel s left out).2.1)) % 4294967296 ∧
      (s._sampleIdx < 4294967296 → (readRing p fuel s left out).1._sampleIdx < 4294967296) := by
  induction fuel with
  | zero => intro s left out; simp [readRing, SameBuffers]
  | succ n ih =>
    intro s left out
    rw [readRing]
    split
    · split
      · simp [SameBuffers]
      · rename_i s1 rhb hres
        have hs := resolve_same p s s1 rhb hres
        have hc := clipToBlock_le p s1 rhb left
        obtain ⟨h1, h2, h3, h4⟩ := ih (advance s1 (clipToBlock p s1 rhb left))
          (left - clipToBlock p s1 rhb left)
          (out ++ samplesAt p s1 (clipToBlock p s1 rhb left))
        rw [advance_sampleIdx, hs.2] at h3 h4
        refine ⟨?_, by omega, ?_, ?_⟩
        · exact sameBuffers_trans hs.1 (sameBuffers_trans ⟨rfl, rfl, rfl, rfl⟩ h1)
        · rw [h3]; omega
        · intro _; exact h4 (Nat.mod_lt _ (by norm_num))
    · simp [SameBuffers]

theorem read_spec (p : Params) (s : AudioSamplerStream) (n : Nat) :
    SameBuffers s (read p s n).1 ∧ (read p s n).2.1 ≤ n ∧
    (read p s n).1._sampleIdx % 4294967296 = (s._sampleIdx + (read p s n).2.1) % 4294967296 ∧
    (s._sampleIdx < 4294967296 → (read p s n).1._sampleIdx < 4294967296) := by
  have h0 : SameBuffers s (refreshReadHead p s) ∧ (refreshReadHead p s)._sampleIdx = s._sampleIdx := by
    unfold refreshReadHead; split <;> exact ⟨⟨rfl, rfl, rfl, rfl⟩, rfl⟩
  unfold read
  dsimp only
  split
  · have hc : clipToIntro p (refreshReadHead p s) n ≤ n := by
      unfold clipToIntro; split <;> omega
    obtain ⟨h1, h2, h3, h4⟩ := readRing_spec p (n - clipToIntro p (refreshReadHead p s) n)
      (advance (refreshReadHead p s) (clipToIntro p (refreshReadHead p s) n))
      (n - clipToIntro p (refreshReadHead p s) n)
      (samplesAt p (refreshReadHead p s) (clipToIntro p (refreshReadHead p s) n))
    rw [advance_sampleIdx, h0.2] at h3 h4
    refine ⟨?_, ?_, ?_, ?_⟩
    · exact sameBuffers_trans h0.1 (sameBuffers_trans ⟨rfl, rfl, rfl, rfl⟩ h1)
    · dsimp only; omega
    · dsimp only; rw [h3]; omega
    · intro _; exact h4 (Nat.mod_lt _ (by norm_num))
  · obtain ⟨h1, h2, h3, h4⟩ := readRing_spec p n (refreshReadHead p s) n []
    rw [h0.2] at h3 h4
    refine ⟨sameBuffers_trans h0.1 h1, ?_, ?_, h4⟩
    · dsimp only; omega
    · exact h3
end AudioSamplerStream

/-! ### The fuel of the loop of `read` -/

namespace AudioSamplerStream

theorem samplesPerBlock_pos (p : Params) : 0 < SamplesPerBlock p := by
  unfold SamplesPerBlock BlockSize
  cases p.sample <;> simp [SampleType.sizeof]

/-- In every iteration of the loop of `read` that reaches the copy,
`nextBlockStart` lies beyond `_readHead`. -/
theorem resolve_readHead_lt (p : Params) (s s1 : AudioSamplerStream) (rhb : Nat)
    (h : resolve p s = some (s1, rhb)) :
    s1._readHead < IntroBufSize p + (rhb + 1) * SamplesPerBlock p := by
  have hpos := samplesPerBlock_pos p
  unfold resolve at h
  split at h
  · split at h
    · rename_i i _
      simp only [Option.some.injEq, Prod.mk.injEq] at h
      rw [← h.1, ← h.2]
      dsimp only
      have := Nat.mod_lt (neededBlock p s) hpos
      rw [Nat.add_mul]
      omega
    · simp at h
  · simp only [Option.some.injEq, Prod.mk.injEq] at h
    rw [← h.1, ← h.2]
    unfold readHeadSlot IntroBufSize SamplesPerBlock BlockSize sizeofWavHeader
    cases p.sample <;> simp only [SampleType.sizeof] <;> omega

theorem clipToBlock_pos (p : Params) (s s1 : AudioSamplerStream) (rhb left : Nat)
    (h : resolve p s = some (s1, rhb)) (hl : 0 < left) : 0 < clipToBlock p s1 rhb left := by
  have := resolve_readHead_lt p s s1 rhb h
  unfold clipToBlock
  split <;> omega

/-- `numSamplesLeft` units of fuel are enough for the loop of `read`: with
that much or more, the loop ends by its own exit tests and the result does not
depend on the fuel. -/
theorem readRing_fuel (p : Params) (fuel1 : Nat) :
    ∀ (fuel2 : Nat) (s : AudioSamplerStream) (left : Nat) (out : List Nat),
      left ≤ fuel1 → left ≤ fuel2 →
        readRing p fuel1 s left out = readRing p fuel2 s left out := by
  induction fuel1 with
  | zero =>
    intro fuel2 s left out h1 _
    have : left = 0 := by omega
    subst this
    cases fuel2 with
    | zero => rfl
    | succ m => simp [readRing]
  | succ n ih =>
    intro fuel2 s left out h1 h2
    cases fuel2 with
    | zero =>
      have : left = 0 := by omega
      subst this
      simp [readRing]
    | succ m =>
      rw [readRing, readRing]
      split
      · rename_i hl
        cases hr : resolve p s with
        | none => rfl
        | some q =>
          obtain ⟨s1, rhb⟩ := q
          dsimp only
          have := clipToBlock_pos p s s1 rhb left hr hl
          exact ih m _ _ _ (by omega) (by omega)
      · rfl

end AudioSamplerStream

/-! ### Frame of `prime` -/

namespace AudioSamplerStream

theorem untouched_refl (s : AudioSamplerStream) : Untouched s s :=
  ⟨⟨rfl, rfl, rfl, rfl⟩, rfl, rfl⟩

theorem sameCursor_trans {s t u : AudioSamplerStream} (h1 : SameCursor s t)
    (h2 : SameCursor t u) : SameCursor s u :=
  ⟨h2.1.trans h1.1, h2.2.1.trans h1.2.1, h2.2.2.1.trans h1.2.2.1, h2.2.2.2.trans h1.2.2.2⟩

theorem untouched_trans {s t u : AudioSamplerStream} (h1 : Untouched s t)
    (h2 : Untouched t u) : Untouched s u :=
  ⟨sameCursor_trans h1.1 h2.1, h2.2.1.trans h1.2.1, h2.2.2.trans h1.2.2⟩

theorem untouched_loaded {s t u : AudioSamplerStream} (h1 : Untouched s t)
    (h2 : Loaded t u) : Loaded s u := by
  obtain ⟨hc, idx, block, hn, hm⟩ := h2
  exact ⟨sameCursor_trans h1.1 hc, idx, block, by rw [← h1.2.1]; exact hn, by rw [hm, h1.2.1]⟩

theorem tryBlock_frame (s : AudioSamplerStream) (idx block : Nat) :
    Step.Sat (Untouched s) (Loaded s) (tryBlock s idx block) := by
  unfold tryBlock
  split
  · trivial
  · split
    · exact untouched_refl s
    · split
      · exact untouched_refl s
      · rename_i hmem
        split
        · trivial
        · rename_i w hs
          exact ⟨⟨rfl, rfl, rfl, WavLoader.seek_header _ _ _ _ hs⟩, rfl, rfl⟩
        · rename_i w hs
          split
          · trivial
          · rename_i got w1 hr
            have hh : w1._header = s._file._header :=
              (WavLoader.read_header _ _ _ _ hr).trans (WavLoader.seek_header _ _ _ _ hs)
            split
            · exact ⟨⟨rfl, rfl, rfl, hh⟩, idx, block, hmem, rfl⟩
            · exact ⟨⟨rfl, rfl, rfl, hh⟩, rfl, rfl⟩

theorem signLoop_frame (s : AudioSamplerStream) (idx r absDiff : Nat) :
    Step.Sat (Untouched s) (Loaded s) (signLoop s idx r absDiff) := by
  unfold signLoop
  have h1 := tryBlock_frame s idx (r + absDiff)
  split
  · rename_i s1 hc
    rw [hc] at h1
    have h1 : Untouched s s1 := h1
    split
    · exact h1
    · have h2 := tryBlock_frame s1 idx (r - absDiff)
      cases h : tryBlock s1 idx (r - absDiff) with
      | undef => trivial
      | brk t => rw [h] at h2; exact untouched_trans h1 h2
      | cont t => rw [h] at h2; exact untouched_trans h1 h2
      | done t => rw [h] at h2; exact untouched_loaded h1 h2
  · exact h1

theorem primeScan_frame (idx r fuel : Nat) :
    ∀ (absDiff : Nat) (s t : AudioSamplerStream) (b : Bool),
      primeScan idx r fuel absDiff s = some (b, t) →
        (b = false → Untouched s t) ∧ (b = true → Loaded s t) := by
  induction fuel with
  | zero =>
    intro absDiff s t b h
    simp only [primeScan, Option.some.injEq, Prod.mk.injEq] at h
    rw [← h.1, ← h.2]
    exact ⟨fun _ => untouched_refl s, fun h => by simp at h⟩
  | succ n ih =>
    intro absDiff s t b h
    rw [primeScan] at h
    have hf := signLoop_frame s idx r absDiff
    split at h
    · rename_i s1 hs
      rw [hs] at hf
      simp only [Option.some.injEq, Prod.mk.injEq] at h
      rw [← h.1, ← h.2]
      exact ⟨fun h => by simp at h, fun _ => hf⟩
    · simp at h
    · rename_i s1 hs
      rw [hs] at hf
      have := ih _ _ _ _ h
      exact ⟨fun hb => untouched_trans hf (this.1 hb), fun hb => untouched_loaded hf (this.2 hb)⟩
    · rename_i s1 hs
      rw [hs] at hf
      have := ih _ _ _ _ h
      exact ⟨fun hb => untouched_trans hf (this.1 hb), fun hb => untouched_loaded hf (this.2 hb)⟩

theorem prime_frame (p : Params) (s t : AudioSamplerStream) (b : Bool)
    (h : prime p s = some (b, t)) :
    (b = false → Untouched s t) ∧ (b = true → Loaded s t) :=
  primeScan_frame _ _ _ _ _ _ _ h

end AudioSamplerStream

/-! ### C9: the code `load` returns -/

theorem WavLoader.openWav_file (w : WavLoader) (file : Option FileWrapper)
    (h : (w.openWav file).1 = true) : ∃ f, (w.openWav file).2._file = some f := by
  unfold WavLoader.openWav at h ⊢
  split
  · simp at h
  · rename_i f
    split
    · rename_i hf; simp [hf] at h
    · rename_i f1 hf
      simp only [hf] at h
      dsimp only at h ⊢
      split
      · rename_i hl; simp [hl] at h
      · split
        · rename_i hl hr; simp [hl, hr] at h
        · exact ⟨_, rfl⟩

theorem WavLoader.read_isSome (w : WavLoader) (f : FileWrapper) (n : Nat)
    (h : w._file = some f) : ∃ r, w.read n = some r := by
  unfold WavLoader.read
  rw [h]
  exact ⟨_, rfl⟩

namespace AudioSamplerStream

/-- C9: `load` always returns, and its code is `BadFile` when `WavLoader::open`
fails, else `BadSampleRate` when the header's rate differs from `SR`, else
`BadNumChannels` when the channel count differs from `NC`, else
`BadSampleSize` when the bit depth differs from `8 * sizeof(SampleType)`, else
`NoErr`; so it is `NoErr` exactly when the open succeeds and all three
fields match. -/
theorem load_error_code (p : Params) (s : AudioSamplerStream) (file : Option FileWrapper) :
    (∃ s1, load p s file = some
      (if (s._file.openWav file).1 = false then AudioSamplerError.BadFile
       else if (s._file.openWav file).2.sampleRate ≠ p.SR then AudioSamplerError.BadSampleRate
       else if (s._file.openWav file).2.numChannels ≠ p.NC then AudioSamplerError.BadNumChannels
       else if (s._file.openWav file).2.bitsPerSample ≠ p.sample.sizeof * 8
         then AudioSamplerError.BadSampleSize
       else AudioSamplerError.NoErr, s1)) ∧
    ((∃ s1, load p s file = some (AudioSamplerError.NoErr, s1)) ↔
      ((s._file.openWav file).1 = true ∧ (s._file.openWav file).2.sampleRate = p.SR ∧
        (s._file.openWav file).2.numChannels = p.NC ∧
        (s._file.openWav file).2.bitsPerSample = p.sample.sizeof * 8)) := by
  have key : ∃ s1, load p s file = some
      (if (s._file.openWav file).1 = false then AudioSamplerError.BadFile
       else if (s._file.openWav file).2.sampleRate ≠ p.SR then AudioSamplerError.BadSampleRate
       else if (s._file.openWav file).2.numChannels ≠ p.NC then AudioSamplerError.BadNumChannels
       else if (s._file.openWav file).2.bitsPerSample ≠ p.sample.sizeof * 8
         then AudioSamplerError.BadSampleSize
       else AudioSamplerError.NoErr, s1) := by
    unfold load
    cases ho : s._file.openWav file with
    | mk ok w =>
      cases ok with
      | false => simp
      | true =>
        dsimp only
        by_cases h1 : w.sampleRate = p.SR
        · by_cases h2 : w.numChannels = p.NC
          · by_cases h3 : w.bitsPerSample = p.sample.sizeof * 8
            · have hw : (s._file.openWav file).1 = true := by rw [ho]
              obtain ⟨f, hf⟩ := WavLoader.openWav_file _ _ hw
              rw [ho] at hf
              obtain ⟨r, hr⟩ := WavLoader.read_isSome w f (IntroBufSize p * p.sample.sizeof) hf
              simp [h1, h2, h3, hr]
            · simp [h1, h2, h3]
          · simp [h1, h2]
        · simp [h1]
  refine ⟨key, ?_⟩
  obtain ⟨s1, hs1⟩ := key
  rw [hs1]
  constructor
  · rintro ⟨s2, h2⟩
    simp only [Option.some.injEq, Prod.mk.injEq] at h2
    have h := h2.1
    split at h
    · cases h
    · split at h
      · cases h
      · split at h
        · cases h
        · split at h
          · cases h
          · rename_i a b c d
            refine ⟨by simpa using a, by simpa using b, by simpa using c, by simpa using d⟩
  · rintro ⟨a, b, c, d⟩
    exact ⟨s1, by simp [a, b, c, d]⟩

end AudioSamplerStream

/-! ### C4: the cursor advances by the returned count -/

namespace AudioSamplerStream

theorem prime_sampleIdx (p : Params) (s t : AudioSamplerStream) (b : Bool)
    (h : prime p s = some (b, t)) : t._sampleIdx = s._sampleIdx := by
  have hf := prime_frame p s t b h
  cases b with
  | false => exact (hf.1 rfl).1.2.1
  | true => exact (hf.2 rfl).1.2.1

theorem read_count (p : Params) (s : AudioSamplerStream) (n : Nat) :
    (read p s n).2.1 ≤ n ∧
      (s._sampleIdx + n < 4294967296 →
        (read p s n).1._sampleIdx = s._sampleIdx + (read p s n).2.1) := by
  obtain ⟨_, h2, h3, h4⟩ := read_spec p s n
  refine ⟨h2, fun hlt => ?_⟩
  have := h4 (by omega)
  omega

theorem exec_reads_primes (p : Params) (ops : List Op) :
    ∀ (s t : AudioSamplerStream) (rs : List (Nat × List Nat)),
      (∀ op ∈ ops, op = Op.prime ∨ ∃ n, op = Op.read n) →
      s._sampleIdx + (requested ops).sum < 4294967296 →
      exec p ops s = some (t, rs) →
      t._sampleIdx = s._sampleIdx + (rs.map Prod.fst).sum ∧
        List.Forall₂ (fun r n => r.1 ≤ n) rs (requested ops) := by
  induction ops with
  | nil =>
    intro s t rs _ _ h
    simp only [exec, Option.some.injEq, Prod.mk.injEq] at h
    rw [← h.1, ← h.2]
    simp [requested]
  | cons op rest ih =>
    intro s t rs hops hsum h
    have hrest : ∀ o ∈ rest, o = Op.prime ∨ ∃ n, o = Op.read n :=
      fun o ho => hops o (List.mem_cons_of_mem _ ho)
    rcases hops op (List.mem_cons_self _ _) with hop | ⟨n, hop⟩
    · subst hop
      simp only [requested] at hsum ⊢
      simp only [exec, step] at h
      cases hp : prime p s with
      | none => simp [hp] at h
      | some r =>
        obtain ⟨b, s1⟩ := r
        simp only [hp] at h
        cases he : exec p rest s1 with
        | none => simp [he] at h
        | some r2 =>
          obtain ⟨s2, rs2⟩ := r2
          simp only [he, Option.toList, List.nil_append, Option.some.injEq, Prod.mk.injEq] at h
          have h1 := prime_sampleIdx p s s1 b hp
          have := ih s1 s2 rs2 hrest (by omega) he
          rw [← h.1, ← h.2, ← h1]
          exact this
    · subst hop
      simp only [requested, List.sum_cons] at hsum ⊢
      simp only [exec, step] at h
      cases he : exec p rest (read p s n).1 with
      | none => simp [he] at h
      | some r2 =>
        obtain ⟨s2, rs2⟩ := r2
        simp only [he, Option.toList, List.singleton_append, Option.some.injEq,
          Prod.mk.injEq] at h
        obtain ⟨hc, hi⟩ := read_count p s n
        have hi := hi (by omega)
        have := ih (read p s n).1 s2 rs2 hrest (by omega) he
        rw [← h.1, ← h.2]
        refine ⟨?_, List.Forall₂.cons hc this.2⟩
        rw [this.1, hi]
        simp only [List.map_cons, List.sum_cons]
        omega

/-- C4: `read(dst, n)` returns a count `c` with `c ≤ n`, and without 32-bit
overflow the cursor afterwards is the cursor before plus `c` (in every state,
so also between `prime` calls); hence after any sequence of `read` and `prime`
calls the cursor is the cursor at the start plus the sum of the returned
counts, and each count is at most the count requested. -/
theorem read_advances_cursor_by_count (p : Params) :
    (∀ (s : AudioSamplerStream) (n : Nat),
      (read p s n).2.1 ≤ n ∧
        (sampleIndex s + n < 4294967296 →
          sampleIndex (read p s n).1 = sampleIndex s + (read p s n).2.1)) ∧
    (∀ (ops : List Op) (s t : AudioSamplerStream) (rs : List (Nat × List Nat)),
      (∀ op ∈ ops, op = Op.prime ∨ ∃ n, op = Op.read n) →
      sampleIndex s + (requested ops).sum < 4294967296 →
      exec p ops s = some (t, rs) →
      sampleIndex t = sampleIndex s + (rs.map Prod.fst).sum ∧
        List.Forall₂ (fun r n => r.1 ≤ n) rs (requested ops)) :=
  ⟨fun s n => read_count p s n, fun ops s t rs => exec_reads_primes p ops s t rs⟩

end AudioSamplerStream

/-! ### C5: no duplicate caching -/

namespace AudioSamplerStream

theorem getD_set (m : List Nat) (idx block i : Nat) :
    (m.set idx block).getD i 0 = if i = idx ∧ idx < m.length then block else m.getD i 0 := by
  simp only [List.getD_eq_getElem?_getD, List.getElem?_set]
  by_cases h : idx = i
  · subst h
    by_cases h2 : idx < m.length
    · simp [h2]
    · simp [h2, List.getElem?_eq_none (Nat.le_of_not_lt h2)]
  · have : ¬ i = idx := fun e => h e.symm
    simp [h, this]

theorem getD_mem (m : List Nat) (i : Nat) (h : i < m.length) : m.getD i 0 ∈ m := by
  rw [List.getD_eq_getElem?_getD, List.getElem?_eq_getElem h]
  exact List.getElem_mem h

theorem noDuplicateBlocks_set (m : List Nat) (idx block : Nat) (hn : block ∉ m)
    (h : NoDuplicateBlocks m) : NoDuplicateBlocks (m.set idx block) := by
  intro i j hij hj hEq
  rw [List.length_set] at hj
  rw [getD_set, getD_set] at hEq
  rw [getD_set]
  by_cases hi : i = idx ∧ idx < m.length
  · have hjn : ¬ (j = idx ∧ idx < m.length) := by omega
    rw [if_pos hi, if_neg hjn] at hEq
    exact absurd (hEq ▸ getD_mem m j hj) hn
  · rw [if_neg hi] at hEq ⊢
    by_cases hj2 : j = idx ∧ idx < m.length
    · rw [if_pos hj2] at hEq
      exact absurd (hEq ▸ getD_mem m i (by omega)) hn
    · rw [if_neg hj2] at hEq
      exact h i j hij hj hEq

theorem setSampleIndex_same (s t : AudioSamplerStream) (i : Nat)
    (h : setSampleIndex s i = some t) :
    SameBuffers s t ∧ t._readHead = s._readHead ∧
      ∃ n, s._file.numSamples = some n ∧ t._sampleIdx = min i n := by
  unfold setSampleIndex at h
  cases hn : s._file.numSamples with
  | none => simp [hn] at h
  | some n =>
    simp only [hn, Option.some.injEq] at h
    rw [← h]
    exact ⟨⟨rfl, rfl, rfl, rfl⟩, rfl, n, rfl, rfl⟩

theorem step_map (p : Params) (s s1 : AudioSamplerStream) (op : Op)
    (r : Option (Nat × List Nat)) (h : step p s op = some (s1, r)) :
    s1._bufBlockMap = s._bufBlockMap ∨ Loaded s s1 := by
  cases op with
  | read n =>
    simp only [step, Option.some.injEq, Prod.mk.injEq] at h
    rw [← h.1]
    exact Or.inl (read_spec p s n).1.2.2.2
  | prime =>
    simp only [step] at h
    cases hp : prime p s with
    | none => simp [hp] at h
    | some q =>
      obtain ⟨b, t⟩ := q
      simp only [hp, Option.some.injEq, Prod.mk.injEq] at h
      rw [← h.1]
      have hf := prime_frame p s t b hp
      cases b with
      | false => exact Or.inl (hf.1 rfl).2.1
      | true => exact Or.inr (hf.2 rfl)
  | setSampleIndex i =>
    simp only [step] at h
    cases hp : setSampleIndex s i with
    | none => simp [hp] at h
    | some t =>
      simp only [hp, Option.some.injEq, Prod.mk.injEq] at h
      rw [← h.1]
      exact Or.inl (setSampleIndex_same s t i hp).1.2.2.2
  | reset =>
    simp only [step, reset] at h
    cases hp : setSampleIndex s 0 with
    | none => simp [hp] at h
    | some t =>
      simp only [hp, Option.some.injEq, Prod.mk.injEq] at h
      rw [← h.1]
      exact Or.inl (setSampleIndex_same s t 0 hp).1.2.2.2

theorem step_noDuplicateBlocks (p : Params) (s s1 : AudioSamplerStream) (op : Op)
    (r : Option (Nat × List Nat)) (h : step p s op = some (s1, r))
    (hm : NoDuplicateBlocks s._bufBlockMap) : NoDuplicateBlocks s1._bufBlockMap := by
  rcases step_map p s s1 op r h with h1 | ⟨_, idx, block, hn, hset⟩
  · rw [h1]; exact hm
  · rw [hset]; exact noDuplicateBlocks_set _ _ _ hn hm

theorem exec_noDuplicateBlocks (p : Params) (ops : List Op) :
    ∀ (s t : AudioSamplerStream) (rs : List (Nat × List Nat)),
      exec p ops s = some (t, rs) → NoDuplicateBlocks s._bufBlockMap →
        NoDuplicateBlocks t._bufBlockMap := by
  induction ops with
  | nil =>
    intro s t rs h hm
    simp only [exec, Option.some.injEq, Prod.mk.injEq] at h
    rw [← h.1]; exact hm
  | cons op rest ih =>
    intro s t rs h hm
    simp only [exec] at h
    cases hs : step p s op with
    | none => simp [hs] at h
    | some q =>
      obtain ⟨s1, r⟩ := q
      simp only [hs] at h
      cases he : exec p rest s1 with
      | none => simp [he] at h
      | some q2 =>
        obtain ⟨s2, rs2⟩ := q2
        simp only [he, Option.some.injEq, Prod.mk.injEq] at h
        rw [← h.1]
        exact ih s1 s2 rs2 he (step_noDuplicateBlocks p s s1 op r hs hm)

theorem load_map (p : Params) (s s1 : AudioSamplerStream) (file : Option FileWrapper)
    (h : load p s file = some (AudioSamplerError.NoErr, s1)) :
    s1._bufBlockMap = List.replicate NumBlocks UnmappedBlock ∧ s1._sampleIdx = 0 ∧
      s1._readHead = 0 ∧ s1._ringBuf = s._ringBuf := by
  unfold load at h
  split at h
  · split at h
    · simp at h
    · split at h
      · simp at h
      · split at h
        · simp at h
        · split at h
          · simp at h
          · simp only [Option.some.injEq, Prod.mk.injEq] at h
            rw [← h.2]; simp
  · simp at h

/-- C5: after a successful `load` and any sequence of `prime`, `read`,
`setSampleIndex` and `reset` calls, no two distinct Cache Slot Map entries hold
the same block number, the unmapped sentinel apart. -/
theorem no_duplicate_caching (p : Params) (s0 s1 t : AudioSamplerStream)
    (file : Option FileWrapper) (ops : List Op) (rs : List (Nat × List Nat))
    (hload : load p s0 file = some (AudioSamplerError.NoErr, s1))
    (hexec : exec p ops s1 = some (t, rs)) :
    NoDuplicateBlocks t._bufBlockMap := by
  refine exec_noDuplicateBlocks p ops s1 t rs hexec ?_
  rw [(load_map p s0 s1 file hload).1]
  intro i j hij hj _
  simp only [List.length_replicate] at hj
  rw [List.getD_eq_getElem?_getD, List.getElem?_replicate]
  simp [show i < NumBlocks by omega]

end AudioSamplerStream

/-! ### C8: reset replays the intro segment -/

namespace AudioSamplerStream

theorem primeN_sameCursor (p : Params) (n : Nat) :
    ∀ (s t : AudioSamplerStream) (flags : List Bool),
      primeN p n s = some (flags, t) → SameCursor s t := by
  induction n with
  | zero =>
    intro s t flags h
    simp only [primeN, Option.some.injEq, Prod.mk.injEq] at h
    rw [← h.2]; exact ⟨rfl, rfl, rfl, rfl⟩
  | succ k ih =>
    intro s t flags h
    simp only [primeN] at h
    cases hp : prime p s with
    | none => simp [hp] at h
    | some q =>
      obtain ⟨b, s1⟩ := q
      simp only [hp] at h
      cases hn : primeN p k s1 with
      | none => simp [hn] at h
      | some q2 =>
        obtain ⟨bs, s2⟩ := q2
        simp only [hn, Option.some.injEq, Prod.mk.injEq] at h
        rw [← h.2]
        have hf := prime_frame p s s1 b hp
        have h1 : SameCursor s s1 := by
          cases b with
          | false => exact (hf.1 rfl).1
          | true => exact (hf.2 rfl).1
        exact sameCursor_trans h1 (ih s1 s2 bs hn)

theorem introBufSize_pos (p : Params) : 0 < IntroBufSize p := by
  unfold IntroBufSize BlockSize sizeofWavHeader
  cases p.sample <;> simp [SampleType.sizeof]

/-- A read of at most `IntroBufSize` samples at cursor 0 returns all of them
and copies the first bytes of `_introBuf`. -/
theorem read_intro (p : Params) (s : AudioSamplerStream) (k : Nat)
    (hk : k ≤ IntroBufSize p) (hc : s._sampleIdx = 0)
    (hl : IntroBufSize p * p.sample.sizeof ≤ s._introBuf.length) :
    (read p s k).2 = (k, s._introBuf.take (k * p.sample.sizeof)) := by
  have hpos := introBufSize_pos p
  have h0 : refreshReadHead p s = { s with _readHead := 0 } := by
    unfold refreshReadHead; rw [hc, if_pos hpos]
  unfold read
  simp only [h0, if_pos hpos]
  have hclip : clipToIntro p { s with _readHead := 0 } k = k := by
    unfold clipToIntro; simp only [Nat.add_zero]; rw [if_neg (by omega)]
  rw [hclip, Nat.sub_self]
  simp only [readRing, Nat.sub_zero, samplesAt, Nat.zero_mul, List.drop_zero]
  have : k * p.sample.sizeof ≤ s._introBuf.length :=
    Nat.le_trans (Nat.mul_le_mul_right _ hk) hl
  rw [List.take_append_of_le_length this]

theorem writeAt_length_ge (buf : List Nat) (off : Nat) (bytes : List Nat) :
    buf.length ≤ (writeAt buf off bytes).length := by
  unfold writeAt
  simp only [List.length_append, List.length_take, List.length_drop]
  omega

theorem load_introBuf (p : Params) (s s1 : AudioSamplerStream) (file : Option FileWrapper)
    (h : load p s file = some (AudioSamplerError.NoErr, s1)) :
    s._introBuf.length ≤ s1._introBuf.length := by
  unfold load at h
  split at h
  · split at h
    · simp at h
    · split at h
      · simp at h
      · split at h
        · simp at h
        · split at h
          · simp at h
          · simp only [Option.some.injEq, Prod.mk.injEq] at h
            rw [← h.2]
            exact writeAt_length_ge _ _ _
  · simp at h

/-- C8: for `K ≤ IntroBufSize` and any number `n` of `prime()` calls, the
sequence `load; read(out1, K); n x prime(); reset(); read(out2, K)` has both
reads return `K` and `out2` byte-identical to `out1`. -/
theorem reset_replays_intro (p : Params) (s0 s1 s3 s4 : AudioSamplerStream)
    (file : Option FileWrapper) (K n : Nat) (flags : List Bool)
    (hsized : Sized p s0)
    (hload : load p s0 file = some (AudioSamplerError.NoErr, s1))
    (hK : K ≤ IntroBufSize p)
    (hprime : primeN p n (read p s1 K).1 = some (flags, s3))
    (hreset : reset s3 = some s4) :
    (read p s1 K).2.1 = K ∧ (read p s4 K).2.1 = K ∧ (read p s4 K).2.2 = (read p s1 K).2.2 := by
  have hl1 : IntroBufSize p * p.sample.sizeof ≤ s1._introBuf.length := by
    rw [← hsized.2.2.1]; exact load_introBuf p s0 s1 file hload
  have hr1 := read_intro p s1 K hK (load_map p s0 s1 file hload).2.1 hl1
  have hi1 : (read p s1 K).1._introBuf = s1._introBuf := (read_spec p s1 K).1.2.1
  have hi3 : s3._introBuf = s1._introBuf :=
    (primeN_sameCursor p n _ s3 flags hprime).2.2.1.trans hi1
  obtain ⟨hb, _, m, _, hidx⟩ := setSampleIndex_same s3 s4 0 hreset
  have hi4 : s4._introBuf = s1._introBuf := hb.2.1.trans hi3
  have hr4 := read_intro p s4 K hK (by rw [hidx]; simp) (by rw [hi4]; exact hl1)
  rw [hr1, hr4, hi4]
  exact ⟨rfl, rfl, rfl⟩

end AudioSamplerStream

/-! ### C10: a failed load -/

namespace AudioSamplerStream

/-- C10, as the code has it: when `load` returns an error code, the Cache Slot
Map, the cursor, the read pointer and both buffers are exactly what they were
before the call (nothing is cleared). -/
theorem load_error_keeps_state (p : Params) (s s1 : AudioSamplerStream)
    (file : Option FileWrapper) (e : AudioSamplerError)
    (h : load p s file = some (e, s1)) (he : e ≠ AudioSamplerError.NoErr) :
    s1._bufBlockMap = s._bufBlockMap ∧ s1._sampleIdx = s._sampleIdx ∧
      s1._readHead = s._readHead ∧ s1._introBuf = s._introBuf ∧ s1._ringBuf = s._ringBuf := by
  unfold load at h
  split at h
  · split at h
    · simp only [Option.some.injEq, Prod.mk.injEq] at h
      rw [← h.2]; simp
    · split at h
      · simp only [Option.some.injEq, Prod.mk.injEq] at h
        rw [← h.2]; simp
      · split at h
        · simp only [Option.some.injEq, Prod.mk.injEq] at h
          rw [← h.2]; simp
        · split at h
          · simp at h
          · simp only [Option.some.injEq, Prod.mk.injEq] at h
            exact absurd h.1.symm he
  · simp only [Option.some.injEq, Prod.mk.injEq] at h
    rw [← h.2]; simp

/-- C10, witness of `load_error_keeps_state`: a failed `load` on the new
stream. -/
theorem load_error_keeps_state_witness :
    load stereo16 newStream (some absentFile)
        = some (AudioSamplerError.BadFile, newStream) ∧
      AudioSamplerError.BadFile ≠ AudioSamplerError.NoErr ∧
      (newStream._bufBlockMap = newStream._bufBlockMap ∧
        newStream._sampleIdx = newStream._sampleIdx ∧
        newStream._readHead = newStream._readHead ∧
        newStream._introBuf = newStream._introBuf ∧ newStream._ringBuf = newStream._ringBuf) :=
  ⟨by decide!, by decide, load_error_keeps_state stereo16 newStream newStream (some absentFile)
    AudioSamplerError.BadFile (by decide!) (by decide)⟩

/-- C10, counterexample: a stream loaded from a 2048-byte file, primed three
times and read for 100 samples, then given a file that cannot be opened:
`load` returns `BadFile`, and the map still holds blocks 1, 2, 3 and the cursor
is still 100. -/
theorem failed_load_leaves_map_and_cursor :
    ∃ s1 s2 s3, load stereo16 newStream (some (wavFile 2048)) = some (AudioSamplerError.NoErr, s1) ∧
      primeN stereo16 3 s1 = some ([true, true, true], s2) ∧
      load stereo16 (read stereo16 s2 100).1 (some absentFile)
        = some (AudioSamplerError.BadFile, s3) ∧
      s3._bufBlockMap = [1, 2, 3] ∧ s3._sampleIdx = 100 ∧
      s3._bufBlockMap ≠ List.replicate NumBlocks UnmappedBlock := by
  refine ⟨((load stereo16 newStream (some (wavFile 2048))).getD
      (AudioSamplerError.BadFile, newStream)).2,
    ((primeN stereo16 3 ((load stereo16 newStream (some (wavFile 2048))).getD
      (AudioSamplerError.BadFile, newStream)).2).getD ([], newStream)).2,
    ((load stereo16 (read stereo16 ((primeN stereo16 3 ((load stereo16 newStream
      (some (wavFile 2048))).getD (AudioSamplerError.BadFile, newStream)).2).getD
      ([], newStream)).2 100).1 (some absentFile)).getD (AudioSamplerError.NoErr, newStream)).2,
    ?_, ?_, ?_, ?_, ?_, ?_⟩ <;> decide!

end AudioSamplerStream

/-! ### C2, C3: five primes at cursor 0, then reads -/

theorem WavLoader.openWav_inv (w w1 : WavLoader) (file : Option FileWrapper)
    (h : w.openWav file = (true, w1)) :
    ∃ f, file = some f ∧ f.present = true ∧ 44 ≤ f.bytes.length ∧
      (f.bytes.take 44).take 4 = kRiffHeader ∧
      w1 = { w with _file := some ⟨f.bytes, f.present, some 44⟩
                    _header := writeAt w._header 0 (f.bytes.take 44)
                    _position := 44 } := by
  unfold WavLoader.openWav at h
  split at h
  · simp at h
  · rename_i f
    refine ⟨f, rfl, ?_⟩
    unfold FileWrapper.openFile at h
    by_cases hp : f.present = true
    · rw [if_pos hp] at h
      simp only [FileWrapper.read, List.drop_zero, sizeofWavHeader, Nat.zero_add] at h
      split at h
      · simp at h
      · rename_i hl
        split at h
        · simp at h
        · rename_i hr
          simp only [Prod.mk.injEq, true_and] at h
          have hl' : (f.bytes.take 44).length = 44 := by simpa using hl
          have hlen : 44 ≤ f.bytes.length := by
            rw [List.length_take] at hl'; omega
          have hriff : (f.bytes.take 44).take 4 = kRiffHeader := by
            have := not_not.mp hr
            unfold writeAt at this
            simp only [List.take_zero, List.nil_append] at this
            rw [List.take_append_of_le_length (by omega)] at this
            exact this
          refine ⟨hp, hlen, hriff, ?_⟩
          rw [← h, hl']
    · rw [if_neg hp] at h
      simp at h

theorem WavLoader.readLoop_refill_stop (c eb eo fuel : Nat) (w : WavLoader) (f : FileWrapper)
    (out : List Nat) (hc : out.length < c) (hb : w._position / 512 ≠ w._blockNum)
    (he : w._position / 512 = eb ∨ w._position % 512 > 0)
    (hs : ¬ w._position % 512 <
      MIN ((f.seek (w._position / 512 * 512)).2.read 512).1.length eo) :
    WavLoader.readLoop c eb eo (fuel + 1) w f out false =
      (out,
        { w with _buffer := writeAt w._buffer 0 ((f.seek (w._position / 512 * 512)).2.read 512).1
                 _bufferLen := ((f.seek (w._position / 512 * 512)).2.read 512).1.length
                 _blockNum := w._position / 512 },
        ((f.seek (w._position / 512 * 512)).2.read 512).2) := by
  have hbody : WavLoader.readBody eb eo w f out false =
      ({ w with _buffer := writeAt w._buffer 0 ((f.seek (w._position / 512 * 512)).2.read 512).1
                _bufferLen := ((f.seek (w._position / 512 * 512)).2.read 512).1.length
                _blockNum := w._position / 512 },
        ((f.seek (w._position / 512 * 512)).2.read 512).2, out, true) := by
    unfold WavLoader.readBody
    simp only [if_neg hb, if_pos he, WavLoader.BLOCKSIZE, if_neg hs]
  rw [WavLoader.readLoop]
  simp only [Bool.not_false, Bool.true_and, decide_eq_true_eq, hc, if_true, hbody]
  rw [WavLoader.readLoop_done _ _ _ _ _ _ _ _ (Or.inl rfl)]

/-- The intro read of `load` for 1-, 2- and 4-byte samples on a fresh loader
and a file of at least 512 bytes: the request ends exactly at the block
boundary 512, `endOffset` is 0, and the refill branch delivers nothing. -/
theorem WavLoader.read_to_block_end (w : WavLoader) (bytes : List Nat) (pr : Bool) (pos : Nat)
    (hf : w._file = some ⟨bytes, pr, some pos⟩) (hp : w._position = 44)
    (hb : w._blockNum ≠ 0) (hlen : 512 ≤ bytes.length) (hlt : bytes.length < 4294967296) :
    w.read 468 = some ([],
      { w with _buffer := writeAt w._buffer 0 (bytes.take 512)
               _bufferLen := 512
               _blockNum := 0
               _file := some ⟨bytes, pr, some 512⟩ }) := by
  have hc : MIN 468 (toU32 ((bytes.length : Int) - ((44 : Nat) : Int))) = 468 := by
    rw [toU32_sub _ _ (by omega) (by omega)]
    unfold MIN; split <;> omega
  have hl : (bytes.take 512).length = 512 := by
    rw [List.length_take]; omega
  have hr : ((FileWrapper.seek ⟨bytes, pr, some pos⟩ (44 / 512 * 512)).2.read 512)
      = (bytes.take 512, ⟨bytes, pr, some 512⟩) := by
    have e0 : (44 / 512 * 512 : Nat) = 0 := rfl
    simp only [FileWrapper.seek, FileWrapper.read, e0, List.drop_zero, hl, Nat.zero_add]
  unfold WavLoader.read
  simp only [hf, FileWrapper.size, hp, hc]
  rw [WavLoader.readLoop_refill_stop 468 _ _ 467 w _ [] (by simp) (by rw [hp]; omega)
    (Or.inr (by rw [hp]; decide)) (by rw [hp, hr]; simp [hl, MIN])]
  rw [hp, hr]
  dsimp only
  rw [hl]

namespace AudioSamplerStream

theorem load_noErr_inv (p : Params) (s s1 : AudioSamplerStream) (file : Option FileWrapper)
    (h : load p s file = some (AudioSamplerError.NoErr, s1)) :
    ∃ w got w1, s._file.openWav file = (true, w) ∧
      w.read (IntroBufSize p * p.sample.sizeof) = some (got, w1) ∧
      s1 = { s with _file := w1
                    _introBuf := writeAt s._introBuf 0 got
                    _readHead := 0
                    _sampleIdx := 0
                    _bufBlockMap := List.replicate NumBlocks UnmappedBlock } := by
  unfold load at h
  split at h
  · rename_i w ho
    split at h
    · simp at h
    · split at h
      · simp at h
      · split at h
        · simp at h
        · split at h
          · simp at h
          · rename_i got w1 hr
            simp only [Option.some.injEq, Prod.mk.injEq, true_and] at h
            exact ⟨w, got, w1, ho, hr, h.symm⟩
  · simp at h

/-- What a successful `load` of a file of at least 512 bytes leaves on a newly
constructed stream of 1-, 2- or 4-byte samples: the loader streams over the file with
block 0 in its cache, and the intro segment is what it was before. -/
theorem load_new (p : Params) (s0 s1 : AudioSamplerStream) (f : FileWrapper)
    (hp : p.sample ≠ SampleType.int64)
    (hnew : NewlyConstructed p s0)
    (hlen : 512 ≤ f.bytes.length) (hlt : f.bytes.length < 4294967296)
    (h : load p s0 (some f) = some (AudioSamplerError.NoErr, s1)) :
    Streaming s1 f.bytes ∧ s1._introBuf = s0._introBuf ∧ s1._ringBuf = s0._ringBuf ∧
      s1._bufBlockMap = [4294967295, 4294967295, 4294967295] ∧ s1._sampleIdx = 0 ∧
      s1._readHead = 0 := by
  obtain ⟨w, got, w1, ho, hr, hs1⟩ := load_noErr_inv p s0 s1 (some f) h
  obtain ⟨f', hf', _, _, _, hw⟩ := WavLoader.openWav_inv _ _ _ ho
  simp only [Option.some.injEq] at hf'
  subst hf'
  have h468 : IntroBufSize p * p.sample.sizeof = 468 := by
    unfold IntroBufSize BlockSize sizeofWavHeader
    cases hs : p.sample with
    | int8 => rfl
    | int16 => rfl
    | int32 => rfl
    | int64 => exact absurd hs hp
  rw [h468] at hr
  have hread := WavLoader.read_to_block_end w f.bytes f.present 44 (by rw [hw]) (by rw [hw])
    (by rw [hw]; dsimp only; rw [hnew.2.2.2.1]; decide) hlen hlt
  rw [hread] at hr
  simp only [Option.some.injEq, Prod.mk.injEq] at hr
  rw [hs1, ← hr.1, ← hr.2]
  refine ⟨⟨⟨f.present, 512, rfl⟩, rfl⟩, ?_, rfl, rfl, rfl, rfl⟩
  simp [writeAt]

end AudioSamplerStream

namespace AudioSamplerStream

theorem tryBlock_full (s : AudioSamplerStream) (idx block : Nat) (bytes : List Nat)
    (pr : Bool) (pos : Nat)
    (hf : s._file._file = some ⟨bytes, pr, some pos⟩)
    (hcache : s._file._blockNum ≠ block)
    (hsize : block * 512 ≤ s._file.fileSize)
    (hlen : (block + 1) * 512 ≤ bytes.length) (hlt : bytes.length < 4294967296)
    (hint : block * 512 < 2147483648)
    (hmap : block ∉ s._bufBlockMap) :
    tryBlock s idx block = Step.done
      { s with
        _file := { s._file with
                   _position := (block + 1) * 512
                   _file := some ⟨bytes, pr, some ((block + 1) * 512)⟩ }
        _ringBuf := writeAt s._ringBuf (idx * 512) ((bytes.drop (block * 512)).take 512)
        _bufBlockMap := s._bufBlockMap.set idx block } := by
  have hseek : s._file.seek (block * 512) = some (true,
      { s._file with _position := block * 512, _file := some ⟨bytes, pr, some (block * 512)⟩ }) := by
    unfold WavLoader.seek
    rw [hf]
    rfl
  have hread := WavLoader.read_block
    { s._file with _position := block * 512, _file := some ⟨bytes, pr, some (block * 512)⟩ }
    bytes pr block rfl rfl hcache hlen hlt
  have hgot : ((bytes.drop (block * 512)).take 512).length > 0 := by
    rw [List.length_take, List.length_drop]; omega
  unfold tryBlock
  simp only [BlockSize]
  rw [if_neg (by omega), if_neg (by omega), if_neg hmap, hseek]
  dsimp only
  rw [hread]
  dsimp only
  rw [if_pos hgot]

theorem tryBlock_cached (s : AudioSamplerStream) (idx block : Nat)
    (hsize : block * 512 ≤ s._file.fileSize) (hint : block * 512 < 2147483648)
    (hmap : block ∈ s._bufBlockMap) :
    tryBlock s idx block = Step.cont s := by
  unfold tryBlock
  simp only [BlockSize]
  rw [if_neg (by omega), if_neg (by omega), if_pos hmap]

theorem primeScan_ahead_done (idx r fuel a : Nat) (s t : AudioSamplerStream)
    (hfuel : fuel ≠ 0) (h : tryBlock s idx (r + a) = Step.done t) :
    primeScan idx r fuel a s = some (true, t) := by
  cases fuel with
  | zero => exact absurd rfl hfuel
  | succ n => rw [primeScan, signLoop, h]

theorem primeScan_ahead_only (idx r fuel a : Nat) (s s1 : AudioSamplerStream)
    (hfuel : fuel ≠ 0) (h : tryBlock s idx (r + a) = Step.cont s1) (hr : r ≤ a) :
    primeScan idx r fuel a s = primeScan idx r (fuel - 1) (a + 1) s1 := by
  cases fuel with
  | zero => exact absurd rfl hfuel
  | succ n =>
    rw [primeScan, signLoop, h]
    simp only [if_pos hr, Nat.add_sub_cancel]

theorem primeScan_behind_done (idx r fuel a : Nat) (s s1 t : AudioSamplerStream)
    (hfuel : fuel ≠ 0) (h : tryBlock s idx (r + a) = Step.cont s1) (hr : a < r)
    (h2 : tryBlock s1 idx (r - a) = Step.done t) :
    primeScan idx r fuel a s = some (true, t) := by
  cases fuel with
  | zero => exact absurd rfl hfuel
  | succ n =>
    rw [primeScan, signLoop, h]
    simp only [if_neg (Nat.not_le.mpr hr), h2]

theorem primeScan_behind_cont (idx r fuel a : Nat) (s s1 s2 : AudioSamplerStream)
    (hfuel : fuel ≠ 0) (h : tryBlock s idx (r + a) = Step.cont s1) (hr : a < r)
    (h2 : tryBlock s1 idx (r - a) = Step.cont s2) :
    primeScan idx r fuel a s = primeScan idx r (fuel - 1) (a + 1) s2 := by
  cases fuel with
  | zero => exact absurd rfl hfuel
  | succ n =>
    rw [primeScan, signLoop, h]
    simp only [if_neg (Nat.not_le.mpr hr), h2, Nat.add_sub_cancel]

theorem fileSize_congr (w w1 : WavLoader) (h : w1._header = w._header) :
    w1.fileSize = w.fileSize := by
  unfold WavLoader.fileSize WavLoader.chunkSize; rw [h]

/-- `tryBlock_full` on a streaming state. -/
theorem tryBlock_load (s : AudioSamplerStream) (idx block : Nat) (bytes : List Nat)
    (hs : Streaming s bytes) (hb : 1 ≤ block)
    (hsize : block * 512 ≤ s._file.fileSize)
    (hlen : (block + 1) * 512 ≤ bytes.length) (hlt : bytes.length < 4294967296)
    (hint : block * 512 < 2147483648)
    (hmap : block ∉ s._bufBlockMap) :
    ∃ t, tryBlock s idx block = Step.done t ∧ Streaming t bytes ∧ SameCursor s t ∧
      t._bufBlockMap = s._bufBlockMap.set idx block ∧
      t._ringBuf = writeAt s._ringBuf (idx * 512) ((bytes.drop (block * 512)).take 512) := by
  obtain ⟨⟨pr, pos, hf⟩, hc⟩ := hs
  refine ⟨_, tryBlock_full s idx block bytes pr pos hf (by omega) hsize hlen hlt hint hmap,
    ⟨⟨pr, _, rfl⟩, hc⟩, ⟨rfl, rfl, rfl, rfl⟩, rfl, rfl⟩

theorem readHeadBlock_intro (p : Params) (s : AudioSamplerStream)
    (h : s._sampleIdx < IntroBufSize p) : readHeadBlock p s = 0 := by
  unfold readHeadBlock; rw [if_neg (by omega)]

/-- At a cursor in the intro range the first three `prime()` calls on a
streaming state load blocks 1, 2 and 3 into slots 0, 1 and 2. -/
theorem prime_first (p : Params) (s : AudioSamplerStream) (bytes : List Nat)
    (hs : Streaming s bytes) (hc : s._sampleIdx < IntroBufSize p)
    (hm : s._bufBlockMap = [4294967295, 4294967295, 4294967295])
    (hsize : 512 ≤ s._file.fileSize)
    (hlen : 1024 ≤ bytes.length) (hlt : bytes.length < 4294967296) :
    ∃ t, prime p s = some (true, t) ∧ Streaming t bytes ∧ SameCursor s t ∧
      t._bufBlockMap = [1, 4294967295, 4294967295] ∧
      t._ringBuf = writeAt s._ringBuf 0 ((bytes.drop 512).take 512) := by
  obtain ⟨t, h1, h2, h3, h4, h5⟩ := tryBlock_load s 0 1 bytes hs (by omega) (by omega)
    (by omega) hlt (by omega) (by rw [hm]; decide)
  refine ⟨t, ?_, h2, h3, by rw [h4, hm]; rfl, h5⟩
  unfold prime
  rw [readHeadBlock_intro p s hc, hm]
  exact primeScan_ahead_done _ _ _ _ _ _ (by decide) h1

theorem prime_second (p : Params) (s : AudioSamplerStream) (bytes : List Nat)
    (hs : Streaming s bytes) (hc : s._sampleIdx < IntroBufSize p)
    (hm : s._bufBlockMap = [1, 4294967295, 4294967295])
    (hsize : 1024 ≤ s._file.fileSize)
    (hlen : 1536 ≤ bytes.length) (hlt : bytes.length < 4294967296) :
    ∃ t, prime p s = some (true, t) ∧ Streaming t bytes ∧ SameCursor s t ∧
      t._bufBlockMap = [1, 2, 4294967295] ∧
      t._ringBuf = writeAt s._ringBuf 512 ((bytes.drop 1024).take 512) := by
  obtain ⟨t, h1, h2, h3, h4, h5⟩ := tryBlock_load s 1 2 bytes hs (by omega) (by omega)
    (by omega) hlt (by omega) (by rw [hm]; decide)
  refine ⟨t, ?_, h2, h3, by rw [h4, hm]; rfl, h5⟩
  have hc1 : tryBlock s 1 (0 + 1) = Step.cont s :=
    tryBlock_cached s 1 1 (by omega) (by omega) (by rw [hm]; decide)
  unfold prime
  rw [readHeadBlock_intro p s hc, hm]
  dsimp only
  rw [show furthest 0 [1, 4294967295, 4294967295] = (1, 4294967295) by decide]
  rw [primeScan_ahead_only _ _ _ _ _ _ (by decide) hc1 (by omega)]
  exact primeScan_ahead_done _ _ _ _ _ _ (by decide) h1

theorem prime_third (p : Params) (s : AudioSamplerStream) (bytes : List Nat)
    (hs : Streaming s bytes) (hc : s._sampleIdx < IntroBufSize p)
    (hm : s._bufBlockMap = [1, 2, 4294967295])
    (hsize : 1536 ≤ s._file.fileSize)
    (hlen : 2048 ≤ bytes.length) (hlt : bytes.length < 4294967296) :
    ∃ t, prime p s = some (true, t) ∧ Streaming t bytes ∧ SameCursor s t ∧
      t._bufBlockMap = [1, 2, 3] ∧
      t._ringBuf = writeAt s._ringBuf 1024 ((bytes.drop 1536).take 512) := by
  obtain ⟨t, h1, h2, h3, h4, h5⟩ := tryBlock_load s 2 3 bytes hs (by omega) (by omega)
    (by omega) hlt (by omega) (by rw [hm]; decide)
  refine ⟨t, ?_, h2, h3, by rw [h4, hm]; rfl, h5⟩
  have hc1 : tryBlock s 2 (0 + 1) = Step.cont s :=
    tryBlock_cached s 2 1 (by omega) (by omega) (by rw [hm]; decide)
  have hc2 : tryBlock s 2 (0 + (1 + 1)) = Step.cont s :=
    tryBlock_cached s 2 2 (by omega) (by omega) (by rw [hm]; decide)
  unfold prime
  rw [readHeadBlock_intro p s hc, hm]
  dsimp only
  rw [show furthest 0 [1, 2, 4294967295] = (2, 4294967295) by decide]
  rw [primeScan_ahead_only _ _ _ _ _ _ (by decide) hc1 (by omega)]
  rw [primeScan_ahead_only _ _ _ _ _ _ (by decide) hc2 (by omega)]
  exact primeScan_ahead_done _ _ _ _ _ _ (by decide) h1

theorem prime_full (p : Params) (s : AudioSamplerStream)
    (hc : s._sampleIdx < IntroBufSize p)
    (hm : s._bufBlockMap = [1, 2, 3])
    (hsize : 1536 ≤ s._file.fileSize) :
    prime p s = some (false, s) := by
  have hc1 : tryBlock s 2 (0 + 1) = Step.cont s :=
    tryBlock_cached s 2 1 (by omega) (by omega) (by rw [hm]; decide)
  have hc2 : tryBlock s 2 (0 + (1 + 1)) = Step.cont s :=
    tryBlock_cached s 2 2 (by omega) (by omega) (by rw [hm]; decide)
  have hc3 : tryBlock s 2 (0 + (1 + 1 + 1)) = Step.cont s :=
    tryBlock_cached s 2 3 (by omega) (by omega) (by rw [hm]; decide)
  unfold prime
  rw [readHeadBlock_intro p s hc, hm]
  dsimp only
  rw [show furthest 0 [1, 2, 3] = (2, 3) by decide]
  rw [primeScan_ahead_only _ _ _ _ _ _ (by decide) hc1 (by omega)]
  rw [primeScan_ahead_only _ _ _ _ _ _ (by decide) hc2 (by omega)]
  rw [primeScan_ahead_only _ _ _ _ _ _ (by decide) hc3 (by omega)]
  rfl

end AudioSamplerStream

namespace AudioSamplerStream

theorem window_append (p : Params) (s : AudioSamplerStream) (c k n : Nat) :
    window p s c k ++ window p s (c + k) n = window p s c (k + n) := by
  unfold window
  rw [Nat.add_mul, Nat.add_mul, List.take_add, List.drop_drop]

theorem samplesAt_eq_window (p : Params) (s : AudioSamplerStream) (n : Nat) :
    samplesAt p s n = window p s s._readHead n := rfl

theorem window_congr (p : Params) (s t : AudioSamplerStream) (c n : Nat)
    (h : SameBuffers s t) : window p t c n = window p s c n := by
  unfold window; rw [h.2.1, h.2.2.1]

theorem readRing_primed (fuel : Nat) :
    ∀ (s : AudioSamplerStream) (left : Nat) (out : List Nat),
      s._bufBlockMap = [1, 2, 3] → 234 ≤ s._sampleIdx → s._readHead = s._sampleIdx →
      s._sampleIdx + left ≤ 1002 → left ≤ fuel →
      readRing stereo16 fuel s left out =
        ({ s with _readHead := s._sampleIdx + left, _sampleIdx := s._sampleIdx + left }, 0,
          out ++ window stereo16 s s._sampleIdx left) := by
  induction fuel with
  | zero =>
    intro s left out hm hc hrh hsum hfuel
    have : left = 0 := by omega
    subst this
    cases s
    simp only at hrh
    simp [readRing, window, hrh]
  | succ n ih =>
    intro s left out hm hc hrh hsum hfuel
    rw [readRing]
    by_cases hl : left > 0
    · rw [if_pos hl]
      have hI : IntroBufSize stereo16 = 234 := rfl
      have hS : SamplesPerBlock stereo16 = 256 := rfl
      have hsz : stereo16.sample.sizeof = 2 := rfl
      have hslot : readHeadSlot stereo16 s = (s._sampleIdx - 234) / 256 := by
        unfold readHeadSlot; rw [hI, hsz, hrh]; unfold BlockSize; omega
      have hneed : neededBlock stereo16 s = (s._sampleIdx - 234) / 256 + 1 := by
        unfold neededBlock
        rw [hI, hS, toU32_sub _ _ hc (by omega)]
      have hmapped : readHeadMapped stereo16 s = (s._sampleIdx - 234) / 256 + 1 := by
        unfold readHeadMapped
        rw [hslot, hm]
        have h3 : (s._sampleIdx - 234) / 256 = 0 ∨ (s._sampleIdx - 234) / 256 = 1 ∨
            (s._sampleIdx - 234) / 256 = 2 := by omega
        rcases h3 with h | h | h <;> rw [h] <;> rfl
      have hres : resolve stereo16 s = some (s, (s._sampleIdx - 234) / 256) := by
        unfold resolve
        rw [if_neg (by rw [hmapped, hneed]; exact fun h => h rfl), hslot]
      rw [hres]
      dsimp only
      have hk : clipToBlock stereo16 s ((s._sampleIdx - 234) / 256) left ≤ left :=
        clipToBlock_le _ _ _ _
      have hk1 : 0 < clipToBlock stereo16 s ((s._sampleIdx - 234) / 256) left := by
        unfold clipToBlock; rw [hI, hS, hrh]; split <;> omega
      have hk2 : s._sampleIdx + clipToBlock stereo16 s ((s._sampleIdx - 234) / 256) left
          ≤ 1002 := by omega
      generalize clipToBlock stereo16 s ((s._sampleIdx - 234) / 256) left = k at hk hk1 hk2
      have hadv : (advance s k)._sampleIdx = s._sampleIdx + k := by
        rw [advance_sampleIdx]; omega
      rw [ih (advance s k) (left - k) _ hm (by rw [hadv]; omega)
        (by rw [hadv]; simp only [advance, hrh])
        (by rw [hadv]; omega) (by omega)]
      rw [hadv, samplesAt_eq_window, hrh, List.append_assoc]
      rw [window_congr stereo16 s (advance s k) _ _ ⟨rfl, rfl, rfl, rfl⟩, window_append]
      have e1 : s._sampleIdx + k + (left - k) = s._sampleIdx + left := by omega
      have e2 : k + (left - k) = left := by omega
      rw [e1, e2]
      rfl
    · have : left = 0 := by omega
      subst this
      rw [if_neg hl]
      cases s
      simp only at hrh
      simp [window, hrh]

/-- With blocks 1, 2, 3 in slots 0, 1, 2, a read that ends within the three
blocks returns the requested count and copies the window at the cursor. -/
theorem read_primed (s : AudioSamplerStream) (n : Nat) (hp : Primed s)
    (hsum : s._sampleIdx + n ≤ 1002) :
    (read stereo16 s n).2 = (n, window stereo16 s s._sampleIdx n) ∧
      Primed (read stereo16 s n).1 ∧ (read stereo16 s n).1._sampleIdx = s._sampleIdx + n := by
  have hI : IntroBufSize stereo16 = 234 := rfl
  obtain ⟨hm, hrh⟩ := hp
  have key : read stereo16 s n =
      ({ s with _readHead := s._sampleIdx + n, _sampleIdx := s._sampleIdx + n }, n,
        window stereo16 s s._sampleIdx n) := by
    unfold read
    dsimp only
    by_cases hc : s._sampleIdx < 234
    · have h0 : refreshReadHead stereo16 s = { s with _readHead := s._sampleIdx } := by
        unfold refreshReadHead; rw [hI, if_pos hc]
      rw [h0, hI, if_pos hc]
      by_cases hn : n + s._sampleIdx > 234
      · have hclip : clipToIntro stereo16 { s with _readHead := s._sampleIdx } n
            = 234 - s._sampleIdx := by
          unfold clipToIntro; rw [hI, if_pos hn]
        rw [hclip]
        have hadv : (advance { s with _readHead := s._sampleIdx } (234 - s._sampleIdx))._sampleIdx
            = 234 := by
          rw [advance_sampleIdx]; dsimp only; omega
        have hR := readRing_primed (n - (234 - s._sampleIdx))
          (advance { s with _readHead := s._sampleIdx } (234 - s._sampleIdx))
          (n - (234 - s._sampleIdx))
          (samplesAt stereo16 { s with _readHead := s._sampleIdx } (234 - s._sampleIdx))
          hm (by rw [hadv]) (by rw [hadv]; simp only [advance]; omega)
          (by rw [hadv]; omega) (Nat.le_refl _)
        rw [hR]
        dsimp only
        rw [hadv]
        have hw : samplesAt stereo16 { s with _readHead := s._sampleIdx } (234 - s._sampleIdx)
            ++ window stereo16
              (advance { s with _readHead := s._sampleIdx } (234 - s._sampleIdx)) 234
              (n - (234 - s._sampleIdx)) = window stereo16 s s._sampleIdx n := by
          have e1 : window stereo16
              (advance { s with _readHead := s._sampleIdx } (234 - s._sampleIdx)) 234
              (n - (234 - s._sampleIdx))
              = window stereo16 s (s._sampleIdx + (234 - s._sampleIdx))
                  (n - (234 - s._sampleIdx)) := by
            rw [show s._sampleIdx + (234 - s._sampleIdx) = 234 by omega]
            rfl
          have e2 : samplesAt stereo16 { s with _readHead := s._sampleIdx } (234 - s._sampleIdx)
              = window stereo16 s s._sampleIdx (234 - s._sampleIdx) := rfl
          rw [e1, e2, window_append]
          rw [show 234 - s._sampleIdx + (n - (234 - s._sampleIdx)) = n by omega]
        rw [hw, show 234 + (n - (234 - s._sampleIdx)) = s._sampleIdx + n by omega]
        rfl
      · have hclip : clipToIntro stereo16 { s with _readHead := s._sampleIdx } n = n := by
          unfold clipToIntro; rw [hI, if_neg hn]
        rw [hclip, Nat.sub_self]
        simp only [readRing, Nat.sub_zero, samplesAt_eq_window, advance]
        have : (s._sampleIdx + n) % 4294967296 = s._sampleIdx + n := by omega
        rw [this]
        rfl
    · have hrh' : s._readHead = s._sampleIdx := by omega
      have h0 : refreshReadHead stereo16 s = s := by
        unfold refreshReadHead; rw [hI, if_neg hc]
      rw [h0, hI, if_neg (by omega)]
      rw [readRing_primed n s n [] hm (by omega) hrh' hsum (Nat.le_refl _)]
      simp
  rw [key]
  exact ⟨rfl, ⟨hm, Or.inr rfl⟩, rfl⟩

end AudioSamplerStream

namespace AudioSamplerStream

theorem readSeq_primed (reqs : List Nat) :
    ∀ (s t : AudioSamplerStream), Primed s → Primed t → SameBuffers s t →
      t._sampleIdx = s._sampleIdx → s._sampleIdx + reqs.sum ≤ 1002 →
      (readSeq stereo16 reqs t).2 = (readSeq stereo16 reqs s).2 ∧
        (readSeq stereo16 reqs s).2.map Prod.fst = reqs ∧
        Primed (readSeq stereo16 reqs s).1 ∧ SameBuffers s (readSeq stereo16 reqs s).1 := by
  induction reqs with
  | nil =>
    intro s t hs _ _ _ _
    exact ⟨rfl, rfl, hs, sameBuffers_refl s⟩
  | cons n rest ih =>
    intro s t hs ht hb hc hsum
    simp only [List.sum_cons] at hsum
    obtain ⟨h1, h2, h3⟩ := read_primed s n hs (by omega)
    obtain ⟨k1, k2, k3⟩ := read_primed t n ht (by omega)
    have hbs := (read_spec stereo16 s n).1
    have hbt := (read_spec stereo16 t n).1
    have hb' : SameBuffers (read stereo16 s n).1 (read stereo16 t n).1 :=
      ⟨hbt.1.trans (hb.1.trans hbs.1.symm), hbt.2.1.trans (hb.2.1.trans hbs.2.1.symm),
        hbt.2.2.1.trans (hb.2.2.1.trans hbs.2.2.1.symm),
        hbt.2.2.2.trans (hb.2.2.2.trans hbs.2.2.2.symm)⟩
    obtain ⟨i1, i2, i3, i4⟩ := ih (read stereo16 s n).1 (read stereo16 t n).1 h2 k2 hb'
      (by rw [k3, h3, hc]) (by omega)
    simp only [readSeq, List.map_cons]
    refine ⟨?_, ?_, i3, sameBuffers_trans hbs i4⟩
    · rw [i1, k1, h1, hc, window_congr stereo16 s t _ _ hb]
    · rw [i2, h1]

theorem primeN_succ (p : Params) (n : Nat) (s s1 t : AudioSamplerStream) (b : Bool)
    (bs : List Bool) (h1 : prime p s = some (b, s1)) (h2 : primeN p n s1 = some (bs, t)) :
    primeN p (n + 1) s = some (b :: bs, t) := by
  simp only [primeN, h1, h2]

end AudioSamplerStream

/-! ### Witnesses on the 2048-byte and 4096-byte files -/

namespace AudioSamplerStream

theorem newStream_newlyConstructed : NewlyConstructed stereo16 newStream := by
  unfold NewlyConstructed Sized
  decide!

/-- C4, witness of `read_advances_cursor_by_count`: a read of 300 samples on
the stream loaded from the 2048-byte file and primed once, and the sequence
`read 100; prime; read 200; prime; read 50` on the loaded stream. -/
theorem read_advances_cursor_by_count_witness :
    (sampleIndex (primedStream 2048 1) + 300 < 4294967296 ∧
      sampleIndex (read stereo16 (primedStream 2048 1) 300).1
        = sampleIndex (primedStream 2048 1) + (read stereo16 (primedStream 2048 1) 300).2.1) ∧
    (exec stereo16 [Op.read 100, Op.prime, Op.read 200, Op.prime, Op.read 50] (loadedStream 2048)
        = some (streamAfter 2048 [Op.read 100, Op.prime, Op.read 200, Op.prime, Op.read 50],
            resultsAfter 2048 [Op.read 100, Op.prime, Op.read 200, Op.prime, Op.read 50]) ∧
      sampleIndex (streamAfter 2048 [Op.read 100, Op.prime, Op.read 200, Op.prime, Op.read 50])
        = sampleIndex (loadedStream 2048)
          + ((resultsAfter 2048 [Op.read 100, Op.prime, Op.read 200, Op.prime,
              Op.read 50]).map Prod.fst).sum) :=
  ⟨⟨by decide!, ((read_advances_cursor_by_count stereo16).1 (primedStream 2048 1) 300).2
      (by decide!)⟩,
    by decide!,
    ((read_advances_cursor_by_count stereo16).2
      [Op.read 100, Op.prime, Op.read 200, Op.prime, Op.read 50] (loadedStream 2048)
      (streamAfter 2048 [Op.read 100, Op.prime, Op.read 200, Op.prime, Op.read 50])
      (resultsAfter 2048 [Op.read 100, Op.prime, Op.read 200, Op.prime, Op.read 50])
      (by simp) (by decide!) (by decide!)).1⟩

/-- C5, witness of `no_duplicate_caching`: the new stream loaded from the
4096-byte file, then primed, read and repositioned. -/
theorem no_duplicate_caching_witness :
    load stereo16 newStream (some (wavFile 4096))
        = some (AudioSamplerError.NoErr, loadedStream 4096) ∧
      exec stereo16 [Op.prime, Op.prime, Op.read 300, Op.setSampleIndex 600, Op.prime, Op.prime,
          Op.reset, Op.prime] (loadedStream 4096)
        = some (streamAfter 4096 [Op.prime, Op.prime, Op.read 300, Op.setSampleIndex 600,
              Op.prime, Op.prime, Op.reset, Op.prime],
            resultsAfter 4096 [Op.prime, Op.prime, Op.read 300, Op.setSampleIndex 600,
              Op.prime, Op.prime, Op.reset, Op.prime]) ∧
      NoDuplicateBlocks (streamAfter 4096 [Op.prime, Op.prime, Op.read 300,
        Op.setSampleIndex 600, Op.prime, Op.prime, Op.reset, Op.prime])._bufBlockMap :=
  ⟨by decide!, by decide!,
    no_duplicate_caching stereo16 newStream (loadedStream 4096)
      (streamAfter 4096 [Op.prime, Op.prime, Op.read 300, Op.setSampleIndex 600, Op.prime,
        Op.prime, Op.reset, Op.prime])
      (some (wavFile 4096))
      [Op.prime, Op.prime, Op.read 300, Op.setSampleIndex 600, Op.prime, Op.prime, Op.reset,
        Op.prime]
      (resultsAfter 4096 [Op.prime, Op.prime, Op.read 300, Op.setSampleIndex 600, Op.prime,
        Op.prime, Op.reset, Op.prime])
      (by decide!) (by decide!)⟩

/-- C8, witness of `reset_replays_intro`: the whole intro segment (234
samples) read before and after five `prime()` calls and a `reset()`. -/
theorem reset_replays_intro_witness :
    Sized stereo16 newStream ∧
      load stereo16 newStream (some (wavFile 2048))
        = some (AudioSamplerError.NoErr, loadedStream 2048) ∧
      234 ≤ IntroBufSize stereo16 ∧
      primeN stereo16 5 (read stereo16 (loadedStream 2048) 234).1
        = some ([true, true, true, false, false], streamAfter 2048
            [Op.read 234, Op.prime, Op.prime, Op.prime, Op.prime, Op.prime]) ∧
      reset (streamAfter 2048 [Op.read 234, Op.prime, Op.prime, Op.prime, Op.prime, Op.prime])
        = some (streamAfter 2048
            [Op.read 234, Op.prime, Op.prime, Op.prime, Op.prime, Op.prime, Op.reset]) ∧
      (read stereo16 (loadedStream 2048) 234).2.1 = 234 ∧
      (read stereo16 (streamAfter 2048
        [Op.read 234, Op.prime, Op.prime, Op.prime, Op.prime, Op.prime, Op.reset]) 234).2.1
          = 234 ∧
      (read stereo16 (streamAfter 2048
        [Op.read 234, Op.prime, Op.prime, Op.prime, Op.prime, Op.prime, Op.reset]) 234).2.2
          = (read stereo16 (loadedStream 2048) 234).2.2 :=
  ⟨newStream_newlyConstructed.1, by decide!, by decide, by decide!, by decide!,
    reset_replays_intro stereo16 newStream (loadedStream 2048)
      (streamAfter 2048 [Op.read 234, Op.prime, Op.prime, Op.prime, Op.prime, Op.prime])
      (streamAfter 2048 [Op.read 234, Op.prime, Op.prime, Op.prime, Op.prime, Op.prime, Op.reset])
      (some (wavFile 2048)) 234 5
      [true, true, true, false, false] newStream_newlyConstructed.1 (by decide!) (by decide)
      (by decide!) (by decide!)⟩

end AudioSamplerStream

/-! ### C6, C7: priming away from the start -/

namespace AudioSamplerStream

theorem primeN_add (p : Params) (m : Nat) :
    ∀ (k : Nat) (s s1 s2 : AudioSamplerStream) (b1 b2 : List Bool),
      primeN p m s = some (b1, s1) → primeN p k s1 = some (b2, s2) →
        primeN p (m + k) s = some (b1 ++ b2, s2) := by
  induction m with
  | zero =>
    intro k s s1 s2 b1 b2 h1 h2
    simp only [primeN, Option.some.injEq, Prod.mk.injEq] at h1
    rw [← h1.1, h1.2, Nat.zero_add, List.nil_append]
    exact h2
  | succ n ih =>
    intro k s s1 s2 b1 b2 h1 h2
    simp only [primeN] at h1
    cases hp : prime p s with
    | none => simp [hp] at h1
    | some q =>
      obtain ⟨b, t⟩ := q
      simp only [hp] at h1
      cases hn : primeN p n t with
      | none => simp [hn] at h1
      | some q2 =>
        obtain ⟨bs, t2⟩ := q2
        simp only [hn, Option.some.injEq, Prod.mk.injEq] at h1
        have := ih k t s1 s2 bs b2 (by rw [hn, h1.2]) h2
        rw [Nat.add_right_comm]
        rw [← h1.1]
        exact primeN_succ p (n + k) s t s2 b (bs ++ b2) hp this

/-- Two states that `prime()` maps to each other, returning `true` both
times, are never left: every run of `prime()` calls from one of them returns
`true` throughout. -/
theorem primeN_flip_flop (p : Params) (a b : AudioSamplerStream)
    (hab : prime p a = some (true, b)) (hba : prime p b = some (true, a)) (k : Nat) :
    ∀ s, s = a ∨ s = b → ∃ t, primeN p k s = some (List.replicate k true, t) := by
  induction k with
  | zero => intro s _; exact ⟨s, rfl⟩
  | succ n ih =>
    intro s hs
    rcases hs with h | h
    · obtain ⟨t, ht⟩ := ih b (Or.inr rfl)
      exact ⟨t, by rw [h]; exact primeN_succ p n a b t true _ hab ht⟩
    · obtain ⟨t, ht⟩ := ih a (Or.inl rfl)
      exact ⟨t, by rw [h]; exact primeN_succ p n b a t true _ hba ht⟩

/-- C6 (code defect): on the new `<int16_t, 44100, 2>` stream loaded from the
4096-byte file and positioned by `setSampleIndex(800)` (read-head block 3),
no `prime()` call ever returns false: after three calls the map is
`[4, 2, 5]`, and from then on slot 2 is reloaded in turn with block 1 and
block 5, both at distance 2. So `k + 3` consecutive calls all return true, for
every `k`. -/
theorem prime_never_converges :
    ∃ s, setSampleIndex (loadedStream 4096) 800 = some s ∧ sampleIndex s = 800 ∧
      ∀ k : Nat, ∃ t, primeN stereo16 (3 + k) s = some (List.replicate (3 + k) true, t) := by
  refine ⟨streamAfter 4096 [Op.setSampleIndex 800], by decide!, by decide!, fun k => ?_⟩
  have h3 : primeN stereo16 3 (streamAfter 4096 [Op.setSampleIndex 800])
      = some ([true, true, true],
          streamAfter 4096 [Op.setSampleIndex 800, Op.prime, Op.prime, Op.prime]) := by decide!
  have hab : prime stereo16
      (streamAfter 4096 [Op.setSampleIndex 800, Op.prime, Op.prime, Op.prime])
      = some (true,
          streamAfter 4096 [Op.setSampleIndex 800, Op.prime, Op.prime, Op.prime, Op.prime]) := by
    decide!
  have hba : prime stereo16
      (streamAfter 4096 [Op.setSampleIndex 800, Op.prime, Op.prime, Op.prime, Op.prime])
      = some (true,
          streamAfter 4096 [Op.setSampleIndex 800, Op.prime, Op.prime, Op.prime]) := by
    decide!
  obtain ⟨t, ht⟩ := primeN_flip_flop stereo16 _ _ hab hba k _ (Or.inl rfl)
  refine ⟨t, ?_⟩
  have := primeN_add stereo16 3 k _ _ _ _ _ h3 ht
  rw [this, List.replicate_add]
  rfl

/-- C7 (code defect): on the new `<int16_t, 44100, 2>` stream loaded from the
4096-byte file, after `read(dst, 234)` and `setSampleIndex(512)` the fourth
`prime()` returns false with the map `[3, 1, 4]`; the cursor 512 lies between
the intro length 234 and the sample count 1013, the block `read` needs there is
2, it lies within the resource, no entry holds it, and `read(dst, 10)` returns
0. -/
theorem primed_cursor_block_missing :
    ∃ s, primeN stereo16 4 (streamAfter 4096 [Op.read 234, Op.setSampleIndex 512])
        = some ([true, true, true, false], s) ∧
      sampleIndex s = 512 ∧ IntroBufSize stereo16 = 234 ∧ s._file.numSamples = some 1013 ∧
      neededBlock stereo16 s = 2 ∧ 2 * BlockSize + BlockSize ≤ s._file.fileSize ∧
      s._bufBlockMap = [3, 1, 4] ∧ 2 ∉ s._bufBlockMap ∧
      (read stereo16 s 10).2.1 = 0 := by
  refine ⟨streamAfter 4096 [Op.read 234, Op.setSampleIndex 512, Op.prime, Op.prime, Op.prime,
    Op.prime], ?_, ?_, ?_, ?_, ?_, ?_, ?_, ?_, ?_⟩ <;> decide!

end AudioSamplerStream

/-! ### C1: the intro segment after `load` -/

namespace AudioSamplerStream

/-- C1 (code defect): on the new `<int16_t, 44100, 2>` stream loaded from the
valid 512-byte file, `read(dst, 1)` returns 1 but copies the bytes `[0, 0]`
the intro segment held before `load`, while the first payload sample of the
file is `[1, 2]`: the intro read of `load` ends at the block boundary 512 and
`WavLoader::read` delivers nothing for it. -/
theorem intro_not_filled_by_load :
    ∃ s, load stereo16 newStream (some (wavFile 512)) = some (AudioSamplerError.NoErr, s) ∧
      s._introBuf = newStream._introBuf ∧
      (read stereo16 s 1).2 = (1, [0, 0]) ∧
      ((wavFile 512).bytes.drop sizeofWavHeader).take 2 = [1, 2] := by
  refine ⟨loadedStream 512, ?_, ?_, ?_, ?_⟩ <;> decide!

end AudioSamplerStream

/-! ### The loop of `WavLoader::read` -/

theorem FileWrapper.read_length (f : FileWrapper) (n : Nat) : (f.read n).1.length ≤ n := by
  unfold FileWrapper.read
  split
  · simp
  · simp only [List.length_take]; omega

theorem FileWrapper.read_bytes (f : FileWrapper) (n : Nat) :
    (f.read n).2.bytes = f.bytes ∧ (f.read n).2.present = f.present := by
  unfold FileWrapper.read
  split <;> exact ⟨rfl, rfl⟩

theorem FileWrapper.seek_bytes (f : FileWrapper) (n : Nat) :
    (f.seek n).2.bytes = f.bytes ∧ (f.seek n).2.present = f.present := by
  unfold FileWrapper.seek
  split <;> exact ⟨rfl, rfl⟩

theorem writeAt_zero_length (buf bytes : List Nat) :
    bytes.length ≤ (writeAt buf 0 bytes).length := by
  unfold writeAt
  simp only [List.take_zero, List.nil_append, List.length_append]
  omega

theorem toU32_sub_lt (a b : Nat) (h : b ≤ a) (h2 : a < 4294967296) :
    toU32 ((a : Int) - (b : Int)) = a - b := toU32_sub a b h (by omega)

namespace WavLoader

/-- One pass through the body of the loop of `read` keeps the loop invariant
and the cache invariant, keeps the file, and either sets `shortRead` or
delivers at least one byte. -/
theorem readBody_inv (c eb eo : Nat) (w : WavLoader) (f : FileWrapper) (out : List Nat)
    (hinv : LoopInv c eb eo w out) (hcache : CacheOK w) (hlt : out.length < c) :
    LoopInv c eb eo (readBody eb eo w f out false).1 (readBody eb eo w f out false).2.2.1 ∧
      CacheOK (readBody eb eo w f out false).1 ∧
      ((readBody eb eo w f out false).2.2.2 = true ∨
        out.length < (readBody eb eo w f out false).2.2.1.length) ∧
      (readBody eb eo w f out false).2.1.bytes = f.bytes ∧
      (readBody eb eo w f out false).2.1.present = f.present := by
  obtain ⟨h1, h2, h3, h4⟩ := hinv
  unfold readBody
  dsimp only
  by_cases hb : w._position / 512 = w._blockNum
  · rw [if_pos hb]
    have hL : w._bufferLen ≤ 512 ∧ w._bufferLen ≤ w._buffer.length := by
      rcases hcache with h | h
      · omega
      · exact h
    by_cases ho : w._position % 512 < w._bufferLen
    · rw [if_pos ho]
      dsimp only
      by_cases he : w._position / 512 = eb
      · simp only [if_pos he]
        have hend : w._position % 512 < MIN w._bufferLen eo := by
          unfold MIN; split <;> omega
        have hendle : MIN w._bufferLen eo ≤ w._bufferLen ∧ MIN w._bufferLen eo ≤ eo := by
          unfold MIN; split <;> omega
        generalize MIN w._bufferLen eo = e1 at hend hendle
        rw [toU32_sub_lt _ _ (by omega) (by omega)]
        have hlen : (List.take (e1 - w._position % 512)
            (List.drop (w._position % 512) w._buffer)).length = e1 - w._position % 512 := by
          rw [List.length_take, List.length_drop]; omega
        refine ⟨⟨?_, ?_, h3, h4⟩, hcache, Or.inr ?_, ?_, ?_⟩
        · rw [List.length_append, hlen]; omega
        · rw [List.length_append, hlen]; dsimp only; omega
        · rw [List.length_append, hlen]; omega
        · trivial
        · trivial
      · simp only [if_neg he, false_and, if_false]
        rw [toU32_sub_lt _ _ (by omega) (by omega)]
        have hlen : (List.take (w._bufferLen - w._position % 512)
            (List.drop (w._position % 512) w._buffer)).length
              = w._bufferLen - w._position % 512 := by
          rw [List.length_take, List.length_drop]; omega
        refine ⟨⟨?_, ?_, h3, h4⟩, hcache, Or.inr ?_, ?_, ?_⟩
        · rw [List.length_append, hlen]; omega
        · rw [List.length_append, hlen]; dsimp only; omega
        · rw [List.length_append, hlen]; omega
        · trivial
        · trivial
    · rw [if_neg ho]
      exact ⟨⟨h1, h2, h3, h4⟩, hcache, Or.inl rfl, rfl, rfl⟩
  · rw [if_neg hb]
    by_cases he : w._position / 512 = eb ∨ w._position % 512 > 0
    · rw [if_pos he]
      have hr := FileWrapper.read_length (f.seek (w._position / 512 * BLOCKSIZE)).2 BLOCKSIZE
      have hbytes : ((f.seek (w._position / 512 * BLOCKSIZE)).2.read BLOCKSIZE).2.bytes = f.bytes ∧
          ((f.seek (w._position / 512 * BLOCKSIZE)).2.read BLOCKSIZE).2.present = f.present :=
        ⟨(FileWrapper.read_bytes _ _).1.trans (FileWrapper.seek_bytes _ _).1,
          (FileWrapper.read_bytes _ _).2.trans (FileWrapper.seek_bytes _ _).2⟩
      have hw := writeAt_zero_length w._buffer
        ((f.seek (w._position / 512 * BLOCKSIZE)).2.read BLOCKSIZE).1
      generalize ((f.seek (w._position / 512 * BLOCKSIZE)).2.read BLOCKSIZE) = r at hr hbytes hw
      unfold BLOCKSIZE at hr
      have hendle : MIN r.1.length eo ≤ r.1.length ∧ MIN r.1.length eo ≤ eo := by
        unfold MIN; split <;> omega
      generalize MIN r.1.length eo = e1 at hendle
      by_cases ho : w._position % 512 < e1
      · rw [if_pos ho]
        have hlen : (List.take (e1 - w._position % 512)
            (List.drop (w._position % 512) (writeAt w._buffer 0 r.1))).length
              = e1 - w._position % 512 := by
          rw [List.length_take, List.length_drop]; omega
        refine ⟨⟨?_, ?_, h3, h4⟩, Or.inr ⟨hr, hw⟩, Or.inr ?_, hbytes.1, hbytes.2⟩
        · rw [List.length_append, hlen]; omega
        · rw [List.length_append, hlen]; dsimp only; omega
        · rw [List.length_append, hlen]; omega
      · rw [if_neg ho]
        exact ⟨⟨h1, h2, h3, h4⟩, Or.inr ⟨hr, hw⟩, Or.inl rfl, hbytes.1, hbytes.2⟩
    · rw [if_neg he]
      have hr := FileWrapper.read_length f BLOCKSIZE
      have hbytes := FileWrapper.read_bytes f BLOCKSIZE
      generalize f.read BLOCKSIZE = r at hr hbytes
      unfold BLOCKSIZE at hr ⊢
      refine ⟨⟨?_, ?_, h3, h4⟩, hcache, ?_, hbytes.1, hbytes.2⟩
      · rw [List.length_append]; omega
      · rw [List.length_append]; dsimp only; omega
      · rw [List.length_append]
        by_cases h0 : r.1.length < 512
        · by_cases h00 : r.1.length = 0
          · left; simp [h0]
          · right; omega
        · right; omega

end WavLoader

namespace WavLoader

theorem readBody_file (eb eo : Nat) (w : WavLoader) (f : FileWrapper) (out : List Nat)
    (sr : Bool) (h : f._file ≠ none) : (readBody eb eo w f out sr).2.1._file ≠ none := by
  cases hf : f._file with
  | none => exact absurd hf h
  | some p =>
    unfold readBody
    dsimp only
    split
    · split <;> (dsimp only; rw [hf]; simp)
    · split
      · split <;> simp [FileWrapper.seek, FileWrapper.read, hf]
      · simp [FileWrapper.read, hf]

/-- The loop of `read` keeps its invariant, the cache invariant and the file;
at its end at most `clippedSize` bytes are delivered and `_position` has
advanced by their number. -/
theorem readLoop_inv (c eb eo fuel : Nat) :
    ∀ (w : WavLoader) (f : FileWrapper) (out : List Nat) (sr : Bool),
      LoopInv c eb eo w out → CacheOK w →
        LoopInv c eb eo (readLoop c eb eo fuel w f out sr).2.1
            (readLoop c eb eo fuel w f out sr).1 ∧
          CacheOK (readLoop c eb eo fuel w f out sr).2.1 ∧
          (readLoop c eb eo fuel w f out sr).2.2.bytes = f.bytes ∧
          (readLoop c eb eo fuel w f out sr).2.2.present = f.present ∧
          (f._file ≠ none → (readLoop c eb eo fuel w f out sr).2.2._file ≠ none) := by
  induction fuel with
  | zero => intro w f out sr hinv hc; exact ⟨hinv, hc, rfl, rfl, id⟩
  | succ n ih =>
    intro w f out sr hinv hc
    rw [readLoop]
    split
    · rename_i hcond
      simp only [Bool.and_eq_true, Bool.not_eq_true', decide_eq_true_eq] at hcond
      obtain ⟨hsr, hlt⟩ := hcond
      subst hsr
      obtain ⟨b1, b2, _, b4, b5⟩ := readBody_inv c eb eo w f out hinv hc hlt
      obtain ⟨i1, i2, i3, i4, i5⟩ := ih _ (readBody eb eo w f out false).2.1 _
        (readBody eb eo w f out false).2.2.2 b1 b2
      exact ⟨i1, i2, i3.trans b4, i4.trans b5,
        fun h => i5 (readBody_file eb eo w f out false h)⟩
    · exact ⟨hinv, hc, rfl, rfl, id⟩

/-- `clippedSize` units of fuel are enough for the loop of `read`: with that
much or more the loop ends by its own exit test, and the result does not
depend on the fuel. -/
theorem readLoop_fuel (c eb eo fuel1 : Nat) :
    ∀ (fuel2 : Nat) (w : WavLoader) (f : FileWrapper) (out : List Nat) (sr : Bool),
      LoopInv c eb eo w out → CacheOK w → c - out.length ≤ fuel1 → c - out.length ≤ fuel2 →
        readLoop c eb eo fuel1 w f out sr = readLoop c eb eo fuel2 w f out sr := by
  induction fuel1 with
  | zero =>
    intro fuel2 w f out sr _ _ h1 _
    rw [readLoop_done _ _ _ _ _ _ _ _ (Or.inr (by omega)),
      readLoop_done _ _ _ _ _ _ _ _ (Or.inr (by omega))]
  | succ n ih =>
    intro fuel2 w f out sr hinv hc h1 h2
    cases fuel2 with
    | zero =>
      rw [readLoop_done _ _ _ _ _ _ _ _ (Or.inr (by omega)),
        readLoop_done _ _ _ _ _ _ _ _ (Or.inr (by omega))]
    | succ m =>
      rw [readLoop, readLoop]
      split
      · rename_i hcond
        simp only [Bool.and_eq_true, Bool.not_eq_true', decide_eq_true_eq] at hcond
        obtain ⟨hsr, hlt⟩ := hcond
        subst hsr
        obtain ⟨b1, b2, b3, _, _⟩ := readBody_inv c eb eo w f out hinv hc hlt
        rcases b3 with hs | hp
        · rw [readLoop_done _ _ _ _ _ _ _ _ (Or.inl hs),
            readLoop_done _ _ _ _ _ _ _ _ (Or.inl hs)]
        · exact ih m _ _ _ _ b1 b2 (by omega) (by omega)
      · rfl

theorem MIN_le_left (a b : Nat) : MIN a b ≤ a := by
  unfold MIN; split <;> omega

/-- The loop invariant holds at the start of `read` when the 32-bit position
does not wrap. -/
theorem loopInv_start (w : WavLoader) (c : Nat) (hp : w._position + c < 4294967296) :
    LoopInv c ((w._position + c) % 4294967296 / 512) ((w._position + c) % 4294967296 % 512)
      w [] := by
  refine ⟨Nat.zero_le _, ?_, ?_, ?_⟩
  · simp only [List.length_nil]; omega
  · omega
  · omega

/-- What `read` guarantees on a loader with a sound cache, bound to a file and
not about to wrap its 32-bit position: it delivers at most `bufSize` bytes,
advances `_position` by their number, stays bound to the same file, and keeps
the header and the cache invariant. -/
theorem read_inv (w w1 : WavLoader) (f : FileWrapper) (bufSize : Nat) (got : List Nat)
    (hf : w._file = some f) (hc : CacheOK w) (hp : w._position + bufSize < 4294967296)
    (h : w.read bufSize = some (got, w1)) :
    got.length ≤ bufSize ∧ w1._position = w._position + got.length ∧ CacheOK w1 ∧
      w1._header = w._header ∧
      ∃ f1, w1._file = some f1 ∧ f1.bytes = f.bytes ∧ f1.present = f.present ∧
        (f._file ≠ none → f1._file ≠ none) := by
  have hhdr := read_header w w1 bufSize got h
  unfold read at h
  rw [hf] at h
  simp only [Option.some.injEq, Prod.mk.injEq] at h
  have hcl := MIN_le_left bufSize (toU32 (f.size - (w._position : Int)))
  generalize MIN bufSize (toU32 (f.size - (w._position : Int))) = c at h hcl
  have hinv := loopInv_start w c (by omega)
  obtain ⟨⟨i1, i2, _, _⟩, i3, i4, i5, i6⟩ := readLoop_inv c _ _ c w f [] false hinv hc
  obtain ⟨hg, hw⟩ := h
  rw [hg] at i1 i2
  refine ⟨by omega, ?_, ?_, hhdr, ⟨_, by rw [← hw], i4, i5, i6⟩⟩
  · rw [← hw]; dsimp only; omega
  · rw [← hw]; exact i3

/-- The fuel `read` gives its loop is enough: any larger amount yields the
same result. -/
theorem read_fuel (w : WavLoader) (f : FileWrapper) (bufSize fuel : Nat)
    (hc : CacheOK w) (hp : w._position + bufSize < 4294967296)
    (hfuel : MIN bufSize (toU32 (f.size - (w._position : Int))) ≤ fuel) :
    readLoop (MIN bufSize (toU32 (f.size - (w._position : Int))))
        ((w._position + MIN bufSize (toU32 (f.size - (w._position : Int))))
          % 4294967296 / 512)
        ((w._position + MIN bufSize (toU32 (f.size - (w._position : Int))))
          % 4294967296 % 512) fuel w f [] false
      = readLoop (MIN bufSize (toU32 (f.size - (w._position : Int))))
        ((w._position + MIN bufSize (toU32 (f.size - (w._position : Int))))
          % 4294967296 / 512)
        ((w._position + MIN bufSize (toU32 (f.size - (w._position : Int))))
          % 4294967296 % 512)
        (MIN bufSize (toU32 (f.size - (w._position : Int)))) w f [] false := by
  have hcl := MIN_le_left bufSize (toU32 (f.size - (w._position : Int)))
  generalize MIN bufSize (toU32 (f.size - (w._position : Int))) = c at hfuel hcl ⊢
  exact readLoop_fuel c _ _ fuel c w f [] false (loopInv_start w c (by omega)) hc
    (by simpa using hfuel) (by simp)

end WavLoader

/-! ### The cache invariant, and `load` on any stream -/

namespace WavLoader

/-- In the intro read of `load` (a read that ends at byte 512 and is at most
468 bytes long) every pass through the loop body leaves block 0 in the
cache. -/
theorem readBody_block0 (c : Nat) (w : WavLoader) (f : FileWrapper) (out : List Nat)
    (hinv : LoopInv c 1 0 w out) (hc : c ≤ 468) (hlt : out.length < c) :
    (readBody 1 0 w f out false).1._blockNum = 0 := by
  obtain ⟨h1, h2, _, _⟩ := hinv
  have hq : w._position / 512 = 0 := by omega
  have ho : w._position % 512 > 0 := by omega
  unfold readBody
  dsimp only
  by_cases hb : w._position / 512 = w._blockNum
  · rw [if_pos hb]
    split <;> (dsimp only; omega)
  · rw [if_neg hb, if_pos (Or.inr ho)]
    split <;> exact hq

theorem readLoop_block0 (c fuel : Nat) (hc : c ≤ 468) :
    ∀ (w : WavLoader) (f : FileWrapper) (out : List Nat) (sr : Bool),
      LoopInv c 1 0 w out → CacheOK w →
      (w._blockNum = 0 ∨ (sr = false ∧ out.length < c ∧ 0 < fuel)) →
        (readLoop c 1 0 fuel w f out sr).2.1._blockNum = 0 := by
  induction fuel with
  | zero =>
    intro w f out sr _ _ h
    rcases h with h | ⟨_, _, h⟩
    · exact h
    · omega
  | succ n ih =>
    intro w f out sr hinv hcache h
    rw [readLoop]
    split
    · rename_i hcond
      simp only [Bool.and_eq_true, Bool.not_eq_true', decide_eq_true_eq] at hcond
      obtain ⟨hsr, hlt⟩ := hcond
      subst hsr
      obtain ⟨b1, b2, _, _, _⟩ := readBody_inv c 1 0 w f out hinv hcache hlt
      exact ih _ _ _ _ b1 b2 (Or.inl (readBody_block0 c w f out hinv hc hlt))
    · rename_i hcond
      rcases h with h | ⟨h1, h2, _⟩
      · exact h
      · exact absurd (by simp [h1, h2]) hcond

theorem cacheOK_congr (w w1 : WavLoader) (h1 : w1._blockNum = w._blockNum)
    (h2 : w1._bufferLen = w._bufferLen) (h3 : w1._buffer = w._buffer) (h : CacheOK w) :
    CacheOK w1 := by
  unfold CacheOK at h ⊢
  rw [h1, h2, h3]; exact h

theorem openWav_cacheOK (w : WavLoader) (file : Option FileWrapper) (h : CacheOK w) :
    CacheOK (w.openWav file).2 := by
  unfold openWav
  split
  · exact h
  · split
    · exact cacheOK_congr _ _ rfl rfl rfl h
    · dsimp only
      split
      · exact cacheOK_congr _ _ rfl rfl rfl h
      · split <;> exact cacheOK_congr _ _ rfl rfl rfl h

theorem seek_cacheOK (w w1 : WavLoader) (pos : Nat) (b : Bool)
    (hs : w.seek pos = some (b, w1)) (h : CacheOK w) :
    CacheOK w1 ∧ w1._position = pos ∧ ∃ f, w1._file = some f := by
  unfold seek at hs
  split at hs
  · simp at hs
  · simp only [Option.some.injEq, Prod.mk.injEq] at hs
    rw [← hs.2]
    exact ⟨cacheOK_congr _ _ rfl rfl rfl h, rfl, _, rfl⟩

end WavLoader

namespace AudioSamplerStream

theorem introBytes_le (p : Params) : IntroBufSize p * p.sample.sizeof ≤ 468 := by
  unfold IntroBufSize BlockSize sizeofWavHeader
  cases p.sample <;> simp [SampleType.sizeof]

/-- `load`, whatever it returns, keeps the cache invariant of the loader. -/
theorem load_cacheOK (p : Params) (s s1 : AudioSamplerStream) (file : Option FileWrapper)
    (e : AudioSamplerError) (h : load p s file = some (e, s1)) (hc : s._file.CacheOK) :
    s1._file.CacheOK := by
  have ho := WavLoader.openWav_cacheOK s._file file hc
  unfold load at h
  split at h
  · rename_i w hw
    rw [hw] at ho
    split at h
    · simp only [Option.some.injEq, Prod.mk.injEq] at h; rw [← h.2]; exact ho
    · split at h
      · simp only [Option.some.injEq, Prod.mk.injEq] at h; rw [← h.2]; exact ho
      · split at h
        · simp only [Option.some.injEq, Prod.mk.injEq] at h; rw [← h.2]; exact ho
        · split at h
          · simp at h
          · rename_i got w1 hr
            simp only [Option.some.injEq, Prod.mk.injEq] at h
            rw [← h.2]
            obtain ⟨f, _, _, _, _, hweq⟩ := WavLoader.openWav_inv _ _ _ hw
            have hpos : w._position = 44 := by rw [hweq]
            have hf : w._file = some ⟨f.bytes, f.present, some 44⟩ := by rw [hweq]
            have := introBytes_le p
            exact (WavLoader.read_inv w w1 _ _ got hf ho (by omega) hr).2.2.1
  · rename_i w hw
    rw [hw] at ho
    simp only [Option.some.injEq, Prod.mk.injEq] at h; rw [← h.2]; exact ho

theorem tryBlock_cacheOK (s : AudioSamplerStream) (idx block : Nat) (hc : s._file.CacheOK) :
    Step.Sat (fun t => t._file.CacheOK) (fun t => t._file.CacheOK) (tryBlock s idx block) := by
  unfold tryBlock
  split
  · trivial
  · rename_i hint
    split
    · exact hc
    · split
      · exact hc
      · split
        · trivial
        · rename_i w hs
          exact (WavLoader.seek_cacheOK _ _ _ _ hs hc).1
        · rename_i w hs
          obtain ⟨k1, k2, f, k3⟩ := WavLoader.seek_cacheOK _ _ _ _ hs hc
          split
          · trivial
          · rename_i got w1 hr
            have hk := (WavLoader.read_inv w w1 f BlockSize got k3 k1
              (by rw [k2]; unfold BlockSize at hint ⊢; omega) hr).2.2.1
            split
            · exact hk
            · exact hk

theorem signLoop_cacheOK (s : AudioSamplerStream) (idx r absDiff : Nat)
    (hc : s._file.CacheOK) :
    Step.Sat (fun t => t._file.CacheOK) (fun t => t._file.CacheOK)
      (signLoop s idx r absDiff) := by
  unfold signLoop
  have h1 := tryBlock_cacheOK s idx (r + absDiff) hc
  split
  · rename_i s1 hcont
    rw [hcont] at h1
    split
    · exact h1
    · exact tryBlock_cacheOK s1 idx (r - absDiff) h1
  · exact h1

theorem primeScan_cacheOK (idx r fuel : Nat) :
    ∀ (absDiff : Nat) (s t : AudioSamplerStream) (b : Bool),
      primeScan idx r fuel absDiff s = some (b, t) → s._file.CacheOK → t._file.CacheOK := by
  induction fuel with
  | zero =>
    intro absDiff s t b h hc
    simp only [primeScan, Option.some.injEq, Prod.mk.injEq] at h
    rw [← h.2]; exact hc
  | succ n ih =>
    intro absDiff s t b h hc
    rw [primeScan] at h
    have hf := signLoop_cacheOK s idx r absDiff hc
    split at h
    · rename_i s1 hs
      rw [hs] at hf
      simp only [Option.some.injEq, Prod.mk.injEq] at h
      rw [← h.2]; exact hf
    · simp at h
    · rename_i s1 hs
      rw [hs] at hf
      exact ih _ _ _ _ h hf
    · rename_i s1 hs
      rw [hs] at hf
      exact ih _ _ _ _ h hf

theorem step_cacheOK (p : Params) (s s1 : AudioSamplerStream) (op : Op)
    (r : Option (Nat × List Nat)) (h : step p s op = some (s1, r)) (hc : s._file.CacheOK) :
    s1._file.CacheOK := by
  cases op with
  | read n =>
    simp only [step, Option.some.injEq, Prod.mk.injEq] at h
    rw [← h.1, (read_spec p s n).1.1]; exact hc
  | prime =>
    simp only [step] at h
    cases hp : prime p s with
    | none => simp [hp] at h
    | some q =>
      obtain ⟨b, t⟩ := q
      simp only [hp, Option.some.injEq, Prod.mk.injEq] at h
      rw [← h.1]
      exact primeScan_cacheOK _ _ _ _ _ _ _ hp hc
  | setSampleIndex i =>
    simp only [step] at h
    cases hp : setSampleIndex s i with
    | none => simp [hp] at h
    | some t =>
      simp only [hp, Option.some.injEq, Prod.mk.injEq] at h
      rw [← h.1, (setSampleIndex_same s t i hp).1.1]; exact hc
  | reset =>
    simp only [step, reset] at h
    cases hp : setSampleIndex s 0 with
    | none => simp [hp] at h
    | some t =>
      simp only [hp, Option.some.injEq, Prod.mk.injEq] at h
      rw [← h.1, (setSampleIndex_same s t 0 hp).1.1]; exact hc

/-- The cache invariant of the loader holds in every state a run of calls
reaches from a state in which it holds; a newly constructed stream is such a
state. -/
theorem exec_cacheOK (p : Params) (ops : List Op) :
    ∀ (s t : AudioSamplerStream) (rs : List (Nat × List Nat)),
      exec p ops s = some (t, rs) → s._file.CacheOK → t._file.CacheOK := by
  induction ops with
  | nil =>
    intro s t rs h hc
    simp only [exec, Option.some.injEq, Prod.mk.injEq] at h
    rw [← h.1]; exact hc
  | cons op rest ih =>
    intro s t rs h hc
    simp only [exec] at h
    cases hs : step p s op with
    | none => simp [hs] at h
    | some q =>
      obtain ⟨s1, r⟩ := q
      simp only [hs] at h
      cases he : exec p rest s1 with
      | none => simp [he] at h
      | some q2 =>
        obtain ⟨s2, rs2⟩ := q2
        simp only [he, Option.some.injEq, Prod.mk.injEq] at h
        rw [← h.1]
        exact ih s1 s2 rs2 he (step_cacheOK p s s1 op r hs hc)

theorem newlyConstructed_cacheOK (p : Params) (s : AudioSamplerStream)
    (h : NewlyConstructed p s) : s._file.CacheOK := Or.inl h.2.2.2.1

/-- What a successful `load` of a file of at least 512 bytes leaves, for 1-,
2- or 4-byte samples and whatever the loader cached before: the loader streams
over the file with block 0 in its cache, the map is unmapped, the cursor and
the read pointer are 0. -/
theorem load_streaming (p : Params) (s0 s1 : AudioSamplerStream) (f : FileWrapper)
    (hp : p.sample ≠ SampleType.int64) (hcache : s0._file.CacheOK)
    (hlen : 512 ≤ f.bytes.length) (hlt : f.bytes.length < 4294967296)
    (h : load p s0 (some f) = some (AudioSamplerError.NoErr, s1)) :
    Streaming s1 f.bytes ∧ s1._ringBuf = s0._ringBuf ∧
      s1._bufBlockMap = [4294967295, 4294967295, 4294967295] ∧ s1._sampleIdx = 0 ∧
      s1._readHead = 0 := by
  obtain ⟨w, got, w1, ho, hr, hs1⟩ := load_noErr_inv p s0 s1 (some f) h
  have hcw : w.CacheOK := by
    have := WavLoader.openWav_cacheOK s0._file (some f) hcache
    rw [ho] at this; exact this
  obtain ⟨f', hf', _, _, _, hw⟩ := WavLoader.openWav_inv _ _ _ ho
  simp only [Option.some.injEq] at hf'
  subst hf'
  have h468 : IntroBufSize p * p.sample.sizeof = 468 := by
    unfold IntroBufSize BlockSize sizeofWavHeader
    cases hs : p.sample with
    | int8 => rfl
    | int16 => rfl
    | int32 => rfl
    | int64 => exact absurd hs hp
  rw [h468] at hr
  have hpos : w._position = 44 := by rw [hw]
  have hfile : w._file = some ⟨f.bytes, f.present, some 44⟩ := by rw [hw]
  obtain ⟨_, _, _, _, f1, k1, k2, k3, k4⟩ := WavLoader.read_inv w w1 _ 468 got hfile hcw
    (by omega) hr
  have hblock : w1._blockNum = 0 := by
    unfold WavLoader.read at hr
    rw [hfile] at hr
    simp only [Option.some.injEq, Prod.mk.injEq] at hr
    rw [← hr.2]
    have hc : MIN 468 (toU32 (FileWrapper.size ⟨f.bytes, f.present, some 44⟩
        - (w._position : Int))) = 468 := by
      rw [hpos]
      simp only [FileWrapper.size]
      rw [toU32_sub _ _ (by omega) (by omega)]
      unfold MIN; split <;> omega
    rw [hc, hpos]
    exact WavLoader.readLoop_block0 468 468 (Nat.le_refl _) w _ [] false
      (by have := WavLoader.loopInv_start w 468 (by omega); rw [hpos] at this; exact this)
      hcw (Or.inr ⟨rfl, by simp, by omega⟩)
  have hsome : ∃ pos, f1._file = some pos := by
    cases hx : f1._file with
    | none => exact absurd hx (k4 (by simp))
    | some pos => exact ⟨pos, rfl⟩
  obtain ⟨pos, hpos1⟩ := hsome
  rw [hs1]
  refine ⟨⟨⟨f1.present, pos, ?_⟩, hblock⟩, rfl, rfl, rfl, rfl⟩
  dsimp only
  rw [k1, ← k2, ← hpos1]

end AudioSamplerStream

/-! ### C2, C3: the theorems -/

namespace AudioSamplerStream

/-- Five `prime()` calls at cursor 0 on a successfully loaded
`<int16_t, 44100, 2>` stream over a file of at least 2048 bytes: the first
three load blocks 1, 2, 3, the last two do nothing. -/
theorem prime_five (s0 s1 : AudioSamplerStream) (f : FileWrapper)
    (hcache : s0._file.CacheOK)
    (hlen : 2048 ≤ f.bytes.length) (hlt : f.bytes.length < 4294967296)
    (hload : load stereo16 s0 (some f) = some (AudioSamplerError.NoErr, s1))
    (hsize : 2048 ≤ s1._file.fileSize) :
    ∃ s5, primeN stereo16 5 s1 = some ([true, true, true, false, false], s5) ∧
      Primed s5 ∧ SameCursor s1 s5 := by
  obtain ⟨hst, _, hm, hc, hrh⟩ := load_streaming stereo16 s0 s1 f (by decide) hcache
    (by omega) hlt hload
  have hI : IntroBufSize stereo16 = 234 := rfl
  obtain ⟨s2, p1, st2, c2, m2, _⟩ := prime_first stereo16 s1 f.bytes hst (by rw [hc, hI]; omega)
    hm (by omega) (by omega) hlt
  have hs2 : s2._file.fileSize = s1._file.fileSize := fileSize_congr _ _ c2.2.2.2
  obtain ⟨s3, p2, st3, c3, m3, _⟩ := prime_second stereo16 s2 f.bytes st2
    (by rw [c2.2.1, hc, hI]; omega) m2 (by omega) (by omega) hlt
  have hs3 : s3._file.fileSize = s2._file.fileSize := fileSize_congr _ _ c3.2.2.2
  obtain ⟨s4, p3, st4, c4, m4, _⟩ := prime_third stereo16 s3 f.bytes st3
    (by rw [c3.2.1, c2.2.1, hc, hI]; omega) m3 (by omega) (by omega) hlt
  have hs4 : s4._file.fileSize = s3._file.fileSize := fileSize_congr _ _ c4.2.2.2
  have hc4 : s4._sampleIdx = 0 := by rw [c4.2.1, c3.2.1, c2.2.1, hc]
  have p4 := prime_full stereo16 s4 (by rw [hc4, hI]; omega) m4 (by omega)
  refine ⟨s4, ?_, ⟨m4, Or.inl (by omega)⟩, sameCursor_trans c2 (sameCursor_trans c3 c4)⟩
  exact primeN_succ _ _ _ _ _ _ _ p1 (primeN_succ _ _ _ _ _ _ _ p2
    (primeN_succ _ _ _ _ _ _ _ p3 (primeN_succ _ _ _ _ _ _ _ p4
      (primeN_succ _ _ _ _ _ _ _ p4 rfl))))

/-- C2: an `AudioSamplerStream<int16_t, 44100, 2>` (newly constructed, or in
any later state: its loader's cache invariant holds) successfully loaded from a
resource of at least 2048 bytes (actual size, below 4 GiB, and size declared by
the header), primed 5 times at cursor 0: every read of a sequence whose
requested counts sum to at most 1000 returns exactly its requested count. -/
theorem primed_reads_are_never_short (s0 s1 : AudioSamplerStream) (f : FileWrapper)
    (hcache : s0._file.CacheOK)
    (hlen : 2048 ≤ f.bytes.length) (hlt : f.bytes.length < 4294967296)
    (hload : load stereo16 s0 (some f) = some (AudioSamplerError.NoErr, s1))
    (hsize : 2048 ≤ s1._file.fileSize) :
    ∃ flags s5, primeN stereo16 5 s1 = some (flags, s5) ∧ sampleIndex s5 = 0 ∧
      ∀ reqs : List Nat, reqs.sum ≤ 1000 →
        (readSeq stereo16 reqs s5).2.map Prod.fst = reqs := by
  obtain ⟨s5, h5, hp, hc⟩ := prime_five s0 s1 f hcache hlen hlt hload hsize
  have hc0 : s5._sampleIdx = 0 := hc.2.1.trans (load_map _ _ _ _ hload).2.1
  refine ⟨_, s5, h5, hc0, fun reqs hsum => ?_⟩
  exact (readSeq_primed reqs s5 s5 hp hp (sameBuffers_refl s5) rfl (by rw [hc0]; omega)).2.1

/-- C3: in the scenario of C2 (with a header whose frame alignment is not 0,
so that `reset()` is defined), after a first pass of reads totalling at most
1000 samples, `reset()` followed by the same reads, with no further `prime()`,
returns the same counts and the same bytes as the first pass. -/
theorem reset_replays_primed_reads (s0 s1 : AudioSamplerStream) (f : FileWrapper)
    (hcache : s0._file.CacheOK)
    (hlen : 2048 ≤ f.bytes.length) (hlt : f.bytes.length < 4294967296)
    (hload : load stereo16 s0 (some f) = some (AudioSamplerError.NoErr, s1))
    (hsize : 2048 ≤ s1._file.fileSize) (halign : s1._file.frameAlignment ≠ 0) :
    ∃ flags s5, primeN stereo16 5 s1 = some (flags, s5) ∧
      ∀ reqs : List Nat, reqs.sum ≤ 1000 →
        ∃ s6, reset (readSeq stereo16 reqs s5).1 = some s6 ∧
          (readSeq stereo16 reqs s6).2 = (readSeq stereo16 reqs s5).2 := by
  obtain ⟨s5, h5, hp, hc⟩ := prime_five s0 s1 f hcache hlen hlt hload hsize
  have hc0 : s5._sampleIdx = 0 := hc.2.1.trans (load_map _ _ _ _ hload).2.1
  refine ⟨_, s5, h5, fun reqs hsum => ?_⟩
  obtain ⟨_, _, hP, hB⟩ := readSeq_primed reqs s5 s5 hp hp (sameBuffers_refl s5) rfl
    (by rw [hc0]; omega)
  have hal : (readSeq stereo16 reqs s5).1._file.frameAlignment ≠ 0 := by
    rw [hB.1]
    unfold WavLoader.frameAlignment at halign ⊢
    rw [hc.2.2.2]; exact halign
  have hns : ∃ m, (readSeq stereo16 reqs s5).1._file.numSamples = some m := by
    unfold WavLoader.numSamples; rw [if_neg hal]; exact ⟨_, rfl⟩
  obtain ⟨m, hm⟩ := hns
  refine ⟨{ (readSeq stereo16 reqs s5).1 with _sampleIdx := min 0 m }, ?_, ?_⟩
  · unfold reset setSampleIndex; rw [hm]
  · have hidx : min 0 m = 0 := Nat.zero_min m
    refine (readSeq_primed reqs s5
      { (readSeq stereo16 reqs s5).1 with _sampleIdx := min 0 m } hp ⟨hP.1, Or.inl (by show min 0 m < 234; omega)⟩
      ⟨hB.1, hB.2.1, hB.2.2.1, hB.2.2.2⟩ (by show min 0 m = s5._sampleIdx; rw [hidx, hc0])
      (by rw [hc0]; omega)).1

/-- C2, witness of `primed_reads_are_never_short`: the new stream loaded from
the 2048-byte file. -/
theorem primed_reads_are_never_short_witness :
    newStream._file.CacheOK ∧ 2048 ≤ (wavFile 2048).bytes.length ∧
      (wavFile 2048).bytes.length < 4294967296 ∧
      load stereo16 newStream (some (wavFile 2048))
        = some (AudioSamplerError.NoErr, loadedStream 2048) ∧
      2048 ≤ (loadedStream 2048)._file.fileSize ∧
      ∃ flags s5, primeN stereo16 5 (loadedStream 2048) = some (flags, s5) ∧
        sampleIndex s5 = 0 ∧
        ∀ reqs : List Nat, reqs.sum ≤ 1000 →
          (readSeq stereo16 reqs s5).2.map Prod.fst = reqs :=
  ⟨newlyConstructed_cacheOK stereo16 newStream newStream_newlyConstructed, by decide!, by decide!, by decide!, by decide!,
    primed_reads_are_never_short newStream (loadedStream 2048) (wavFile 2048)
      (newlyConstructed_cacheOK stereo16 newStream newStream_newlyConstructed) (by decide!) (by decide!) (by decide!) (by decide!)⟩

/-- C3, witness of `reset_replays_primed_reads`: the new stream loaded from
the 2048-byte file. -/
theorem reset_replays_primed_reads_witness :
    newStream._file.CacheOK ∧ 2048 ≤ (wavFile 2048).bytes.length ∧
      (wavFile 2048).bytes.length < 4294967296 ∧
      load stereo16 newStream (some (wavFile 2048))
        = some (AudioSamplerError.NoErr, loadedStream 2048) ∧
      2048 ≤ (loadedStream 2048)._file.fileSize ∧
      (loadedStream 2048)._file.frameAlignment ≠ 0 ∧
      ∃ flags s5, primeN stereo16 5 (loadedStream 2048) = some (flags, s5) ∧
        ∀ reqs : List Nat, reqs.sum ≤ 1000 →
          ∃ s6, reset (readSeq stereo16 reqs s5).1 = some s6 ∧
            (readSeq stereo16 reqs s6).2 = (readSeq stereo16 reqs s5).2 :=
  ⟨newlyConstructed_cacheOK stereo16 newStream newStream_newlyConstructed, by decide!, by decide!, by decide!, by decide!, by decide!,
    reset_replays_primed_reads newStream (loadedStream 2048) (wavFile 2048)
      (newlyConstructed_cacheOK stereo16 newStream newStream_newlyConstructed) (by decide!) (by decide!) (by decide!) (by decide!)
      (by decide!)⟩

end AudioSamplerStream

/-! ### C11: what `WavLoader::open` verifies -/

namespace AudioSamplerStream

/-- C11 (code defect): a resource whose format marker "WAVE", sub-chunk-1
marker "fmt " or sub-chunk-2 marker "data" is corrupted is accepted.
`corruptedFile off` is the valid 512-byte file with the first byte of the
marker at offset 8, 12 or 36 replaced by `'X'`; for each of the three,
`WavLoader::open` returns true and `load` returns `NoErr`. -/
theorem corrupted_markers_accepted :
    (∀ off ∈ [8, 12, 36],
      (newStream._file.openWav (some (corruptedFile off))).1 = true ∧
      (load stereo16 newStream (some (corruptedFile off))).map Prod.fst
        = some AudioSamplerError.NoErr) ∧
    ((corruptedFile 8).bytes.drop 8).take 4 = [88, 65, 86, 69] ∧
    ((corruptedFile 12).bytes.drop 12).take 4 = [88, 109, 116, 32] ∧
    ((corruptedFile 36).bytes.drop 36).take 4 = [88, 97, 116, 97] := by
  refine ⟨?_, by decide!, by decide!, by decide!⟩
  intro off hoff
  simp only [List.mem_cons, List.mem_singleton, List.not_mem_nil, or_false] at hoff
  rcases hoff with h | h | h <;> subst h <;> exact ⟨by decide!, by decide!⟩

end AudioSamplerStream

/-! ### C12: a read after a reposition past the intro segment -/

namespace AudioSamplerStream

/-- C12 (code defect): on the new `<int16_t, 44100, 2>` stream loaded from the
2048-byte file, after `setSampleIndex(400)` and no priming the cursor 400 is
past the intro length 234, every map entry is the sentinel and the needed
block is 1; yet `read(dst, 10)` returns 10 and moves the cursor to 410: the
read pointer still points at the start of the intro segment, and `read`
copies from there. -/
theorem stale_read_pointer_serves_intro :
    ∃ s, setSampleIndex (loadedStream 2048) 400 = some s ∧
      IntroBufSize stereo16 = 234 ∧ sampleIndex s = 400 ∧
      s._bufBlockMap = [UnmappedBlock, UnmappedBlock, UnmappedBlock] ∧
      neededBlock stereo16 s = 1 ∧
      (read stereo16 s 10).2.1 = 10 ∧ sampleIndex (read stereo16 s 10).1 = 410 := by
  refine ⟨streamAfter 2048 [Op.setSampleIndex 400], ?_, ?_, ?_, ?_, ?_, ?_, ?_⟩ <;> decide!

end AudioSamplerStream

/-! ### C13: the cursor and the sample count -/

namespace AudioSamplerStream

/-- C13 (code defect): `read` advances the cursor past `numSamples()`. On the
stereo stream loaded from the 2048-byte file (`numSamples()` is 501), three
`prime()` calls and `read(dst, 600)` return 600 and leave the cursor at 600.
On the mono stream loaded from the 1900-byte mono file (`numSamples()` is
928), three `prime()` calls and `read(dst, 1002)` leave the cursor at 1002. -/
theorem read_passes_sample_count :
    (loadedStream 2048)._file.numSamples = some 501 ∧
      exec stereo16 [Op.prime, Op.prime, Op.prime, Op.read 600] (loadedStream 2048)
        = some (streamAfter 2048 [Op.prime, Op.prime, Op.prime, Op.read 600],
            resultsAfter 2048 [Op.prime, Op.prime, Op.prime, Op.read 600]) ∧
      (resultsAfter 2048 [Op.prime, Op.prime, Op.prime, Op.read 600]).map Prod.fst = [600] ∧
      sampleIndex (streamAfter 2048 [Op.prime, Op.prime, Op.prime, Op.read 600]) = 600 ∧
      (monoAfter 1900 [])._file.numSamples = some 928 ∧
      sampleIndex (monoAfter 1900 [Op.prime, Op.prime, Op.prime, Op.read 1002]) = 1002 := by
  refine ⟨?_, ?_, ?_, ?_, ?_, ?_⟩ <;> decide!

end AudioSamplerStream

/-! ### C14: the frame of the real-time calls -/

namespace AudioSamplerStream

/-- C14: `read`, `setSampleIndex` and `reset` leave the loader (header,
file, byte position, cached block), the intro segment, the ring buffer and
every Cache Slot Map entry as they were; `setSampleIndex` and `reset` leave
the read pointer too. `atEOF` and `sampleIndex` only compute a value from the
stream. -/
theorem realtime_calls_frame (p : Params) (s : AudioSamplerStream) :
    (∀ n, SameBuffers s (read p s n).1) ∧
    (∀ i t, setSampleIndex s i = some t → SameBuffers s t ∧ t._readHead = s._readHead) ∧
    (∀ t, reset s = some t → SameBuffers s t ∧ t._readHead = s._readHead) := by
  refine ⟨fun n => (read_spec p s n).1, fun i t h => ?_, fun t h => ?_⟩
  · unfold setSampleIndex at h
    split at h
    · simp at h
    · simp only [Option.some.injEq] at h
      rw [← h]; exact ⟨⟨rfl, rfl, rfl, rfl⟩, rfl⟩
  · unfold reset setSampleIndex at h
    split at h
    · simp at h
    · simp only [Option.some.injEq] at h
      rw [← h]; exact ⟨⟨rfl, rfl, rfl, rfl⟩, rfl⟩

/-- C14, witness of `realtime_calls_frame`: `setSampleIndex(300)` on the
stream loaded from the 2048-byte file and primed three times. -/
theorem realtime_calls_frame_witness :
    setSampleIndex (primedStream 2048 3) 300
        = some (streamAfter 2048 [Op.prime, Op.prime, Op.prime, Op.setSampleIndex 300]) ∧
      SameBuffers (primedStream 2048 3)
        (streamAfter 2048 [Op.prime, Op.prime, Op.prime, Op.setSampleIndex 300]) ∧
      (streamAfter 2048 [Op.prime, Op.prime, Op.prime, Op.setSampleIndex 300])._readHead
        = (primedStream 2048 3)._readHead :=
  ⟨by decide!, (realtime_calls_frame stereo16 (primedStream 2048 3)).2.1 300 _ (by decide!)⟩

end AudioSamplerStream

/-! ### C15: the block-cached read and the plain read -/

namespace AudioSamplerStream

/-- C15 (code defect): the loader opened on the valid 512-byte file stands at
byte 44 with 468 bytes left; `read(buf, 468)` delivers no byte and leaves the
position at 44, while the plain read delivers 468 bytes and ends at 512. -/
theorem cached_read_differs_from_plain_read :
    ∃ w w1, newStream._file.openWav (some (wavFile 512)) = (true, w) ∧
      w._position = 44 ∧ w._file.map FileWrapper.size = some 512 ∧
      w.read 468 = some ([], w1) ∧ w1._position = 44 ∧
      (w.plainRead 468).map (fun r => (r.1.length, r.2)) = some (468, 512) := by
  refine ⟨(newStream._file.openWav (some (wavFile 512))).2,
    (((newStream._file.openWav (some (wavFile 512))).2.read 468).getD ([], newStream._file)).2,
    ?_, ?_, ?_, ?_, ?_, ?_⟩ <;> decide!

end AudioSamplerStream

/-! ### C16: a header with `BlockAlign` 0 -/

namespace AudioSamplerStream

/-- C16 (code defect): `load` accepts the 512-byte stereo 16-bit file whose
header field `BlockAlign` is 0; on the loaded stream `atEOF()`, `reset()` and
`setSampleIndex(i)`, for every `i`, divide by zero. -/
theorem zero_block_align_accepted :
    ∃ s, load stereo16 newStream (some zeroAlignFile) = some (AudioSamplerError.NoErr, s) ∧
      s._file.frameAlignment = 0 ∧ atEOF s = none ∧ reset s = none ∧
      ∀ i, setSampleIndex s i = none := by
  refine ⟨((load stereo16 newStream (some zeroAlignFile)).getD
    (AudioSamplerError.BadFile, newStream)).2, by decide!, by decide!, by decide!, by decide!, ?_⟩
  intro i
  have h : (((load stereo16 newStream (some zeroAlignFile)).getD
    (AudioSamplerError.BadFile, newStream)).2)._file.numSamples = none := by decide!
  unfold setSampleIndex
  rw [h]

end AudioSamplerStream

/-! ### C19: the read pointer after a reposition into a slot -/

namespace AudioSamplerStream

/-- C19 (code defect): on the stereo stream loaded from the 2048-byte file,
after three `prime()` calls, `read(dst, 500)` and `setSampleIndex(244)`, the
needed block 1 sits in slot 0 and the read pointer does not; `read` moves the
pointer to the start of slot 0 plus 1 sample (the block number 1 modulo 256)
where `(cursor - introSize) mod samplesPerBlock` is 10, and `read(dst, 4)`
copies the payload samples 235..238 of the file, not the samples 244..247. -/
theorem reposition_offset_is_block_number :
    ∃ s s1,
      exec stereo16 [Op.prime, Op.prime, Op.prime, Op.read 500, Op.setSampleIndex 244]
          (loadedStream 2048)
        = some (s, resultsAfter 2048 [Op.prime, Op.prime, Op.prime, Op.read 500]) ∧
      sampleIndex s = 244 ∧ s._bufBlockMap = [1, 2, 3] ∧ neededBlock stereo16 s = 1 ∧
      IntroBufSize stereo16 = 234 ∧ SamplesPerBlock stereo16 = 256 ∧
      resolve stereo16 s = some (s1, 0) ∧
      s1._readHead = 0 * SamplesPerBlock stereo16 + IntroBufSize stereo16 + 1 ∧
      (244 - IntroBufSize stereo16) % SamplesPerBlock stereo16 = 10 ∧
      (read stereo16 s 4).2 = (4, ((wavFile 2048).bytes.drop (44 + 2 * 235)).take 8) ∧
      ((wavFile 2048).bytes.drop (44 + 2 * 235)).take 8 ≠
        ((wavFile 2048).bytes.drop (44 + 2 * 244)).take 8 := by
  refine ⟨streamAfter 2048 [Op.prime, Op.prime, Op.prime, Op.read 500, Op.setSampleIndex 244],
    { streamAfter 2048 [Op.prime, Op.prime, Op.prime, Op.read 500, Op.setSampleIndex 244] with
      _readHead := 235 }, ?_, ?_, ?_, ?_, ?_, ?_, ?_, ?_, ?_, ?_, ?_⟩ <;> decide!

end AudioSamplerStream

/-! ### C20: the candidates of `prime` near the end of the resource -/

namespace AudioSamplerStream

/-- C20 (code defect): on the mono stream loaded from the 4000-byte mono file
(blocks 0..7), after three `prime()` calls and `setSampleIndex(1800)` the
read-head block is 7, the map is `[1, 2, 3]` and the eviction candidate is
slot 0 at distance 6. Block 6 lies within the resource, is in no slot and is
at distance 1; yet `prime()` returns false and maps nothing: at every
distance the block ahead (8, 9, ...) is beyond the end of the resource, and the
`break` taken for it leaves the `sign` loop before the block behind is looked
at. -/
theorem prime_skips_block_behind :
    ∃ s, (load mono16 newStream (some (monoFile 4000))).bind
          (fun r => exec mono16 [Op.prime, Op.prime, Op.prime, Op.setSampleIndex 1800] r.2)
        = some (s, []) ∧
      s._bufBlockMap = [1, 2, 3] ∧ readHeadBlock mono16 s = 7 ∧
      furthest 7 s._bufBlockMap = (0, 6) ∧
      6 ∉ s._bufBlockMap ∧ 6 * BlockSize + BlockSize ≤ s._file.fileSize ∧
      (s._file._file.map (fun f => f.bytes.length)) = some 4000 ∧
      blockDiff 6 7 = 1 ∧
      (prime mono16 s).map Prod.fst = some false ∧
      (prime mono16 s).map (fun r => r.2._bufBlockMap) = some [1, 2, 3] := by
  refine ⟨monoAfter 4000 [Op.prime, Op.prime, Op.prime, Op.setSampleIndex 1800],
    ?_, ?_, ?_, ?_, ?_, ?_, ?_, ?_, ?_, ?_⟩ <;> decide!

end AudioSamplerStream

/-! ### C18: cache coherence at call boundaries -/

theorem writeAt_get (buf : List Nat) (off : Nat) (bytes : List Nat) (j : Nat)
    (h : off + bytes.length ≤ buf.length) :
    (writeAt buf off bytes)[j]? =
      if j < off then buf[j]? else if j < off + bytes.length then bytes[j - off]? else buf[j]? := by
  unfold writeAt
  have hl : (buf.take off).length = off := by rw [List.length_take]; omega
  rw [List.append_assoc]
  by_cases h1 : j < off
  · rw [if_pos h1, List.getElem?_append_left (by omega), List.getElem?_take_of_lt h1]
  · rw [if_neg h1, List.getElem?_append_right (by omega), hl]
    by_cases h2 : j < off + bytes.length
    · rw [if_pos h2, List.getElem?_append_left (by omega)]
    · rw [if_neg h2, List.getElem?_append_right (by omega), List.getElem?_drop]
      congr 1; omega

theorem writeAt_length (buf : List Nat) (off : Nat) (bytes : List Nat)
    (h : off + bytes.length ≤ buf.length) : (writeAt buf off bytes).length = buf.length := by
  unfold writeAt
  simp only [List.length_append, List.length_take, List.length_drop]
  omega

/-- Writing at most 512 bytes at the start of slot `idx` leaves every other
slot as it was. -/
theorem slot_writeAt_other (ring got : List Nat) (idx i : Nat) (hr : idx * 512 + 512 ≤ ring.length)
    (hg : got.length ≤ 512) (hi : i ≠ idx) :
    ((writeAt ring (idx * 512) got).drop (i * 512)).take 512 = (ring.drop (i * 512)).take 512 := by
  apply List.ext_getElem?
  intro n
  by_cases hn : n < 512
  · rw [List.getElem?_take_of_lt hn, List.getElem?_take_of_lt hn, List.getElem?_drop,
      List.getElem?_drop, writeAt_get _ _ _ _ (by omega)]
    have : i < idx ∨ idx < i := by omega
    rcases this with h | h
    · rw [if_pos (by nlinarith)]
    · rw [if_neg (by nlinarith), if_neg (by nlinarith)]
  · rw [List.getElem?_eq_none (by rw [List.length_take]; omega),
      List.getElem?_eq_none (by rw [List.length_take]; omega)]

/-- The bytes written at the start of slot `idx` are found there. -/
theorem slot_writeAt_same (ring got : List Nat) (idx : Nat) (hr : idx * 512 + 512 ≤ ring.length)
    (hg : got.length ≤ 512) :
    (((writeAt ring (idx * 512) got).drop (idx * 512)).take 512).take got.length = got := by
  apply List.ext_getElem?
  intro n
  by_cases hn : n < got.length
  · rw [List.getElem?_take_of_lt hn, List.getElem?_take_of_lt (by omega), List.getElem?_drop,
      writeAt_get _ _ _ _ (by omega), if_neg (by omega), if_pos (by omega)]
    congr 1; omega
  · rw [List.getElem?_eq_none (by rw [List.length_take]; omega),
      List.getElem?_eq_none (by omega)]

namespace WavLoader

/-- One pass of the loop of `read` through its first branch (the block at
`_position` is the cached one) when the copy ends at offset `e` of the cache
and `shortRead` stays false. -/
theorem readLoop_cached (c eb eo fuel e : Nat) (w : WavLoader) (f : FileWrapper)
    (out : List Nat) (hc : out.length < c) (hb : w._position / 512 = w._blockNum)
    (ho : w._position % 512 < w._bufferLen)
    (hend : (if w._position / 512 = eb then MIN w._bufferLen eo else w._bufferLen) = e)
    (hshort : ¬ (w._position / 512 = eb ∧ e < eo)) :
    readLoop c eb eo (fuel + 1) w f out false =
      readLoop c eb eo fuel
        { w with _position :=
            (w._position + toU32 ((e : Int) - ((w._position % 512 : Nat) : Int))) % 4294967296 }
        f (out ++ (w._buffer.drop (w._position % 512)).take
          (toU32 ((e : Int) - ((w._position % 512 : Nat) : Int)))) false := by
  have hbody : readBody eb eo w f out false =
      ({ w with _position :=
            (w._position + toU32 ((e : Int) - ((w._position % 512 : Nat) : Int))) % 4294967296 },
        f, out ++ (w._buffer.drop (w._position % 512)).take
          (toU32 ((e : Int) - ((w._position % 512 : Nat) : Int))), false) := by
    unfold readBody
    simp only [if_pos hb, hend, if_pos ho, if_neg hshort]
  rw [readLoop]
  simp only [Bool.not_false, Bool.true_and, decide_eq_true_eq, hc, if_true, hbody]

/-- One pass of the loop of `read` through its second branch (the cache is
refilled with the block at `_position`) when bytes are delivered. -/
theorem readLoop_refill (c eb eo fuel : Nat) (w : WavLoader) (f : FileWrapper)
    (out : List Nat) (hc : out.length < c) (hb : w._position / 512 ≠ w._blockNum)
    (he : w._position / 512 = eb ∨ w._position % 512 > 0)
    (hs : w._position % 512 <
      MIN ((f.seek (w._position / 512 * 512)).2.read 512).1.length eo) :
    readLoop c eb eo (fuel + 1) w f out false =
      readLoop c eb eo fuel
        { w with _buffer := writeAt w._buffer 0 ((f.seek (w._position / 512 * 512)).2.read 512).1
                 _bufferLen := ((f.seek (w._position / 512 * 512)).2.read 512).1.length
                 _blockNum := w._position / 512
                 _position := (w._position
                   + (MIN ((f.seek (w._position / 512 * 512)).2.read 512).1.length eo
                     - w._position % 512)) % 4294967296 }
        ((f.seek (w._position / 512 * 512)).2.read 512).2
        (out ++ ((writeAt w._buffer 0 ((f.seek (w._position / 512 * 512)).2.read 512).1).drop
            (w._position % 512)).take
          (MIN ((f.seek (w._position / 512 * 512)).2.read 512).1.length eo - w._position % 512))
        (decide (MIN ((f.seek (w._position / 512 * 512)).2.read 512).1.length eo < eo)) := by
  rw [readLoop]
  simp only [Bool.not_false, Bool.true_and, decide_eq_true_eq, hc, if_true]
  unfold readBody
  simp only [if_neg hb, if_pos he, WavLoader.BLOCKSIZE, if_pos hs]

end WavLoader

namespace WavLoader

theorem MIN_eq_min (a b : Nat) : MIN a b = min a b := by
  unfold MIN; split <;> omega

/-- A block-aligned read of 512 bytes that the cache does not serve and that
does not end inside the block read: the third branch delivers what the file
has at the position. -/
theorem read_aligned_direct (w : WavLoader) (bytes : List Nat) (pr : Bool) (b : Nat)
    (hf : w._file = some ⟨bytes, pr, some (b * 512)⟩) (hp : w._position = b * 512)
    (hb : w._blockNum ≠ b) (hb2 : b * 512 < 2147483648)
    (hS : (b + 1) * 512 ≤ bytes.length ∨ bytes.length < b * 512)
    (hlt : bytes.length < 4294967296) :
    ∃ w1, w.read 512 = some ((bytes.drop (b * 512)).take 512, w1) ∧
      w1._blockNum = w._blockNum ∧ w1._bufferLen = w._bufferLen ∧ w1._buffer = w._buffer := by
  have hc : MIN 512 (toU32 ((bytes.length : Int) - ((b * 512 : Nat) : Int))) = 512 := by
    rw [MIN_eq_min]; unfold toU32; omega
  have hr : (FileWrapper.read ⟨bytes, pr, some (b * 512)⟩ 512)
      = ((bytes.drop (b * 512)).take 512,
          ⟨bytes, pr, some (b * 512 + ((bytes.drop (b * 512)).take 512).length)⟩) := rfl
  have hl : ((bytes.drop (b * 512)).take 512).length = 512 ∨
      ((bytes.drop (b * 512)).take 512).length < 512 := by
    have := List.length_take_le 512 (bytes.drop (b * 512)); omega
  unfold WavLoader.read
  simp only [hf, FileWrapper.size, hp, hc]
  have e1 : (b * 512 + 512) % 4294967296 / 512 = b + 1 := by omega
  have e2 : (b * 512 + 512) % 4294967296 % 512 = 0 := by omega
  rw [e1, e2]
  rw [WavLoader.readLoop_direct 512 (b + 1) 0 511 w _ [] (by simp) (by omega) (by omega) (by omega)]
  rw [hr, WavLoader.readLoop_done _ _ _ _ _ _ _ _ (by
    rcases hl with h | h
    · right; simp only [List.nil_append]; omega
    · left; simpa using h)]
  exact ⟨_, rfl, rfl, rfl, rfl⟩

/-- A block-aligned read of 512 bytes at the very end of the resource: the
loop is not entered. -/
theorem read_aligned_end (w : WavLoader) (bytes : List Nat) (pr : Bool) (b : Nat)
    (hf : w._file = some ⟨bytes, pr, some (b * 512)⟩) (hp : w._position = b * 512)
    (hS : bytes.length = b * 512) :
    ∃ w1, w.read 512 = some ((bytes.drop (b * 512)).take 512, w1) ∧
      w1._blockNum = w._blockNum ∧ w1._bufferLen = w._bufferLen ∧ w1._buffer = w._buffer := by
  have hc : MIN 512 (toU32 ((bytes.length : Int) - ((b * 512 : Nat) : Int))) = 0 := by
    rw [MIN_eq_min]; unfold toU32; omega
  have hd : (bytes.drop (b * 512)).take 512 = [] := by
    rw [List.drop_of_length_le (by omega)]; rfl
  unfold WavLoader.read
  simp only [hf, FileWrapper.size, hp, hc]
  rw [hd]
  exact ⟨_, rfl, rfl, rfl, rfl⟩

/-- A block-aligned read of 512 bytes of the block the cache holds. -/
theorem read_aligned_cached (w : WavLoader) (bytes : List Nat) (pr : Bool) (b : Nat)
    (hf : w._file = some ⟨bytes, pr, some (b * 512)⟩) (hp : w._position = b * 512)
    (hb : w._blockNum = b) (hS : b * 512 < bytes.length)
    (hL : w._bufferLen = min 512 (bytes.length - b * 512))
    (hbl : w._bufferLen ≤ w._buffer.length) (hlt : bytes.length < 4294967296) :
    ∃ w1, w.read 512 = some (w._buffer.take w._bufferLen, w1) ∧
      w1._blockNum = w._blockNum ∧ w1._bufferLen = w._bufferLen ∧ w1._buffer = w._buffer := by
  have hc : MIN 512 (toU32 ((bytes.length : Int) - ((b * 512 : Nat) : Int))) = w._bufferLen := by
    rw [MIN_eq_min, hL]; unfold toU32; omega
  unfold WavLoader.read
  simp only [hf, FileWrapper.size, hp, hc]
  obtain ⟨k, hk⟩ : ∃ k, w._bufferLen = k + 1 := ⟨w._bufferLen - 1, by omega⟩
  have hend : (if w._position / 512 = (b * 512 + w._bufferLen) % 4294967296 / 512
      then MIN w._bufferLen ((b * 512 + w._bufferLen) % 4294967296 % 512)
      else w._bufferLen) = w._bufferLen := by
    split
    · rw [MIN_eq_min]; omega
    · rfl
  have hstep := readLoop_cached w._bufferLen ((b * 512 + w._bufferLen) % 4294967296 / 512)
    ((b * 512 + w._bufferLen) % 4294967296 % 512) k w._bufferLen w
    ⟨bytes, pr, some (b * 512)⟩ [] (by simp; omega) (by omega) (by omega) hend (by omega)
  have hz : toU32 ((w._bufferLen : Int) - ((w._position % 512 : Nat) : Int)) = w._bufferLen := by
    unfold toU32; omega
  have ho : w._position % 512 = 0 := by omega
  rw [hz, ho, List.drop_zero, List.nil_append] at hstep
  have hfuel : readLoop w._bufferLen ((b * 512 + w._bufferLen) % 4294967296 / 512)
      ((b * 512 + w._bufferLen) % 4294967296 % 512) w._bufferLen w
      ⟨bytes, pr, some (b * 512)⟩ [] false
      = readLoop w._bufferLen ((b * 512 + w._bufferLen) % 4294967296 / 512)
        ((b * 512 + w._bufferLen) % 4294967296 % 512) (k + 1) w
        ⟨bytes, pr, some (b * 512)⟩ [] false := by rw [← hk]
  rw [hfuel, hstep, WavLoader.readLoop_done _ _ _ _ _ _ _ _ (Or.inr (by
    rw [List.length_take]; omega))]
  exact ⟨_, rfl, rfl, rfl, rfl⟩

/-- A block-aligned read of 512 bytes of the last, partial block of the
resource, which the cache does not hold: the cache is refilled with it and the
bytes come from there. -/
theorem read_aligned_refill (w : WavLoader) (bytes : List Nat) (pr : Bool) (b : Nat)
    (hf : w._file = some ⟨bytes, pr, some (b * 512)⟩) (hp : w._position = b * 512)
    (hb : w._blockNum ≠ b) (hS : b * 512 < bytes.length) (hS2 : bytes.length < (b + 1) * 512)
    (hlt : bytes.length < 4294967296) :
    ∃ w1, w.read 512 = some ((bytes.drop (b * 512)).take 512, w1) ∧
      w1._blockNum = b ∧ w1._bufferLen = bytes.length - b * 512 ∧
      w1._buffer = writeAt w._buffer 0 ((bytes.drop (b * 512)).take 512) := by
  have hc : MIN 512 (toU32 ((bytes.length : Int) - ((b * 512 : Nat) : Int)))
      = bytes.length - b * 512 := by
    rw [MIN_eq_min]; unfold toU32; omega
  have hl : ((bytes.drop (b * 512)).take 512).length = bytes.length - b * 512 := by
    rw [List.length_take, List.length_drop]; omega
  have hq : w._position / 512 * 512 = b * 512 := by omega
  have hr : ((FileWrapper.seek ⟨bytes, pr, some (b * 512)⟩ (w._position / 512 * 512)).2.read 512)
      = ((bytes.drop (b * 512)).take 512, ⟨bytes, pr, some (b * 512 + (bytes.length - b * 512))⟩) := by
    rw [hq]
    simp only [FileWrapper.seek, FileWrapper.read, hl]
  unfold WavLoader.read
  simp only [hf, FileWrapper.size, hp, hc]
  generalize hLdef : bytes.length - b * 512 = L at hl hr
  have e1 : (b * 512 + L) % 4294967296 / 512 = b := by omega
  have e2 : (b * 512 + L) % 4294967296 % 512 = L := by omega
  rw [e1, e2]
  obtain ⟨k, hk⟩ : ∃ k, L = k + 1 := ⟨L - 1, by omega⟩
  have hstep := readLoop_refill L b L k w ⟨bytes, pr, some (b * 512)⟩ [] (by simp; omega)
    (by omega) (Or.inl (by omega)) (by rw [hr, hl, MIN_eq_min]; omega)
  rw [hr] at hstep
  dsimp only at hstep
  have hm : MIN ((bytes.drop (b * 512)).take 512).length L - w._position % 512 = L := by
    rw [hl, MIN_eq_min]; omega
  have hm2 : MIN ((bytes.drop (b * 512)).take 512).length L = L := by
    rw [hl, MIN_eq_min]; omega
  have ho : w._position % 512 = 0 := by omega
  have htake : (writeAt w._buffer 0 ((bytes.drop (b * 512)).take 512)).take L
      = (bytes.drop (b * 512)).take 512 := by
    unfold writeAt
    rw [List.take_zero, List.nil_append, List.take_append_of_le_length (by omega),
      List.take_of_length_le (by omega)]
  rw [hm, hm2, ho, List.drop_zero, List.nil_append, htake] at hstep
  have hfuel : readLoop L b L L w ⟨bytes, pr, some (b * 512)⟩ [] false
      = readLoop L b L (k + 1) w ⟨bytes, pr, some (b * 512)⟩ [] false := by rw [← hk]
  rw [hfuel, hstep, WavLoader.readLoop_done _ _ _ _ _ _ _ _ (Or.inr (by omega))]
  refine ⟨_, rfl, ?_, ?_, ?_⟩
  · show w._position / 512 = b
    omega
  · exact hl
  · rfl

end WavLoader

namespace WavLoader

theorem cacheFor_congr (w w1 : WavLoader) (bytes : List Nat) (h1 : w1._blockNum = w._blockNum)
    (h2 : w1._bufferLen = w._bufferLen) (h3 : w1._buffer = w._buffer) (h : CacheFor w bytes) :
    CacheFor w1 bytes := by
  unfold CacheFor at h ⊢
  rw [h1, h2, h3]; exact h

/-- A block-aligned read of 512 bytes at block `b ≥ 1`, as `prime` makes it,
delivers the bytes the resource has in that block, and keeps the cache in
agreement with the resource. -/
theorem read_aligned (w : WavLoader) (bytes : List Nat) (pr : Bool) (b : Nat)
    (hf : w._file = some ⟨bytes, pr, some (b * 512)⟩) (hp : w._position = b * 512)
    (hb1 : 1 ≤ b) (hb2 : b * 512 < 2147483648) (hlt : bytes.length < 4294967296)
    (hc : CacheFor w bytes) :
    ∃ w1, w.read 512 = some ((bytes.drop (b * 512)).take 512, w1) ∧ CacheFor w1 bytes := by
  by_cases hb : w._blockNum = b
  · rcases hc with h | h | ⟨hS, hL, ht⟩
    · omega
    · omega
    · rw [hb] at hS hL ht
      have hbl : w._bufferLen ≤ w._buffer.length := by
        have := congrArg List.length ht
        rw [List.length_take, List.length_take, List.length_drop] at this
        omega
      obtain ⟨w1, hr, k1, k2, k3⟩ := read_aligned_cached w bytes pr b hf hp hb hS hL hbl hlt
      rw [ht] at hr
      refine ⟨w1, hr, cacheFor_congr w w1 bytes k1 k2 k3 (Or.inr (Or.inr ?_))⟩
      rw [hb]; exact ⟨hS, hL, ht⟩
  · by_cases h1 : (b + 1) * 512 ≤ bytes.length ∨ bytes.length < b * 512
    · obtain ⟨w1, hr, k1, k2, k3⟩ := read_aligned_direct w bytes pr b hf hp hb hb2 h1 hlt
      exact ⟨w1, hr, cacheFor_congr w w1 bytes k1 k2 k3 hc⟩
    · by_cases h2 : bytes.length = b * 512
      · obtain ⟨w1, hr, k1, k2, k3⟩ := read_aligned_end w bytes pr b hf hp h2
        exact ⟨w1, hr, cacheFor_congr w w1 bytes k1 k2 k3 hc⟩
      · obtain ⟨w1, hr, k1, k2, k3⟩ := read_aligned_refill w bytes pr b hf hp hb (by omega)
          (by omega) hlt
        refine ⟨w1, hr, Or.inr (Or.inr ?_)⟩
        rw [k1, k2, k3]
        refine ⟨by omega, by omega, ?_⟩
        have hl : ((bytes.drop (b * 512)).take 512).length = bytes.length - b * 512 := by
          rw [List.length_take, List.length_drop]; omega
        unfold writeAt
        rw [List.take_zero, List.nil_append, List.take_append_of_le_length (by omega),
          List.take_of_length_le (by omega)]

end WavLoader

namespace AudioSamplerStream

/-- Coherence survives a delivery into slot `idx` when the delivered bytes
begin with what the resource has of the new block. -/
theorem coherent_deliver (s t : AudioSamplerStream) (bytes got : List Nat) (idx block : Nat)
    (hcoh : Coherent s bytes) (hring : s._ringBuf.length = 1536)
    (hmap : s._bufBlockMap.length = NumBlocks) (hidx : idx < NumBlocks)
    (hg : got.length ≤ 512)
    (hm : t._bufBlockMap = s._bufBlockMap.set idx block)
    (hr : t._ringBuf = writeAt s._ringBuf (idx * BlockSize) got)
    (hle : min 512 (bytes.length - block * 512) ≤ got.length)
    (hgot : got.take (min 512 (bytes.length - block * 512))
      = (bytes.drop (block * 512)).take (min 512 (bytes.length - block * 512))) :
    Coherent t bytes := by
  unfold NumBlocks at hmap hidx
  intro i hi hne
  unfold NumBlocks at hi
  unfold slotBytes BlockSize at *
  rw [hm, getD_set] at hne ⊢
  rw [hr]
  by_cases he : i = idx
  · subst he
    rw [if_pos ⟨rfl, by omega⟩]
    have h1 := slot_writeAt_same s._ringBuf got i (by omega) hg
    generalize ((writeAt s._ringBuf (i * 512) got).drop (i * 512)).take 512 = X at h1 ⊢
    have h2 : X.take (min 512 (bytes.length - block * 512))
        = (X.take got.length).take (min 512 (bytes.length - block * 512)) := by
      rw [List.take_take, Nat.min_eq_left hle]
    rw [h2, h1, hgot]
  · rw [if_neg (fun h => he h.1)] at hne ⊢
    rw [slot_writeAt_other s._ringBuf got idx i (by omega) hg he]
    exact hcoh i (by unfold NumBlocks; omega) hne

/-- One candidate of `prime`, on a stream that satisfies the invariant: the
invariant stays; without a delivery the map and the ring buffer stay, and a
delivery is one block read of nonzero count into slot `idx`. -/
theorem tryBlock_coherent (s : AudioSamplerStream) (bytes : List Nat) (idx block : Nat)
    (hinv : BlockInv s bytes) (hlt : bytes.length < 4294967296) (hidx : idx < NumBlocks)
    (hblock : 1 ≤ block) :
    Step.Sat
      (fun t => BlockInv t bytes ∧ t._bufBlockMap = s._bufBlockMap ∧ t._ringBuf = s._ringBuf)
      (fun t => BlockInv t bytes ∧ Delivered s t) (tryBlock s idx block) := by
  obtain ⟨⟨pr, pos, hfile⟩, hok, hfor, hring, hmap, hcoh⟩ := hinv
  unfold tryBlock
  split
  · trivial
  · rename_i hint
    split
    · exact ⟨⟨⟨pr, pos, hfile⟩, hok, hfor, hring, hmap, hcoh⟩, rfl, rfl⟩
    · split
      · exact ⟨⟨⟨pr, pos, hfile⟩, hok, hfor, hring, hmap, hcoh⟩, rfl, rfl⟩
      · have hseek : s._file.seek (block * BlockSize) = some (true,
            { s._file with _position := block * BlockSize
                           _file := some ⟨bytes, pr, some (block * BlockSize)⟩ }) := by
          unfold WavLoader.seek
          rw [hfile]
          rfl
        rw [hseek]
        dsimp only
        generalize hw : ({ s._file with
          _position := block * BlockSize,
          _file := some ⟨bytes, pr, some (block * BlockSize)⟩ } : WavLoader) = w
        have hwf : w._file = some ⟨bytes, pr, some (block * 512)⟩ := by rw [← hw]; rfl
        have hwp : w._position = block * 512 := by rw [← hw]; rfl
        have hwok : w.CacheOK := by
          rw [← hw]; exact WavLoader.cacheOK_congr _ _ rfl rfl rfl hok
        have hwfor : bytes.length ≤ 512 ∨ w.CacheFor bytes := by
          rcases hfor with h | h
          · exact Or.inl h
          · right; rw [← hw]; exact WavLoader.cacheFor_congr _ _ _ rfl rfl rfl h
        unfold BlockSize at hint
        split
        · trivial
        · rename_i got w1 hr
          obtain ⟨g1, _, g3, _, f1, g5, g6, _, g8⟩ := WavLoader.read_inv w w1 _ 512 got hwf hwok
            (by omega) hr
          unfold BlockSize at hr
          have hbound : ∃ pr1 pos1, w1._file = some ⟨bytes, pr1, some pos1⟩ := by
            obtain ⟨fb, fp, ff⟩ := f1
            dsimp only at g6 g8
            cases ff with
            | none => exact absurd rfl (g8 (by simp))
            | some pos1 => exact ⟨fp, pos1, by rw [g5, g6]⟩
          have hgot : (bytes.length ≤ 512 ∨ w1.CacheFor bytes) ∧
              min 512 (bytes.length - block * 512) ≤ got.length ∧
              got.take (min 512 (bytes.length - block * 512))
                = (bytes.drop (block * 512)).take (min 512 (bytes.length - block * 512)) := by
            rcases hwfor with h | h
            · have : min 512 (bytes.length - block * 512) = 0 := by omega
              rw [this]
              exact ⟨Or.inl h, Nat.zero_le _, rfl⟩
            · obtain ⟨w2, hr2, hfor2⟩ := WavLoader.read_aligned w bytes pr block hwf hwp
                hblock (by omega) hlt h
              rw [hr] at hr2
              simp only [Option.some.injEq, Prod.mk.injEq] at hr2
              rw [← hr2.2] at hfor2
              refine ⟨Or.inr hfor2, ?_, ?_⟩
              · have hl : got.length = min 512 (bytes.length - block * 512) := by
                  rw [hr2.1]; simp only [List.length_take, List.length_drop]
                exact Nat.le_of_eq hl.symm
              · rw [hr2.1, List.take_take]
                congr 1
                omega
          split
          · rename_i hpos
            refine ⟨⟨hbound, g3, hgot.1, ?_, ?_, ?_⟩, idx, block, got, hidx, ?_, rfl, rfl⟩
            · show (writeAt s._ringBuf (idx * BlockSize) got).length = 1536
              unfold NumBlocks at hidx
              unfold BlockSize
              rw [writeAt_length _ _ _ (by omega)]
              exact hring
            · show (s._bufBlockMap.set idx block).length = NumBlocks
              rw [List.length_set]; exact hmap
            · exact coherent_deliver s _ bytes got idx block hcoh hring hmap hidx g1 rfl rfl
                hgot.2.1 hgot.2.2
            · intro h; rw [h] at hpos; simp at hpos
          · exact ⟨⟨hbound, g3, hgot.1, hring, hmap, hcoh⟩, rfl, rfl⟩

end AudioSamplerStream

namespace AudioSamplerStream

theorem delivered_congr {s s1 t : AudioSamplerStream} (hm : s1._bufBlockMap = s._bufBlockMap)
    (hr : s1._ringBuf = s._ringBuf) (h : Delivered s1 t) : Delivered s t := by
  obtain ⟨idx, block, got, h1, h2, h3, h4⟩ := h
  exact ⟨idx, block, got, h1, h2, by rw [h3, hm], by rw [h4, hr]⟩

theorem signLoop_coherent (s : AudioSamplerStream) (bytes : List Nat) (idx r absDiff : Nat)
    (hinv : BlockInv s bytes) (hlt : bytes.length < 4294967296) (hidx : idx < NumBlocks)
    (ha : 1 ≤ absDiff) :
    Step.Sat
      (fun t => BlockInv t bytes ∧ t._bufBlockMap = s._bufBlockMap ∧ t._ringBuf = s._ringBuf)
      (fun t => BlockInv t bytes ∧ Delivered s t) (signLoop s idx r absDiff) := by
  unfold signLoop
  have h1 := tryBlock_coherent s bytes idx (r + absDiff) hinv hlt hidx (by omega)
  split
  · rename_i s1 hc
    rw [hc] at h1
    obtain ⟨i1, m1, r1⟩ :
      BlockInv s1 bytes ∧ s1._bufBlockMap = s._bufBlockMap ∧ s1._ringBuf = s._ringBuf := h1
    split
    · exact ⟨i1, m1, r1⟩
    · have h2 := tryBlock_coherent s1 bytes idx (r - absDiff) i1 hlt hidx (by omega)
      cases h : tryBlock s1 idx (r - absDiff) with
      | undef => trivial
      | brk t =>
        rw [h] at h2
        exact ⟨h2.1, h2.2.1.trans m1, h2.2.2.trans r1⟩
      | cont t =>
        rw [h] at h2
        exact ⟨h2.1, h2.2.1.trans m1, h2.2.2.trans r1⟩
      | done t =>
        rw [h] at h2
        exact ⟨h2.1, delivered_congr m1 r1 h2.2⟩
  · exact h1

theorem primeScan_coherent (bytes : List Nat) (hlt : bytes.length < 4294967296)
    (idx r fuel : Nat) (hidx : idx < NumBlocks) :
    ∀ (absDiff : Nat) (s t : AudioSamplerStream) (b : Bool),
      primeScan idx r fuel absDiff s = some (b, t) → BlockInv s bytes → 1 ≤ absDiff →
        BlockInv t bytes ∧
          ((t._bufBlockMap = s._bufBlockMap ∧ t._ringBuf = s._ringBuf) ∨ Delivered s t) := by
  induction fuel with
  | zero =>
    intro absDiff s t b h hinv _
    simp only [primeScan, Option.some.injEq, Prod.mk.injEq] at h
    rw [← h.2]; exact ⟨hinv, Or.inl ⟨rfl, rfl⟩⟩
  | succ n ih =>
    intro absDiff s t b h hinv ha
    rw [primeScan] at h
    have hf := signLoop_coherent s bytes idx r absDiff hinv hlt hidx ha
    split at h
    · rename_i s1 hs
      rw [hs] at hf
      simp only [Option.some.injEq, Prod.mk.injEq] at h
      rw [← h.2]; exact ⟨hf.1, Or.inr hf.2⟩
    · simp at h
    · rename_i s1 hs
      rw [hs] at hf
      obtain ⟨i1, m1, r1⟩ :
        BlockInv s1 bytes ∧ s1._bufBlockMap = s._bufBlockMap ∧ s1._ringBuf = s._ringBuf := hf
      obtain ⟨j1, j2⟩ := ih _ _ _ _ h i1 (by omega)
      refine ⟨j1, ?_⟩
      rcases j2 with ⟨k1, k2⟩ | k
      · exact Or.inl ⟨k1.trans m1, k2.trans r1⟩
      · exact Or.inr (delivered_congr m1 r1 k)
    · rename_i s1 hs
      rw [hs] at hf
      obtain ⟨i1, m1, r1⟩ :
        BlockInv s1 bytes ∧ s1._bufBlockMap = s._bufBlockMap ∧ s1._ringBuf = s._ringBuf := hf
      obtain ⟨j1, j2⟩ := ih _ _ _ _ h i1 (by omega)
      refine ⟨j1, ?_⟩
      rcases j2 with ⟨k1, k2⟩ | k
      · exact Or.inl ⟨k1.trans m1, k2.trans r1⟩
      · exact Or.inr (delivered_congr m1 r1 k)

theorem furthestFrom_lt (r : Nat) :
    ∀ (l : List Nat) (i idx m : Nat), idx < i + l.length →
      (furthestFrom r l i idx m).1 < i + l.length := by
  intro l
  induction l with
  | nil => intro i idx m h; exact h
  | cons b rest ih =>
    intro i idx m h
    rw [furthestFrom]
    simp only [List.length_cons] at h ⊢
    split
    · have := ih (i + 1) i (blockDiff b r) (by omega)
      omega
    · have := ih (i + 1) idx m (by omega)
      omega

/-- The eviction candidate of `prime` is one of the slots. -/
theorem furthest_lt (r : Nat) (map : List Nat) (h : 0 < map.length) :
    (furthest r map).1 < map.length := by
  unfold furthest
  have := furthestFrom_lt r (map.drop 1) 1 0 (blockDiff (map.getD 0 0) r)
    (by rw [List.length_drop]; omega)
  rw [List.length_drop] at this
  omega

theorem prime_coherent (p : Params) (s t : AudioSamplerStream) (bytes : List Nat) (b : Bool)
    (hlt : bytes.length < 4294967296) (hinv : BlockInv s bytes)
    (h : prime p s = some (b, t)) :
    BlockInv t bytes ∧ (t._bufBlockMap = s._bufBlockMap ∨ Delivered s t) := by
  unfold prime at h
  dsimp only at h
  have hidx : (furthest (readHeadBlock p s) s._bufBlockMap).1 < NumBlocks := by
    have := furthest_lt (readHeadBlock p s) s._bufBlockMap (by rw [hinv.2.2.2.2.1]; decide)
    rw [hinv.2.2.2.2.1] at this
    exact this
  obtain ⟨h1, h2⟩ := primeScan_coherent bytes hlt _ _ _ hidx _ _ _ _ h hinv (Nat.le_refl 1)
  refine ⟨h1, ?_⟩
  rcases h2 with h2 | h2
  · exact Or.inl h2.1
  · exact Or.inr h2

theorem blockInv_same (s t : AudioSamplerStream) (bytes : List Nat) (h : SameBuffers s t)
    (hinv : BlockInv s bytes) : BlockInv t bytes := by
  obtain ⟨h1, h2, h3, h4⟩ := h
  unfold BlockInv Coherent slotBytes at *
  rw [h1, h3, h4]
  exact hinv

theorem step_coherent (p : Params) (s s1 : AudioSamplerStream) (bytes : List Nat) (op : Op)
    (r : Option (Nat × List Nat)) (hlt : bytes.length < 4294967296)
    (h : step p s op = some (s1, r)) (hinv : BlockInv s bytes) :
    BlockInv s1 bytes ∧
      (s1._bufBlockMap = s._bufBlockMap ∨ (op = Op.prime ∧ Delivered s s1)) := by
  cases op with
  | read n =>
    simp only [step, Option.some.injEq, Prod.mk.injEq] at h
    rw [← h.1]
    exact ⟨blockInv_same _ _ _ (read_spec p s n).1 hinv, Or.inl (read_spec p s n).1.2.2.2⟩
  | prime =>
    simp only [step] at h
    cases hp : prime p s with
    | none => simp [hp] at h
    | some q =>
      obtain ⟨b, t⟩ := q
      simp only [hp, Option.some.injEq, Prod.mk.injEq] at h
      rw [← h.1]
      obtain ⟨k1, k2⟩ := prime_coherent p s t bytes b hlt hinv hp
      refine ⟨k1, ?_⟩
      rcases k2 with k2 | k2
      · exact Or.inl k2
      · exact Or.inr ⟨rfl, k2⟩
  | setSampleIndex i =>
    simp only [step] at h
    cases hp : setSampleIndex s i with
    | none => simp [hp] at h
    | some t =>
      simp only [hp, Option.some.injEq, Prod.mk.injEq] at h
      rw [← h.1]
      exact ⟨blockInv_same _ _ _ (setSampleIndex_same s t i hp).1 hinv,
        Or.inl (setSampleIndex_same s t i hp).1.2.2.2⟩
  | reset =>
    simp only [step, reset] at h
    cases hp : setSampleIndex s 0 with
    | none => simp [hp] at h
    | some t =>
      simp only [hp, Option.some.injEq, Prod.mk.injEq] at h
      rw [← h.1]
      exact ⟨blockInv_same _ _ _ (setSampleIndex_same s t 0 hp).1 hinv,
        Or.inl (setSampleIndex_same s t 0 hp).1.2.2.2⟩

theorem exec_coherent (p : Params) (bytes : List Nat) (hlt : bytes.length < 4294967296)
    (ops : List Op) :
    ∀ (s t : AudioSamplerStream) (rs : List (Nat × List Nat)),
      exec p ops s = some (t, rs) → BlockInv s bytes → BlockInv t bytes := by
  induction ops with
  | nil =>
    intro s t rs h hinv
    simp only [exec, Option.some.injEq, Prod.mk.injEq] at h
    rw [← h.1]; exact hinv
  | cons op rest ih =>
    intro s t rs h hinv
    rw [exec] at h
    cases hs : step p s op with
    | none => simp [hs] at h
    | some q =>
      obtain ⟨s1, r⟩ := q
      simp only [hs] at h
      cases he : exec p rest s1 with
      | none => simp [he] at h
      | some q2 =>
        obtain ⟨s2, rs2⟩ := q2
        simp only [he, Option.some.injEq, Prod.mk.injEq] at h
        rw [← h.1]
        exact ih s1 s2 rs2 he (step_coherent p s s1 bytes op r hlt hs hinv).1

end AudioSamplerStream

namespace WavLoader

/-- In the intro read of `load` (a read that starts at byte 44 and ends within
the first 512 bytes) every pass through the loop body leaves block 0 in the
cache. -/
theorem readBody_blockZero (c eb eo : Nat) (w : WavLoader) (f : FileWrapper) (out : List Nat)
    (hinv : LoopInv c eb eo w out) (h44 : eb * 512 + eo = 44 + c) (hE : eb * 512 + eo ≤ 512)
    (hlt : out.length < c) :
    (readBody eb eo w f out false).1._blockNum = 0 := by
  obtain ⟨h1, h2, _, _⟩ := hinv
  have hq : w._position / 512 = 0 := by omega
  have ho : w._position % 512 > 0 := by omega
  unfold readBody
  dsimp only
  by_cases hb : w._position / 512 = w._blockNum
  · rw [if_pos hb]
    split <;> (dsimp only; omega)
  · rw [if_neg hb, if_pos (Or.inr ho)]
    split <;> exact hq

theorem readLoop_blockZero (c eb eo fuel : Nat) (h44 : eb * 512 + eo = 44 + c)
    (hE : eb * 512 + eo ≤ 512) :
    ∀ (w : WavLoader) (f : FileWrapper) (out : List Nat) (sr : Bool),
      LoopInv c eb eo w out → CacheOK w →
      (w._blockNum = 0 ∨ (sr = false ∧ out.length < c ∧ 0 < fuel)) →
        (readLoop c eb eo fuel w f out sr).2.1._blockNum = 0 := by
  induction fuel with
  | zero =>
    intro w f out sr _ _ h
    rcases h with h | ⟨_, _, h⟩
    · exact h
    · omega
  | succ n ih =>
    intro w f out sr hinv hcache h
    rw [readLoop]
    split
    · rename_i hcond
      simp only [Bool.and_eq_true, Bool.not_eq_true', decide_eq_true_eq] at hcond
      obtain ⟨hsr, hlt⟩ := hcond
      subst hsr
      obtain ⟨b1, b2, _, _, _⟩ := readBody_inv c eb eo w f out hinv hcache hlt
      exact ih _ _ _ _ b1 b2 (Or.inl (readBody_blockZero c eb eo w f out hinv h44 hE hlt))
    · rename_i hcond
      rcases h with h | ⟨h1, h2, _⟩
      · exact h
      · exact absurd (by simp [h1, h2]) hcond

end WavLoader

namespace AudioSamplerStream

theorem introBytes_pos (p : Params) : 0 < IntroBufSize p * p.sample.sizeof := by
  unfold IntroBufSize BlockSize sizeofWavHeader
  cases p.sample <;> simp [SampleType.sizeof]

theorem ringBytes (p : Params) : CacheBufSize p * p.sample.sizeof = 1536 := by
  unfold CacheBufSize BlockSize NumBlocks
  cases p.sample <;> simp [SampleType.sizeof]

/-- A successful `load` establishes the invariant, whatever the loader cached
before. -/
theorem load_blockInv (p : Params) (s0 s1 : AudioSamplerStream) (f : FileWrapper)
    (hsz : Sized p s0) (hcache : s0._file.CacheOK) (hlt : f.bytes.length < 4294967296)
    (h : load p s0 (some f) = some (AudioSamplerError.NoErr, s1)) :
    BlockInv s1 f.bytes := by
  obtain ⟨w, got, w1, ho, hr, hs1⟩ := load_noErr_inv p s0 s1 (some f) h
  have hcw : w.CacheOK := by
    have := WavLoader.openWav_cacheOK s0._file (some f) hcache
    rw [ho] at this; exact this
  obtain ⟨f', hf', _, h44, _, hw⟩ := WavLoader.openWav_inv _ _ _ ho
  simp only [Option.some.injEq] at hf'
  subst hf'
  have hpos : w._position = 44 := by rw [hw]
  have hfile : w._file = some ⟨f.bytes, f.present, some 44⟩ := by rw [hw]
  have hreq := introBytes_le p
  have hreq0 := introBytes_pos p
  obtain ⟨_, _, k0, _, f1, k1, k2, _, k4⟩ := WavLoader.read_inv w w1 _ _ got hfile hcw
    (by omega) hr
  have hbound : ∃ pr1 pos1, w1._file = some ⟨f.bytes, pr1, some pos1⟩ := by
    obtain ⟨fb, fp, ff⟩ := f1
    dsimp only at k2 k4
    cases ff with
    | none => exact absurd rfl (k4 (by simp))
    | some pos1 => exact ⟨fp, pos1, by rw [k1, k2]⟩
  have hfor : f.bytes.length ≤ 512 ∨ w1.CacheFor f.bytes := by
    by_cases hS : f.bytes.length ≤ 512
    · exact Or.inl hS
    · right
      refine Or.inr (Or.inl ?_)
      unfold WavLoader.read at hr
      rw [hfile] at hr
      simp only [Option.some.injEq, Prod.mk.injEq] at hr
      rw [← hr.2]
      have hc : MIN (IntroBufSize p * p.sample.sizeof)
          (toU32 (FileWrapper.size ⟨f.bytes, f.present, some 44⟩ - (w._position : Int)))
          = IntroBufSize p * p.sample.sizeof := by
        rw [hpos]
        simp only [FileWrapper.size]
        rw [toU32_sub _ _ (by omega) (by omega)]
        unfold MIN; split <;> omega
      rw [hc, hpos]
      generalize IntroBufSize p * p.sample.sizeof = c at hreq hreq0
      exact WavLoader.readLoop_blockZero c _ _ c (by omega) (by omega) w _ [] false
        (by have := WavLoader.loopInv_start w c (by omega); rw [hpos] at this; exact this)
        hcw (Or.inr ⟨rfl, by simpa using hreq0, hreq0⟩)
  rw [hs1]
  refine ⟨hbound, k0, hfor, ?_, ?_, ?_⟩
  · show s0._ringBuf.length = 1536
    rw [hsz.2.2.2.1, ringBytes]
  · rfl
  · intro i hi hne
    exfalso
    apply hne
    show (List.replicate NumBlocks UnmappedBlock).getD i 0 = UnmappedBlock
    unfold NumBlocks at hi ⊢
    have : i = 0 ∨ i = 1 ∨ i = 2 := by omega
    rcases this with h | h | h <;> subst h <;> rfl

/-- C18: after a successful `load` of a resource of `S < 2^32` bytes into a
stream whose arrays have their declared sizes and whose loader cache is sound,
and any sequence of `prime`, `read`, `setSampleIndex` and `reset` calls of
defined behaviour, every slot whose map entry is a block number `b` holds in
its first `min(512, S - 512 * b)` bytes the resource's bytes from offset
`512 * b`; and a further call either leaves the map as it is or is a `prime`
whose block read delivered a nonzero count into the slot whose entry it sets. -/
theorem cache_coherent_at_call_boundaries (p : Params) (s0 s1 t : AudioSamplerStream)
    (f : FileWrapper) (ops : List Op) (rs : List (Nat × List Nat))
    (hsz : Sized p s0) (hcache : s0._file.CacheOK) (hlt : f.bytes.length < 4294967296)
    (hload : load p s0 (some f) = some (AudioSamplerError.NoErr, s1))
    (hexec : exec p ops s1 = some (t, rs)) :
    Coherent t f.bytes ∧
      ∀ (op : Op) (t1 : AudioSamplerStream) (r : Option (Nat × List Nat)),
        step p t op = some (t1, r) →
          t1._bufBlockMap = t._bufBlockMap ∨ (op = Op.prime ∧ Delivered t t1) := by
  have hinv := exec_coherent p f.bytes hlt ops s1 t rs hexec
    (load_blockInv p s0 s1 f hsz hcache hlt hload)
  exact ⟨hinv.2.2.2.2.2, fun op t1 r hstep => (step_coherent p t t1 f.bytes op r hlt hstep hinv).2⟩

end AudioSamplerStream

namespace AudioSamplerStream

/-- C18, witness of `cache_coherent_at_call_boundaries`: the new stream loaded
from the 2048-byte file, primed three times and read for 300 samples; the map
is `[1, 2, 3]`. -/
theorem cache_coherent_at_call_boundaries_witness :
    Sized stereo16 newStream ∧ newStream._file.CacheOK ∧
      (wavFile 2048).bytes.length < 4294967296 ∧
      load stereo16 newStream (some (wavFile 2048))
        = some (AudioSamplerError.NoErr, loadedStream 2048) ∧
      exec stereo16 [Op.prime, Op.prime, Op.prime, Op.read 300] (loadedStream 2048)
        = some (streamAfter 2048 [Op.prime, Op.prime, Op.prime, Op.read 300],
            resultsAfter 2048 [Op.prime, Op.prime, Op.prime, Op.read 300]) ∧
      (streamAfter 2048 [Op.prime, Op.prime, Op.prime, Op.read 300])._bufBlockMap = [1, 2, 3] ∧
      Coherent (streamAfter 2048 [Op.prime, Op.prime, Op.prime, Op.read 300])
        (wavFile 2048).bytes ∧
      ∀ (op : Op) (t1 : AudioSamplerStream) (r : Option (Nat × List Nat)),
        step stereo16 (streamAfter 2048 [Op.prime, Op.prime, Op.prime, Op.read 300]) op
            = some (t1, r) →
          t1._bufBlockMap
              = (streamAfter 2048 [Op.prime, Op.prime, Op.prime, Op.read 300])._bufBlockMap ∨
            (op = Op.prime ∧
              Delivered (streamAfter 2048 [Op.prime, Op.prime, Op.prime, Op.read 300]) t1) :=
  ⟨newStream_newlyConstructed.1,
    newlyConstructed_cacheOK stereo16 newStream newStream_newlyConstructed,
    by decide!, by decide!, by decide!, by decide!,
    cache_coherent_at_call_boundaries stereo16 newStream (loadedStream 2048)
      (streamAfter 2048 [Op.prime, Op.prime, Op.prime, Op.read 300]) (wavFile 2048)
      [Op.prime, Op.prime, Op.prime, Op.read 300]
      (resultsAfter 2048 [Op.prime, Op.prime, Op.prime, Op.read 300])
      newStream_newlyConstructed.1
      (newlyConstructed_cacheOK stereo16 newStream newStream_newlyConstructed)
      (by decide!) (by decide!) (by decide!)⟩

end AudioSamplerStream

/-! ### Where the claims C11, C12, C15 and C16 do hold -/

/-- `WavLoader::open` accepts every resource that can be opened, has at least
44 bytes and begins with "RIFF": no other header field is looked at. -/
theorem WavLoader.openWav_accepts (w : WavLoader) (f : FileWrapper) (hp : f.present = true)
    (hlen : 44 ≤ f.bytes.length) (hr : f.bytes.take 4 = kRiffHeader) :
    (w.openWav (some f)).1 = true := by
  have hl : (f.bytes.take 44).length = 44 := by rw [List.length_take]; omega
  have h4 : (writeAt w._header 0 (f.bytes.take 44)).take 4 = kRiffHeader := by
    unfold writeAt
    rw [List.take_zero, List.nil_append,
      List.take_append_of_le_length (by omega), List.take_take]
    exact hr
  unfold WavLoader.openWav FileWrapper.openFile
  simp only [hp, if_true, FileWrapper.read, List.drop_zero, sizeofWavHeader, hl, ne_eq,
    not_true_eq_false, if_false, h4]

/-- `WavLoader::open` rejects every resource that delivers fewer than 44
header bytes or does not begin with "RIFF". -/
theorem WavLoader.openWav_rejects (w : WavLoader) (f : FileWrapper)
    (h : f.bytes.length < 44 ∨ f.bytes.take 4 ≠ kRiffHeader) :
    (w.openWav (some f)).1 = false := by
  cases hb : (w.openWav (some f)).1 with
  | false => rfl
  | true =>
    exfalso
    have he : w.openWav (some f) = (true, (w.openWav (some f)).2) := by
      rw [← hb]
    obtain ⟨f', hf', _, hlen, hr, _⟩ := WavLoader.openWav_inv _ _ _ he
    simp only [Option.some.injEq] at hf'
    subst hf'
    rcases h with h | h
    · omega
    · apply h
      rw [List.take_take] at hr
      exact hr

namespace AudioSamplerStream

theorem neededBlock_ne_sentinel (p : Params) (s : AudioSamplerStream) :
    neededBlock p s ≠ 4294967295 := by
  unfold neededBlock
  have h1 : toU32 ((s._sampleIdx : Int) - (IntroBufSize p : Int)) < 4294967296 := by
    unfold toU32; omega
  generalize toU32 ((s._sampleIdx : Int) - (IntroBufSize p : Int)) = x at h1
  have h2 : 64 ≤ SamplesPerBlock p := by
    unfold SamplesPerBlock BlockSize
    cases p.sample <;> simp [SampleType.sizeof]
  have h3 : x / SamplesPerBlock p ≤ x / 64 := Nat.div_le_div_left h2 (by decide)
  omega

theorem findSlot_none (scb : Nat) : ∀ (l : List Nat) (i : Nat), scb ∉ l → findSlot scb l i = none := by
  intro l
  induction l with
  | nil => intro i _; rfl
  | cons b rest ih =>
    intro i h
    rw [findSlot]
    simp only [List.mem_cons, not_or] at h
    rw [if_neg (fun e => h.1 e.symm)]
    exact ih _ h.2

/-- A cache miss stops the read: with the cursor past the intro segment, the
read pointer in the ring buffer and the needed block in no slot, `read`
returns 0, copies nothing and leaves the stream as it is. -/
theorem read_miss (p : Params) (s : AudioSamplerStream) (n : Nat)
    (hc : IntroBufSize p ≤ s._sampleIdx) (hr : IntroBufSize p ≤ s._readHead)
    (hlen : s._bufBlockMap.length = NumBlocks) (hm : neededBlock p s ∉ s._bufBlockMap) :
    read p s n = (s, 0, []) := by
  have hres : resolve p s = none := by
    unfold resolve
    have hne : readHeadMapped p s ≠ neededBlock p s := by
      unfold readHeadMapped
      split
      · rename_i hs
        intro he
        apply hm
        rw [← he]
        exact getD_mem _ _ (by rw [hlen]; exact hs)
      · exact fun e => neededBlock_ne_sentinel p s e.symm
    rw [if_pos hne, findSlot_none _ _ _ hm]
  have h0 : refreshReadHead p s = s := by
    unfold refreshReadHead
    rw [if_neg (by omega)]
  unfold read
  dsimp only
  rw [h0, if_neg (by omega)]
  cases n with
  | zero => rfl
  | succ k =>
    rw [readRing, if_pos (by omega), hres]
    simp

end AudioSamplerStream

namespace AudioSamplerStream

/-- With a nonzero `BlockAlign` in the header, `atEOF`, `setSampleIndex` and
`reset` are defined. -/
theorem defined_of_frameAlignment (s : AudioSamplerStream) (h : s._file.frameAlignment ≠ 0) :
    (atEOF s).isSome = true ∧ (reset s).isSome = true ∧
      ∀ i, (setSampleIndex s i).isSome = true := by
  have hn : s._file.numSamples = some (s._file.subChunk2Size / s._file.frameAlignment) := by
    unfold WavLoader.numSamples
    rw [if_neg h]
  unfold reset atEOF setSampleIndex
  rw [hn]
  exact ⟨rfl, rfl, fun _ => rfl⟩

end AudioSamplerStream

namespace WavLoader

theorem take_block (bytes : List Nat) (k : Nat) :
    (bytes.drop k).take (min 512 (bytes.length - k)) = (bytes.drop k).take 512 := by
  by_cases h : 512 ≤ bytes.length - k
  · rw [Nat.min_eq_left h]
  · rw [Nat.min_eq_right (by omega), List.take_of_length_le (by rw [List.length_drop]),
      List.take_of_length_le (by rw [List.length_drop]; omega)]

/-- Where the block-cached read and the plain read agree: a block-aligned
read of 512 bytes at block `b ≥ 1`, with a cache that agrees with the
resource, delivers the bytes the plain read delivers. -/
theorem read_aligned_plain (w : WavLoader) (bytes : List Nat) (pr : Bool) (b : Nat)
    (hf : w._file = some ⟨bytes, pr, some (b * 512)⟩) (hp : w._position = b * 512)
    (hb1 : 1 ≤ b) (hb2 : b * 512 < 2147483648) (hlt : bytes.length < 4294967296)
    (hc : CacheFor w bytes) :
    (w.read 512).map Prod.fst = (w.plainRead 512).map Prod.fst := by
  obtain ⟨w1, hr, _⟩ := read_aligned w bytes pr b hf hp hb1 hb2 hlt hc
  rw [hr]
  unfold plainRead
  rw [hf]
  simp only [Option.map_some', hp, take_block]

end WavLoader
